import Mathlib

/-!
Verification development for the block-processing core of the beam node
(`src/node/processor.cpp`).  The definitions below are a shallow embedding of
the block interpreter (`HandleValidatedTx` / `HandleValidatedBlock` and the
per-element handlers), the block-level checks of `HandleBlock`, the
multiblock verifier flush, `Horizon::Normalize`, and the `OnState` / `OnBlock`
entry points.  Machine integers are modelled as `Nat` / `Int` with explicit
`% 2^w` where the source relies on wrap-around.  `OnCorrupted()` (a fatal
`CorruptionException`) is modelled as the `none` outcome of `Cor α`:
a `none` result never returns to the caller in the source.

External components that are not part of this repository's sources
(`UtxoTree` / `RadixTree`, `NodeDB`, ECC primitives, `Block::SystemState`
evaluation) are modelled from the specification; each such definition says so
in its doc comment.  Hash values are modelled as an inductive datatype whose
constructors record the hashed data: equality of modelled hashes corresponds
to equality of the hashed inputs, which is the property the handlers rely on.
-/

namespace Beam

/-- Fatal-corruption monad: `none` models `OnCorrupted()` raising
`CorruptionException`, which never returns control to the caller. -/
abbrev Cor (α : Type) := Option α

/-- `Rules::HeightGenesis` (the height of the first block; `0` is treasury). -/
def heightGenesis : Nat := 1

/-- `Block::Rules::MaxHeight` (`uint64_t` maximum). -/
def maxHeight : Nat := 2 ^ 64 - 1

/-- The subset of the consensus `Rules` value consumed by the modelled code. -/
structure RulesM where
  fork2 : Nat
  maxKernelValidityDH : Nat
  shieldedEnabled : Bool
  shieldedMaxOuts : Nat
  shieldedMaxIns : Nat
  proofMin : Nat
  proofMax : Nat
  maxWindowBacklog : Nat
  assetMaxCount : Nat
  caLockPeriod : Nat
  maxRollback : Nat
  windowMedian0 : Nat
  daTargetS : Nat
  difficulty0 : Nat
  maturityCoinbase : Nat
  maturityStd : Nat
  maxBodySize : Nat
  maxAheadS : Nat
deriving DecidableEq, Repr

/-- `HeightAdd` saturates at `MaxHeight` instead of wrapping. -/
def HeightAdd (a b : Nat) : Nat := min (a + b) maxHeight

/-- Modelled hash values.  Each constructor records exactly the data the
source feeds into the corresponding hash computation, so equality of modelled
hashes is equality of the hashed inputs. -/
inductive HashV where
  | zero : HashV
  | asset (id owner meta value lock : Nat) : HashV
  | shOut (serialPub commitment id height : Nat) : HashV
  | shIn (spendPk height : Nat) : HashV
deriving DecidableEq, Repr

/-- Payload stored with a unique key (`ShieldedOutpPacked` /
`ShieldedInpPacked`). -/
inductive UVal where
  | outp (height mmrIndex txoID commitment : Nat) : UVal
  | inp (height mmrIndex : Nat) : UVal
deriving DecidableEq, Repr

/-- An entry of the shielded commitment list (`ShieldedWrite` target).
Modelled from the spec: the stored point is the elliptic-curve sum of the
output's commitment and serial public key; the formal pair records both
summands. -/
structure PtS where
  ptCommitment : Nat
  ptSerial : Nat
deriving DecidableEq, Repr

instance : Inhabited PtS := ⟨⟨0, 0⟩⟩

/-- A record of the asset registry (`Asset::Full` without the id). -/
structure AssetRec where
  owner : Nat
  meta : Nat
  value : Nat
  lockHeight : Nat
deriving DecidableEq, Repr

/-- `Asset::Full::get_Hash`, modelled as a constructor application. -/
def assetHashOf (id : Nat) (r : AssetRec) : HashV :=
  .asset id r.owner r.meta r.value r.lockHeight

/-- Rollback-journal records.  The source serializes each record into the
per-block byte buffer followed by a 4-byte length marker
(`BlockInterpretCtx::Ser`); popping the trailing marker and payload
(`BlockInterpretCtx::Der`) is LIFO.  The list below models that buffer: each
element is one framed record, appends happen at the tail, pops take the tail.
A pop from an empty buffer, or a pop whose payload does not decode as the
expected record, is `OnCorrupted`. -/
inductive RbEntry where
  | aid (id : Nat) : RbEntry
  | destroyed (meta lock : Nat) : RbEntry
  | lockH (h : Nat) : RbEntry
deriving DecidableEq, Repr

/-! ## UtxoTree

Modelled from the spec: the `UtxoTree` is an ordered collection of leaves
keyed by `(commitment ‖ maturity_be)`; a leaf stores one inline `TxoID` plus
an extension list, pushed and popped LIFO.  It is modelled as an association
list sorted strictly by key; a leaf's ids are a stack whose head is the most
recently pushed id. -/

/-- A `UtxoTree` key: `(commitment, maturity)`, ordered lexicographically
(the byte key is `commitment ‖ maturity_be`). -/
abbrev UKey := Nat × Nat

/-- Strict lexicographic order on `UtxoTree` keys. -/
def keyLtB (a b : UKey) : Bool := a.1 < b.1 || (a.1 == b.1 && a.2 < b.2)

abbrev UtxoTree := List (UKey × List Nat)

/-- Leaf lookup by exact key. -/
def utFind (t : UtxoTree) (k : UKey) : Option (List Nat) :=
  (t.find? (fun e => e.1 == k)).map (·.2)

/-- Replace the leaf at `k`, or insert a new leaf at its sorted position. -/
def utSet (t : UtxoTree) (k : UKey) (ids : List Nat) : UtxoTree :=
  match t with
  | [] => [(k, ids)]
  | e :: rest =>
    if e.1 == k then (k, ids) :: rest
    else if keyLtB k e.1 then (k, ids) :: e :: rest
    else e :: utSet rest k ids

/-- Delete the leaf at `k` (no-op when absent). -/
def utErase (t : UtxoTree) (k : UKey) : UtxoTree :=
  match t with
  | [] => []
  | e :: rest => if e.1 == k then rest else e :: utErase rest k

/-- Ranged find of `HandleBlockElement(Input)`: the first leaf (in key order)
whose commitment matches and whose maturity lies in `[mMin, mMax]`. -/
def utFindRanged (t : UtxoTree) (c mMin mMax : Nat) : Option (UKey × List Nat) :=
  t.find? (fun e => e.1.1 == c && mMin ≤ e.1.2 && e.1.2 ≤ mMax)

/-- Strict sortedness of the leaf list. -/
def utSortedB : UtxoTree → Bool
  | [] => true
  | [_] => true
  | x :: y :: t => keyLtB x.1 y.1 && utSortedB (y :: t)

/-! ## Asset registry (`NodeDB` asset table)

Modelled from the spec: assets are 1-based, `AssetAdd` with a zero id
allocates the next id (`count + 1`) while a nonzero id re-inserts at exactly
that id (the rollback path of `AssetDestroy` relies on getting the same id
back); `AssetDelete` clears the slot, discards the trailing run of cleared
slots and returns the remaining count, which `InternalAssetDel` compares with
the assets-MMR count. -/

abbrev AssetTbl := List (Option AssetRec)

/-- Extend the table with empty slots up to length `n`. -/
def atPad (a : AssetTbl) (n : Nat) : AssetTbl :=
  a ++ List.replicate (n - a.length) none

/-- `NodeDB::AssetAdd`: allocate (`idHint = 0`) or re-insert at a given id. -/
def AssetAdd (a : AssetTbl) (r : AssetRec) (idHint : Nat) : AssetTbl × Nat :=
  if idHint = 0 then (a ++ [some r], a.length + 1)
  else ((atPad a idHint).set (idHint - 1) (some r), idHint)

/-- `NodeDB::AssetDelete`: clear the slot, shrink the table when the deleted
asset was the last one, and return the remaining count. -/
def AssetDelete (a : AssetTbl) (id : Nat) : AssetTbl × Nat :=
  let b0 := (atPad a id).set (id - 1) none
  let b := if id = b0.length then b0.dropLast else b0
  (b, b.length)

/-- `NodeDB::AssetGetSafe`. -/
def AssetGetSafe (a : AssetTbl) (id : Nat) : Option AssetRec :=
  if id = 0 then none else (a.getD (id - 1) none)

/-- `NodeDB::AssetSetValue` (also rewrites the lock height). -/
def AssetSetValue (a : AssetTbl) (id value lock : Nat) : AssetTbl :=
  match a.getD (id - 1) none with
  | none => a
  | some r => a.set (id - 1) (some { r with value := value, lockHeight := lock })

/-- `NodeDB::AssetFindByOwner` (truthiness of the returned id). -/
def AssetFindByOwner (a : AssetTbl) (owner : Nat) : Bool :=
  a.any (fun o => match o with | some r => r.owner == owner | none => false)

/-- Replace position `i` of an MMR hash list (`Mmr::Replace`). -/
def mmrReplace (m : List HashV) (i : Nat) (h : HashV) : List HashV := m.set i h

/-- `Mmr::ResizeTo`: truncate, or grow with zero hashes. -/
def mmrResizeTo (m : List HashV) (n : Nat) : List HashV :=
  if n ≤ m.length then m.take n else m ++ List.replicate (n - m.length) .zero

/-- Resize of the shielded commitment list (`NodeDB::ShieldedResize`). -/
def shResizeTo (l : List PtS) (n : Nat) : List PtS :=
  if n ≤ l.length then l.take n else l ++ List.replicate (n - l.length) default

/-! ## Chain state touched by the block interpreter -/

/-- The mutable chain state read and written by `HandleValidatedTx` and the
per-element handlers: the `UtxoTree`, `m_Extra.m_Txos`,
`m_Extra.m_ShieldedOutputs`, the three MMRs, the asset registry, the shielded
commitment list, the unique-key set, the kernel-id index
(`InsertKernel` / `DeleteKernel`) and the persisted `ShieldedOutputs` /
`ShieldedInputs` / `AssetsCountUsed` parameters. -/
structure ChainState where
  utxos : UtxoTree
  txos : Nat
  shieldedOutputs : Nat
  mmrStates : List HashV
  mmrShielded : List HashV
  mmrAssets : List HashV
  assets : AssetTbl
  cmList : List PtS
  uniqueKeys : List (UKey × UVal)
  kernelIdx : List (Nat × Nat)
  paramShieldedOutputs : Nat
  paramShieldedInputs : Nat
  paramAssetsUsed : Nat
deriving DecidableEq, Repr

/-- `NodeDB::UniqueFind` on the unique-key set. -/
def uniqueFind (s : ChainState) (k : UKey) : Option UVal :=
  (s.uniqueKeys.find? (fun e => e.1 == k)).map (·.2)

/-- `BlockInterpretCtx` (the interpreter context threaded through the
handlers), including its rollback buffer and the validate-only duplicate
sets. -/
structure Bic where
  height : Nat
  fwd : Bool
  validateOnly : Bool := false
  alreadyValidated : Bool := false
  saveKid : Bool := true
  updateMmrs : Bool := true
  storeShieldedOutput : Bool := false
  limitExceeded : Bool := false
  shieldedIns : Nat := 0
  shieldedOuts : Nat := 0
  assetsUsed : Nat
  assetHi : Nat
  rollback : List RbEntry := []
  dups : List UKey := []
  dupIDs : List Nat := []
deriving DecidableEq, Repr

/-- `BlockInterpretCtx::ValidateAssetRange`: an asset proof (represented by
its `m_Begin` field) must start at or below the last valid asset id. -/
def ValidateAssetRange (bic : Bic) (p : Option Nat) : Bool :=
  match p with
  | none => true
  | some b => b ≤ bic.assetHi

/-- `BlockInterpretCtx::EnsureAssetsUsed`: lazily load the used-assets count
from the `AssetsCountUsed` parameter (sentinel `s_MaxCount + 1`). -/
def EnsureAssetsUsed (R : RulesM) (s : ChainState) (bic : Bic) : Bic :=
  if bic.assetsUsed = R.assetMaxCount + 1 then
    { bic with assetsUsed := s.paramAssetsUsed }
  else bic

/-- `BlockInterpretCtx::Ser`: append one framed record to the rollback
buffer. -/
def rbPush (bic : Bic) (e : RbEntry) : Bic :=
  { bic with rollback := bic.rollback ++ [e] }

/-- `BlockInterpretCtx::Der`: pop the most recently appended record;
corruption when the buffer is empty. -/
def rbPop (bic : Bic) : Cor (RbEntry × Bic) :=
  match bic.rollback.getLast? with
  | none => none
  | some e => some (e, { bic with rollback := bic.rollback.dropLast })

/-! ## Block data -/

/-- An `Input`: commitment plus the `m_Internal` fields resolved at
apply-time. -/
structure Inp where
  commitment : Nat
  internalID : Nat := 0
  internalMaturity : Nat := 0
deriving DecidableEq, Repr

/-- An `Output`: commitment, coinbase flag, incubation period and optional
asset proof (represented by its `m_Begin`). -/
structure Outp where
  commitment : Nat
  coinbase : Bool := false
  incubation : Nat := 0
  assetProof : Option Nat := none
deriving DecidableEq, Repr

/-- `Output::get_MinMaturity`.  Modelled from the spec: the larger of the
apply height and the creation height plus the coinbase maturity period (or
the standard one) plus the incubation period. -/
def get_MinMaturity (R : RulesM) (h : Nat) (o : Outp) : Nat :=
  h + (if o.coinbase then R.maturityCoinbase else R.maturityStd) + o.incubation

/-- Kernel payload by subtype. -/
inductive KrnData where
  | std (relLock : Option (Nat × Nat)) : KrnData
  | assetCreate (owner meta : Nat) : KrnData
  | assetEmit (assetID owner : Nat) (value : Int) : KrnData
  | assetDestroy (assetID owner : Nat) : KrnData
  | shOut (serialPub commitment : Nat) (assetProof : Option Nat) : KrnData
  | shIn (spendPk windowEnd cfg : Nat) (assetProof : Option Nat) : KrnData
deriving DecidableEq, Repr

/-- A kernel: its `m_Internal.m_ID`, its subtype payload and its nested
kernels. -/
inductive Krn where
  | mk (kid : Nat) (data : KrnData) (nested : List Krn) : Krn

/-- The kernel's internal id. -/
def Krn.kid : Krn → Nat
  | .mk kid _ _ => kid

/-- A block body (`TxVectors::Full`): inputs, outputs, kernels. -/
structure Blk where
  inputs : List Inp
  outputs : List Outp
  kernels : List Krn

/-! ## Element handlers -/

/-- `HandleBlockElement(Input)`, forward: ranged lookup of the commitment
with maturity in `[HeightGenesis - 1, height - 1]`, pop one id (delete the
leaf when it was inline), record the resolved maturity and id in the
input. -/
def HandleInputFwd (v : Inp) (h : Nat) (s : ChainState) : Bool × Inp × ChainState :=
  match utFindRanged s.utxos v.commitment (heightGenesis - 1) (h - 1) with
  | none => (false, v, s)
  | some (k, ids) =>
    match ids with
    | [] => (false, v, s)
    | [i] =>
      (true, { v with internalMaturity := k.2, internalID := i },
       { s with utxos := utErase s.utxos k })
    | i :: rest =>
      (true, { v with internalMaturity := k.2, internalID := i },
       { s with utxos := utSet s.utxos k rest })

/-- `HandleBlockElement(Input)`, backward: re-insert the recorded id at the
recorded key (create the leaf or push onto it).  Always succeeds. -/
def HandleInputBwd (v : Inp) (s : ChainState) : ChainState :=
  let k : UKey := (v.commitment, v.internalMaturity)
  match utFind s.utxos k with
  | none => { s with utxos := utSet s.utxos k [v.internalID] }
  | some ids => { s with utxos := utSet s.utxos k (v.internalID :: ids) }

/-- `HandleBlockElement(Output)`, forward.  The source calls
`m_Utxos.Find(cu, key, bCreate)` with `bCreate = true` before validating the
asset-proof range, so when a fresh leaf was created and the range check then
fails, the created leaf stays in the tree (its id is unassigned in the
source; modelled as `0`).  On success the output receives the next TxoID
(`m_Extra.m_Txos`) and the counter is incremented; the push onto an existing
leaf fails when the leaf's 32-bit count would wrap. -/
def HandleOutputFwd (R : RulesM) (v : Outp) (s : ChainState) (bic : Bic) :
    Bool × ChainState :=
  let k : UKey := (v.commitment, get_MinMaturity R bic.height v)
  match utFind s.utxos k with
  | none =>
    if !ValidateAssetRange bic v.assetProof then
      (false, { s with utxos := utSet s.utxos k [0] })
    else
      (true, { s with utxos := utSet s.utxos k [s.txos], txos := s.txos + 1 })
  | some ids =>
    if !ValidateAssetRange bic v.assetProof then (false, s)
    else if (ids.length + 1) % 2 ^ 32 == 0 then (false, s)
    else
      (true, { s with utxos := utSet s.utxos k (s.txos :: ids), txos := s.txos + 1 })

/-- `HandleBlockElement(Output)`, backward: decrement the TxoID counter and
pop the leaf at the recomputed key (deleting it when inline).  Always
succeeds in the source (asserts only). -/
def HandleOutputBwd (R : RulesM) (v : Outp) (h : Nat) (s : ChainState) : ChainState :=
  let k : UKey := (v.commitment, get_MinMaturity R h v)
  let s1 := { s with txos := s.txos - 1 }
  match utFind s1.utxos k with
  | none => s1
  | some [] => { s1 with utxos := utErase s1.utxos k }
  | some [_] => { s1 with utxos := utErase s1.utxos k }
  | some (_ :: rest) => { s1 with utxos := utSet s1.utxos k rest }

/-- `NodeDB::FindKernel`: the height at which the kernel id is recorded
(`0`, i.e. below genesis, when absent; the maximal recorded height when
present). -/
def FindKernel (s : ChainState) (kid : Nat) : Nat :=
  (s.kernelIdx.filterMap (fun e => if e.1 == kid then some e.2 else none)).foldr max 0

/-- `NodeProcessor::FindVisibleKernel`: a found kernel is invisible from
fork 2 on when it is older than `MaxKernelValidityDH`. -/
def FindVisibleKernel (R : RulesM) (s : ChainState) (bic : Bic) (kid : Nat) : Nat :=
  let h := FindKernel s kid
  if h ≥ heightGenesis &&
      (bic.height ≥ R.fork2 && bic.height - h > R.maxKernelValidityDH) then 0
  else h

/-- `NodeProcessor::IsShieldedInPool`: window validity of a shielded input's
anonymity-set reference. -/
def IsShieldedInPool (R : RulesM) (s : ChainState) (windowEnd cfg : Nat) : Bool :=
  if !R.shieldedEnabled then false
  else if windowEnd > s.shieldedOutputs then false
  else if cfg == R.proofMin then true
  else if cfg != R.proofMax then false
  else decide (s.shieldedOutputs ≤ windowEnd + R.maxWindowBacklog)

/-! ## Kernel subtype handlers -/

/-- `HandleKernel(TxKernelStd)`: enforce the relative lock against the
referenced kernel's recorded height (pure, no state change). -/
def HandleKernelStd (R : RulesM) (relLock : Option (Nat × Nat)) (s : ChainState)
    (bic : Bic) : Bool :=
  match relLock with
  | none => true
  | some (lockID, dh) =>
    if bic.fwd && !bic.alreadyValidated then
      let h0 := FindVisibleKernel R s bic lockID
      if h0 < heightGenesis then false
      else decide (HeightAdd h0 dh ≤ bic.height)
    else true

/-- `NodeProcessor::InternalAssetAdd`: zero the value, insert into the
registry, grow the assets MMR when needed and write the asset's hash at its
slot.  Returns the updated state and the asset id. -/
def InternalAssetAdd (s : ChainState) (r : AssetRec) (idHint : Nat) :
    ChainState × Nat :=
  let r0 := { r with value := 0 }
  let (tbl, id) := AssetAdd s.assets r0 idHint
  let m0 := if s.mmrAssets.length < id then mmrResizeTo s.mmrAssets id else s.mmrAssets
  let m1 := mmrReplace m0 (id - 1) (assetHashOf id r0)
  ({ s with assets := tbl, mmrAssets := m1 }, id)

/-- `NodeProcessor::InternalAssetDel`: delete from the registry, then shrink
the assets MMR when the count dropped below it, otherwise zero the slot. -/
def InternalAssetDel (s : ChainState) (id : Nat) : ChainState :=
  let (tbl, nCount) := AssetDelete s.assets id
  let m1 := if nCount < s.mmrAssets.length then mmrResizeTo s.mmrAssets nCount
            else mmrReplace s.mmrAssets (id - 1) .zero
  { s with assets := tbl, mmrAssets := m1 }

/-- `HandleKernel(TxKernelAssetCreate)`: forward, reject a duplicate owner or
an exhausted asset budget, allocate the asset (lock height = current height)
and journal the allocated id; backward, pop the journaled id and delete. -/
def HandleKernelAssetCreate (R : RulesM) (owner meta : Nat) (s : ChainState)
    (bic : Bic) : Cor (Bool × ChainState × Bic) :=
  let step1 : Cor (Bool × Bic) :=
    if !bic.alreadyValidated then
      let bic := EnsureAssetsUsed R s bic
      if bic.fwd then
        if AssetFindByOwner s.assets owner then some (false, bic)
        else if bic.assetsUsed ≥ R.assetMaxCount then some (false, bic)
        else some (true, { bic with assetsUsed := bic.assetsUsed + 1 })
      else some (true, { bic with assetsUsed := bic.assetsUsed - 1 })
    else some (true, bic)
  match step1 with
  | none => none
  | some (false, bic1) => some (false, s, bic1)
  | some (true, bic1) =>
    if !bic1.updateMmrs then some (true, s, bic1)
    else if bic1.fwd then
      let (s1, id) := InternalAssetAdd s
        { owner := owner, meta := meta, value := 0, lockHeight := bic1.height } 0
      some (true, s1, rbPush bic1 (.aid id))
    else
      match rbPop bic1 with
      | none => none
      | some (.aid id, bic2) => some (true, InternalAssetDel s id, bic2)
      | some (_, _) => none

/-- `HandleKernel(TxKernelAssetDestroy)`: forward, require the recorded
owner, a zero value and an expired lock period, then delete and journal the
metadata and lock height; backward, pop the journal and re-insert at the
kernel's asset id (`OnCorrupted` when the allocator returns a different
id). -/
def HandleKernelAssetDestroy (R : RulesM) (assetID owner : Nat) (s : ChainState)
    (bic : Bic) : Cor (Bool × ChainState × Bic) :=
  let bic := if !bic.alreadyValidated then EnsureAssetsUsed R s bic else bic
  if bic.fwd then
    match AssetGetSafe s.assets assetID with
    | none => some (false, s, bic)
    | some ai =>
      let checksOk : Bool :=
        if bic.alreadyValidated then true
        else decide (ai.owner = owner) && decide (ai.value = 0) &&
          !decide (ai.lockHeight + R.caLockPeriod > bic.height)
      if !checksOk then some (false, s, bic)
      else
        let bic1 := if !bic.alreadyValidated then
            { bic with assetsUsed := bic.assetsUsed - 1 } else bic
        if bic1.updateMmrs then
          some (true, InternalAssetDel s assetID,
            rbPush bic1 (.destroyed ai.meta ai.lockHeight))
        else some (true, s, bic1)
  else
    let restored : Cor (ChainState × Bic) :=
      if bic.updateMmrs then
        match rbPop bic with
        | none => none
        | some (.destroyed meta lock, bic1) =>
          let (s1, id) := InternalAssetAdd s
            { owner := owner, meta := meta, value := 0, lockHeight := lock } assetID
          if id != assetID then none else some (s1, bic1)
        | some (_, _) => none
      else some (s, bic)
    match restored with
    | none => none
    | some (s1, bic1) =>
      let bic2 := if !bic1.alreadyValidated then
          { bic1 with assetsUsed := bic1.assetsUsed + 1 } else bic1
      some (true, s1, bic2)

/-- Two's-complement negation of a 64-bit signed value (`val = -val` in the
source; `INT64_MIN` maps to itself). -/
def negI64 (v : Int) : Int := ((-v + 2 ^ 63) % 2 ^ 64) - 2 ^ 63

/-- `HandleKernel(TxKernelAssetEmit)`: signed 64-bit emission with the
`0x8000…0` negation edge rejected, 128-bit wrap-around add with overflow and
underflow detection, and lock-height rewrite (journaled) when the value
crosses zero in either direction. -/
def HandleKernelAssetEmit (_R : RulesM) (assetID owner : Nat) (value : Int)
    (s : ChainState) (bic : Bic) : Cor (Bool × ChainState × Bic) :=
  if !bic.fwd && !bic.updateMmrs then some (true, s, bic)
  else
    match AssetGetSafe s.assets assetID with
    | none => some (false, s, bic)
    | some ai =>
      if ai.owner != owner then some (false, s, bic)
      else
        let bAdd0 := decide (0 ≤ value)
        let val : Int := if bAdd0 then value else negI64 value
        if val < 0 then some (false, s, bic)
        else
          let valBig : Nat := val.toNat % 2 ^ 64
          let bAdd := if bic.fwd then bAdd0 else !bAdd0
          let bWasZero := decide (ai.value = 0)
          let newVal : Option Nat :=
            if bAdd then
              let v1 := (ai.value + valBig) % 2 ^ 128
              if v1 < valBig then none else some v1
            else
              if ai.value < valBig then none
              else some ((ai.value + (2 ^ 128 - valBig) % 2 ^ 128) % 2 ^ 128)
          match newVal with
          | none => some (false, s, bic)
          | some v1 =>
            if !bic.updateMmrs then some (true, s, bic)
            else
              let bZero := decide (v1 = 0)
              let lockAndBic : Cor (Nat × Bic) :=
                if bZero != bWasZero then
                  if bic.fwd then
                    some (bic.height, rbPush bic (.lockH ai.lockHeight))
                  else
                    match rbPop bic with
                    | none => none
                    | some (.lockH l, bic1) => some (l, bic1)
                    | some (_, _) => none
                else some (ai.lockHeight, bic)
              match lockAndBic with
              | none => none
              | some (lock, bic1) =>
                let tbl := AssetSetValue s.assets assetID v1 lock
                let m1 := mmrReplace s.mmrAssets (assetID - 1)
                  (assetHashOf assetID { ai with value := v1, lockHeight := lock })
                some (true, { s with assets := tbl, mmrAssets := m1 }, bic1)

/-- `HandleKernel(TxKernelShieldedOutput)`: limit check, asset-range check,
strict unique insert of the serial, commitment-list append, shielded-MMR
append and counter updates; the `ShieldedOutputs` parameter is rewritten in
both directions when `m_StoreShieldedOutput` is set. -/
def HandleKernelShieldedOutput (R : RulesM) (serialPub commitment : Nat)
    (aproof : Option Nat) (s : ChainState) (bic : Bic) :
    Cor (Bool × ChainState × Bic) :=
  let key : UKey := (serialPub, 0)
  let core : Cor (Bool × ChainState × Bic) :=
    if bic.fwd then
      if bic.shieldedOuts ≥ R.shieldedMaxOuts then
        some (false, s, { bic with limitExceeded := true })
      else if !ValidateAssetRange bic aproof then some (false, s, bic)
      else if bic.validateOnly then
        if bic.dups.contains key || (uniqueFind s key).isSome then
          some (false, s, bic)
        else
          some (true, s,
            { bic with
                dups := bic.dups ++ [key]
                shieldedOuts := bic.shieldedOuts + 1 })
      else
        if (uniqueFind s key).isSome then some (false, s, bic)
        else
          let v : UVal := .outp bic.height s.mmrShielded.length s.shieldedOutputs
            commitment
          let s1 := { s with uniqueKeys := s.uniqueKeys ++ [(key, v)] }
          let s2 := if bic.storeShieldedOutput then
              { s1 with cmList := ((shResizeTo s1.cmList (s1.shieldedOutputs + 1)).set
                  s1.shieldedOutputs ⟨commitment, serialPub⟩) }
            else s1
          let s3 := if bic.updateMmrs then
              { s2 with mmrShielded := s2.mmrShielded ++
                  [.shOut serialPub commitment s2.shieldedOutputs bic.height] }
            else s2
          let s4 := { s3 with shieldedOutputs := s3.shieldedOutputs + 1 }
          some (true, s4, { bic with shieldedOuts := bic.shieldedOuts + 1 })
    else
      if (uniqueFind s key).isNone then none
      else
        let s1 := { s with uniqueKeys := s.uniqueKeys.eraseP (fun e => e.1 == key) }
        let s2 := if bic.updateMmrs then
            { s1 with mmrShielded := s1.mmrShielded.dropLast } else s1
        let s3 := if bic.storeShieldedOutput then
            { s2 with cmList := shResizeTo s2.cmList (s2.shieldedOutputs - 1) }
          else s2
        let s4 := { s3 with shieldedOutputs := s3.shieldedOutputs - 1 }
        some (true, s4, { bic with shieldedOuts := bic.shieldedOuts - 1 })
  match core with
  | none => none
  | some (ok, s1, bic1) =>
    if !ok then some (false, s1, bic1)
    else
      let s2 := if bic1.storeShieldedOutput then
          { s1 with paramShieldedOutputs := s1.shieldedOutputs } else s1
      some (true, s2, bic1)

/-- `HandleKernel(TxKernelShieldedInput)`: pool-window validation, strict
unique insert of the (disambiguated) spend key, shielded-MMR append and
counter updates; the `ShieldedInputs` parameter is recomputed from the MMR
count in both directions when `m_StoreShieldedOutput` is set. -/
def HandleKernelShieldedInput (R : RulesM) (spendPk windowEnd cfg : Nat)
    (aproof : Option Nat) (s : ChainState) (bic : Bic) :
    Cor (Bool × ChainState × Bic) :=
  let key : UKey := (spendPk, 2)
  let core : Cor (Bool × ChainState × Bic) :=
    if bic.fwd then
      if !bic.alreadyValidated && !ValidateAssetRange bic aproof then
        some (false, s, bic)
      else if !bic.alreadyValidated && bic.shieldedIns ≥ R.shieldedMaxIns then
        some (false, s, { bic with limitExceeded := true })
      else if !bic.alreadyValidated && !IsShieldedInPool R s windowEnd cfg then
        some (false, s, bic)
      else if bic.validateOnly then
        if bic.dups.contains key || (uniqueFind s key).isSome then
          some (false, s, bic)
        else
          some (true, s,
            { bic with
                dups := bic.dups ++ [key]
                shieldedIns := bic.shieldedIns + 1 })
      else
        if (uniqueFind s key).isSome then some (false, s, bic)
        else
          let v : UVal := .inp bic.height s.mmrShielded.length
          let s1 := { s with uniqueKeys := s.uniqueKeys ++ [(key, v)] }
          let s2 := if bic.updateMmrs then
              { s1 with mmrShielded := s1.mmrShielded ++ [.shIn spendPk bic.height] }
            else s1
          some (true, s2, { bic with shieldedIns := bic.shieldedIns + 1 })
    else
      if (uniqueFind s key).isNone then none
      else
        let s1 := { s with uniqueKeys := s.uniqueKeys.eraseP (fun e => e.1 == key) }
        let s2 := if bic.updateMmrs then
            { s1 with mmrShielded := s1.mmrShielded.dropLast } else s1
        some (true, s2, { bic with shieldedIns := bic.shieldedIns - 1 })
  match core with
  | none => none
  | some (ok, s1, bic1) =>
    if !ok then some (false, s1, bic1)
    else
      let s2 := if bic1.storeShieldedOutput then
          { s1 with paramShieldedInputs := s1.mmrShielded.length - s1.shieldedOutputs }
        else s1
      some (true, s2, bic1)

/-- Dispatch on the kernel subtype (the `BeamKernelsAll` switch). -/
def HandleKernelData (R : RulesM) (d : KrnData) (s : ChainState) (bic : Bic) :
    Cor (Bool × ChainState × Bic) :=
  match d with
  | .std rel => some (HandleKernelStd R rel s bic, s, bic)
  | .assetCreate owner meta => HandleKernelAssetCreate R owner meta s bic
  | .assetEmit aid owner v => HandleKernelAssetEmit R aid owner v s bic
  | .assetDestroy aid owner => HandleKernelAssetDestroy R aid owner s bic
  | .shOut sp c ap => HandleKernelShieldedOutput R sp c ap s bic
  | .shIn sp we cfg ap => HandleKernelShieldedInput R sp we cfg ap s bic

/-! ## Generic kernel handler (`HandleKernel(TxKernel)`)

Forward: nested kernels first, then the subtype handler; a failure flips the
context to backward, reverts the applied nested prefix (skipped in
validate-only mode) and restores the flag.  Backward: the subtype handler
first (`OnCorrupted` when it fails), then the nested kernels in reverse,
each of which must succeed. -/

mutual

/-- `HandleKernel(TxKernel)`. -/
def HandleKernelRec (R : RulesM) (v : Krn) (s : ChainState) (bic : Bic) :
    Cor (Bool × ChainState × Bic) :=
  match v with
  | .mk _ data nested =>
    if bic.fwd then
      match HandleKernelVecFwd R nested s bic with
      | none => none
      | some (ok1, s1, bic1) =>
        if ok1 then
          match HandleKernelData R data s1 bic1 with
          | none => none
          | some (ok2, s2, bic2) =>
            if ok2 then some (true, s2, bic2)
            else if bic2.validateOnly then some (false, s2, bic2)
            else
              match HandleKernelVecBwd R nested s2 { bic2 with fwd := false } with
              | none => none
              | some (s3, bic3) => some (false, s3, { bic3 with fwd := true })
        else some (false, s1, bic1)
    else
      match HandleKernelData R data s bic with
      | none => none
      | some (ok2, s2, bic2) =>
        if !ok2 then none
        else if bic2.validateOnly then some (true, s2, bic2)
        else
          match HandleKernelVecBwd R nested s2 bic2 with
          | none => none
          | some (s3, bic3) => some (true, s3, bic3)

/-- Forward loop over the nested kernels; on failure the already-applied
prefix has been reverted (each failing child reverts itself, and the loop
reverts the children before it, unless in validate-only mode). -/
def HandleKernelVecFwd (R : RulesM) (l : List Krn) (s : ChainState) (bic : Bic) :
    Cor (Bool × ChainState × Bic) :=
  match l with
  | [] => some (true, s, bic)
  | x :: xs =>
    match HandleKernelRec R x s bic with
    | none => none
    | some (ok, s1, bic1) =>
      if !ok then some (false, s1, bic1)
      else
        match HandleKernelVecFwd R xs s1 bic1 with
        | none => none
        | some (ok2, s2, bic2) =>
          if ok2 then some (true, s2, bic2)
          else if bic2.validateOnly then some (false, s2, bic2)
          else
            match HandleKernelRec R x s2 { bic2 with fwd := false } with
            | none => none
            | some (okx, s3, bic3) =>
              if okx then some (false, s3, { bic3 with fwd := true }) else none

/-- Backward loop over the nested kernels (reverse order); every step must
succeed, a `false` return is `OnCorrupted`. -/
def HandleKernelVecBwd (R : RulesM) (l : List Krn) (s : ChainState) (bic : Bic) :
    Cor (ChainState × Bic) :=
  match l with
  | [] => some (s, bic)
  | x :: xs =>
    match HandleKernelVecBwd R xs s bic with
    | none => none
    | some (s1, bic1) =>
      match HandleKernelRec R x s1 bic1 with
      | none => none
      | some (ok, s2, bic2) => if ok then some (s2, bic2) else none

end

/-- `HandleBlockElement(TxKernel)`: the wrapper applied to each top-level
kernel.  Forward and post-fork-2 it rejects a kernel whose id is already
visibly recorded (and, in validate-only mode, one duplicated within the same
transaction); it removes the `(id, height)` index entry before a backward
pass and adds it after a successful forward pass. -/
def HandleBlockElementKrn (R : RulesM) (v : Krn) (s : ChainState) (bic : Bic) :
    Cor (Bool × ChainState × Bic) :=
  let dupRejected : Bool :=
    bic.fwd && decide (bic.height ≥ R.fork2) && !bic.alreadyValidated &&
      decide (FindVisibleKernel R s bic v.kid ≥ heightGenesis)
  if dupRejected then some (false, s, bic)
  else
    let dupIdRejected : Bool :=
      bic.fwd && decide (bic.height ≥ R.fork2) && !bic.alreadyValidated &&
        bic.validateOnly && bic.dupIDs.contains v.kid
    if dupIdRejected then some (false, s, bic)
    else
      let bic0 :=
        if bic.fwd && decide (bic.height ≥ R.fork2) && !bic.alreadyValidated &&
            bic.validateOnly then
          { bic with dupIDs := bic.dupIDs ++ [v.kid] }
        else bic
      let bSaveID : Bool := decide (bic0.height ≥ heightGenesis) && bic0.saveKid
      let s0 :=
        if bSaveID && !bic0.fwd then
          { s with kernelIdx := (s.kernelIdx.eraseP
              (fun e => e.1 == v.kid && e.2 == bic0.height)) }
        else s
      match HandleKernelRec R v s0 bic0 with
      | none => none
      | some (ok, s1, bic1) =>
        if !ok then
          if !bic0.fwd then none else some (false, s1, bic1)
        else
          let s2 :=
            if bSaveID && bic0.fwd then
              { s1 with kernelIdx := s1.kernelIdx ++ [(v.kid, bic0.height)] }
            else s1
          some (true, s2, bic1)

/-! ## Element vectors and `HandleValidatedTx` -/

/-- `HandleElementVecFwd` over inputs: returns the applied (resolved) prefix,
the unprocessed remainder and the updated state. -/
def HandleInputsFwd (l : List Inp) (h : Nat) (s : ChainState) :
    Bool × List Inp × List Inp × ChainState :=
  match l with
  | [] => (true, [], [], s)
  | x :: xs =>
    match HandleInputFwd x h s with
    | (false, x', s') => (false, [], x' :: xs, s')
    | (true, x', s') =>
      let (ok, ap, rem, s'') := HandleInputsFwd xs h s'
      (ok, x' :: ap, rem, s'')

/-- `HandleElementVecBwd` over the applied inputs (reverse order). -/
def HandleInputsBwd (l : List Inp) (s : ChainState) : ChainState :=
  match l with
  | [] => s
  | x :: xs => HandleInputBwd x (HandleInputsBwd xs s)

/-- `HandleElementVecFwd` over outputs: returns the applied prefix and the
updated state. -/
def HandleOutputsFwd (R : RulesM) (l : List Outp) (s : ChainState) (bic : Bic) :
    Bool × List Outp × ChainState :=
  match l with
  | [] => (true, [], s)
  | x :: xs =>
    match HandleOutputFwd R x s bic with
    | (false, s') => (false, [], s')
    | (true, s') =>
      let (ok, ap, s'') := HandleOutputsFwd R xs s' bic
      (ok, x :: ap, s'')

/-- `HandleElementVecBwd` over the applied outputs (reverse order). -/
def HandleOutputsBwd (R : RulesM) (l : List Outp) (h : Nat) (s : ChainState) :
    ChainState :=
  match l with
  | [] => s
  | x :: xs => HandleOutputBwd R x h (HandleOutputsBwd R xs h s)

/-- `HandleElementVecFwd` over the top-level kernels: returns the applied
prefix (the failing kernel restores the state itself before returning). -/
def HandleKrnsFwd (R : RulesM) (l : List Krn) (s : ChainState) (bic : Bic) :
    Cor (Bool × List Krn × ChainState × Bic) :=
  match l with
  | [] => some (true, [], s, bic)
  | x :: xs =>
    match HandleBlockElementKrn R x s bic with
    | none => none
    | some (ok, s1, bic1) =>
      if !ok then some (false, [], s1, bic1)
      else
        match HandleKrnsFwd R xs s1 bic1 with
        | none => none
        | some (ok2, ap, s2, bic2) => some (ok2, x :: ap, s2, bic2)

/-- `HandleElementVecBwd` over the applied top-level kernels (reverse
order); a `false` return of any step is `OnCorrupted`. -/
def HandleKrnsBwd (R : RulesM) (l : List Krn) (s : ChainState) (bic : Bic) :
    Cor (ChainState × Bic) :=
  match l with
  | [] => some (s, bic)
  | x :: xs =>
    match HandleKrnsBwd R xs s bic with
    | none => none
    | some (s1, bic1) =>
      match HandleBlockElementKrn R x s1 bic1 with
      | none => none
      | some (ok, s2, bic2) => if ok then some (s2, bic2) else none

/-- `NodeProcessor::HandleValidatedTx`.  Forward: inputs, outputs, kernels;
on a failure the applied prefixes are reverted in reverse order (kernels,
then outputs, then inputs) and `false` is returned with the context's
forward flag restored.  Backward: all three vectors are reverted in reverse
order and the call returns `true` (element failures are `OnCorrupted`).
The returned block carries the inputs' resolved `m_Internal` fields. -/
def HandleValidatedTx (R : RulesM) (blk : Blk) (s : ChainState) (bic : Bic) :
    Cor (Bool × Blk × ChainState × Bic) :=
  if bic.fwd then
    let (ok0, apIn, remIn, s0) := HandleInputsFwd blk.inputs bic.height s
    let blkR : Blk := { blk with inputs := apIn ++ remIn }
    if ok0 then
      let (ok1, apOut, s1) := HandleOutputsFwd R blk.outputs s0 bic
      if ok1 then
        match HandleKrnsFwd R blk.kernels s1 bic with
        | none => none
        | some (ok2, apK, s2, bic2) =>
          if ok2 then some (true, blkR, s2, bic2)
          else
            match HandleKrnsBwd R apK s2 { bic2 with fwd := false } with
            | none => none
            | some (s3, bic3) =>
              let s4 := HandleOutputsBwd R blk.outputs bic.height s3
              let s5 := HandleInputsBwd apIn s4
              some (false, blkR, s5, { bic3 with fwd := true })
      else
        let s3 := HandleOutputsBwd R apOut bic.height s1
        let s4 := HandleInputsBwd apIn s3
        some (false, blkR, s4, bic)
    else
      let s3 := HandleInputsBwd apIn s0
      some (false, blkR, s3, bic)
  else
    match HandleKrnsBwd R blk.kernels s bic with
    | none => none
    | some (s1, bic1) =>
      let s2 := HandleOutputsBwd R blk.outputs bic.height s1
      let s3 := HandleInputsBwd blk.inputs s2
      some (true, blk, s3, bic1)

/-- `NodeProcessor::HandleValidatedBlock`: `HandleValidatedTx` plus the
per-block adjustment of the TxoID counter (one extra id per block, consumed
forward after the transaction, released backward before it). -/
def HandleValidatedBlock (R : RulesM) (blk : Blk) (s : ChainState) (bic : Bic) :
    Cor (Bool × Blk × ChainState × Bic) :=
  let s0 := if bic.fwd then s else { s with txos := s.txos - 1 }
  match HandleValidatedTx R blk s0 bic with
  | none => none
  | some (ok, blk', s1, bic1) =>
    if !ok then some (false, blk', s1, bic1)
    else
      let s2 := if bic.fwd then { s1 with txos := s1.txos + 1 } else s1
      some (true, blk', s2, bic1)

/-! ## Well-formedness of the chain state

The invariants the persistent structures satisfy between block applications:
the `UtxoTree` leaf list is strictly sorted with non-empty leaves, the assets
MMR mirrors the registry slot by slot (`Zero` for deleted slots, the asset's
hash otherwise, values within `u128`), the shielded commitment list has one
entry per shielded output, and the persisted `ShieldedOutputs` /
`ShieldedInputs` parameters agree with the in-memory counters. -/

/-- Slot-by-slot agreement of the asset registry and the assets MMR
(ids are 1-based, `i` is the id of the first slot). -/
def wfAssetsMmr : Nat → AssetTbl → List HashV → Bool
  | _, [], [] => true
  | i, some r :: a, h :: m =>
    h == assetHashOf i r && decide (r.value < 2 ^ 128) && wfAssetsMmr (i + 1) a m
  | i, none :: a, h :: m => h == HashV.zero && wfAssetsMmr (i + 1) a m
  | _, _, _ => false

/-- The chain-state invariant. -/
def wfB (s : ChainState) : Bool :=
  utSortedB s.utxos &&
  s.utxos.all (fun e => !e.2.isEmpty) &&
  wfAssetsMmr 1 s.assets s.mmrAssets &&
  s.cmList.length == s.shieldedOutputs &&
  s.paramShieldedOutputs == s.shieldedOutputs &&
  decide (s.shieldedOutputs ≤ s.mmrShielded.length) &&
  s.paramShieldedInputs == s.mmrShielded.length - s.shieldedOutputs

/-! ## Order lemmas for `UtxoTree` keys -/

/-- Propositional form of the key order. -/
def keyLt (a b : UKey) : Prop := a.1 < b.1 ∨ (a.1 = b.1 ∧ a.2 < b.2)

theorem keyLtB_iff {a b : UKey} : keyLtB a b = true ↔ keyLt a b := by
  simp [keyLtB, keyLt]

theorem keyLt_irrefl (a : UKey) : ¬ keyLt a a := by
  simp [keyLt]

theorem keyLt_trans {a b c : UKey} (h1 : keyLt a b) (h2 : keyLt b c) : keyLt a c := by
  rcases h1 with h1 | ⟨e1, l1⟩ <;> rcases h2 with h2 | ⟨e2, l2⟩ <;>
    simp [keyLt] <;> omega

theorem keyLt_asymm {a b : UKey} (h : keyLt a b) : ¬ keyLt b a := by
  intro h2
  exact keyLt_irrefl a (keyLt_trans h h2)

theorem keyLt_ne {a b : UKey} (h : keyLt a b) : a ≠ b := by
  rintro rfl
  exact keyLt_irrefl a h

theorem keyLt_tricho (a b : UKey) : keyLt a b ∨ a = b ∨ keyLt b a := by
  rcases a with ⟨a1, a2⟩
  rcases b with ⟨b1, b2⟩
  simp [keyLt, Prod.ext_iff]
  omega

/-- Sortedness in propositional (pairwise) form. -/
def UtSorted (t : UtxoTree) : Prop := List.Pairwise (fun a b => keyLt a.1 b.1) t

theorem utSortedB_iff {t : UtxoTree} : utSortedB t = true ↔ UtSorted t := by
  induction t with
  | nil => simp [utSortedB, UtSorted]
  | cons e rest ih =>
    cases rest with
    | nil => simp [utSortedB, UtSorted]
    | cons f rest2 =>
      rw [show utSortedB (e :: f :: rest2) =
        (keyLtB e.1 f.1 && utSortedB (f :: rest2)) from rfl]
      constructor
      · intro h
        rw [Bool.and_eq_true] at h
        have hp := ih.mp h.2
        have hef := keyLtB_iff.mp h.1
        constructor
        · intro z hz
          rcases List.mem_cons.mp hz with rfl | hz2
          · exact hef
          · exact keyLt_trans hef ((List.pairwise_cons.mp hp).1 z hz2)
        · exact hp
      · intro h
        rcases List.pairwise_cons.mp h with ⟨hall, hp⟩
        rw [Bool.and_eq_true]
        exact ⟨keyLtB_iff.mpr (hall f (by simp)), ih.mpr hp⟩

/-! ## `UtxoTree` operation lemmas -/

theorem utFind_nil (k : UKey) : utFind [] k = none := rfl

theorem utFind_cons (e : UKey × List Nat) (t : UtxoTree) (k : UKey) :
    utFind (e :: t) k = if e.1 = k then some e.2 else utFind t k := by
  by_cases h : e.1 = k
  · rw [utFind, List.find?_cons_of_pos _ (by simp [h])]
    simp [h]
  · rw [utFind, List.find?_cons_of_neg _ (by simp [h])]
    simp [h, utFind]

theorem utFind_some_mem {t : UtxoTree} {k : UKey} {v : List Nat}
    (h : utFind t k = some v) : (k, v) ∈ t := by
  induction t with
  | nil => simp [utFind_nil] at h
  | cons e rest ih =>
    rw [utFind_cons] at h
    by_cases he : e.1 = k
    · simp [he] at h
      exact List.mem_cons.mpr (Or.inl (by
        calc (k, v) = (e.1, e.2) := by rw [he, h]
          _ = e := rfl))
    · simp [he] at h
      exact List.mem_cons_of_mem _ (ih h)

theorem mem_utFind {t : UtxoTree} {k : UKey} {v : List Nat}
    (hs : UtSorted t) (h : (k, v) ∈ t) : utFind t k = some v := by
  induction t with
  | nil => simp at h
  | cons e rest ih =>
    rcases List.pairwise_cons.mp hs with ⟨hall, hp⟩
    rw [utFind_cons]
    rcases List.mem_cons.mp h with rfl | h2
    · simp
    · have hne : e.1 ≠ k := keyLt_ne (hall _ h2)
      simp [hne]
      exact ih hp h2

theorem utSet_mem {t : UtxoTree} {k : UKey} {v : List Nat} {f : UKey × List Nat}
    (h : f ∈ utSet t k v) : f = (k, v) ∨ f ∈ t := by
  induction t with
  | nil => simp [utSet] at h; simp [h]
  | cons e rest ih =>
    rw [utSet] at h
    by_cases he : e.1 = k
    · simp [he] at h
      rcases h with rfl | h2
      · exact Or.inl rfl
      · exact Or.inr (List.mem_cons_of_mem _ h2)
    · simp [he] at h
      by_cases hlt : keyLtB k e.1
      · simp [hlt] at h
        rcases h with rfl | h2
        · exact Or.inl rfl
        · exact Or.inr (List.mem_cons.mpr h2)
      · simp [hlt] at h
        rcases h with rfl | h2
        · exact Or.inr (List.mem_cons_self _ _)
        · rcases ih h2 with h3 | h3
          · exact Or.inl h3
          · exact Or.inr (List.mem_cons_of_mem _ h3)

theorem sorted_utSet {t : UtxoTree} (hs : UtSorted t) (k : UKey) (v : List Nat) :
    UtSorted (utSet t k v) := by
  induction t with
  | nil => simp [utSet, UtSorted]
  | cons e rest ih =>
    rcases List.pairwise_cons.mp hs with ⟨hall, hp⟩
    rw [utSet]
    by_cases he : e.1 = k
    · simp [he]
      exact List.pairwise_cons.mpr ⟨fun f hf => he ▸ hall f hf, hp⟩
    · simp [he]
      by_cases hlt : keyLtB k e.1
      · simp [hlt]
        have hke := keyLtB_iff.mp hlt
        refine List.pairwise_cons.mpr ⟨?_, hs⟩
        intro f hf
        rcases List.mem_cons.mp hf with rfl | h2
        · exact hke
        · exact keyLt_trans hke (hall f h2)
      · simp [hlt]
        refine List.pairwise_cons.mpr ⟨?_, ih hp⟩
        intro f hf
        rcases utSet_mem hf with rfl | h2
        · rcases keyLt_tricho k e.1 with h3 | h3 | h3
          · exact absurd (keyLtB_iff.mpr h3) (by simpa using hlt)
          · exact absurd h3.symm he
          · exact h3
        · exact hall f h2

theorem utErase_sublist (t : UtxoTree) (k : UKey) : (utErase t k).Sublist t := by
  induction t with
  | nil => simp [utErase]
  | cons e rest ih =>
    rw [utErase]
    by_cases he : e.1 = k
    · simp [he]
    · simp [he]
      exact ih

theorem sorted_utErase {t : UtxoTree} (hs : UtSorted t) (k : UKey) :
    UtSorted (utErase t k) := List.Pairwise.sublist (utErase_sublist t k) hs

theorem utFind_utSet_self (t : UtxoTree) (k : UKey) (v : List Nat) :
    utFind (utSet t k v) k = some v := by
  induction t with
  | nil => simp [utSet, utFind_cons]
  | cons e rest ih =>
    rw [utSet]
    by_cases he : e.1 = k
    · simp [he, utFind_cons]
    · simp [he]
      by_cases hlt : keyLtB k e.1
      · simp [hlt, utFind_cons]
      · simp [hlt, utFind_cons, he, ih]

theorem utSet_self {t : UtxoTree} {k : UKey} {v : List Nat}
    (hs : UtSorted t) (h : utFind t k = some v) : utSet t k v = t := by
  induction t with
  | nil => simp [utFind_nil] at h
  | cons e rest ih =>
    rcases List.pairwise_cons.mp hs with ⟨hall, hp⟩
    rw [utFind_cons] at h
    rw [utSet]
    by_cases he : e.1 = k
    · simp [he] at h ⊢
      calc (k, v) = (e.1, e.2) := by rw [he, h]
        _ = e := rfl
    · simp [he] at h ⊢
      have hmem := utFind_some_mem h
      have hek : keyLt e.1 k := hall _ hmem
      have hnlt : ¬ (keyLtB k e.1 = true) := fun hc => keyLt_asymm hek (keyLtB_iff.mp hc)
      simp [hnlt]
      exact ih hp h

theorem utSet_front {t : UtxoTree} {k : UKey} (v : List Nat)
    (hall : ∀ f ∈ t, keyLt k f.1) : utSet t k v = (k, v) :: t := by
  cases t with
  | nil => rfl
  | cons e rest =>
    have hke := hall e (by simp)
    have hne : e.1 ≠ k := fun hc => keyLt_irrefl k (hc ▸ hke)
    rw [utSet]
    simp [hne, keyLtB_iff.mpr hke]

theorem utErase_utSet_fresh {t : UtxoTree} {k : UKey} (v : List Nat)
    (hs : UtSorted t) (h : utFind t k = none) : utErase (utSet t k v) k = t := by
  induction t with
  | nil => simp [utSet, utErase]
  | cons e rest ih =>
    rcases List.pairwise_cons.mp hs with ⟨_, hp⟩
    rw [utFind_cons] at h
    by_cases he : e.1 = k
    · simp [he] at h
    · simp [he] at h
      rw [utSet]
      simp [he]
      by_cases hlt : keyLtB k e.1
      · simp [hlt, utErase]
      · simp [hlt, utErase, he, ih hp h]

theorem utSet_utErase_found {t : UtxoTree} {k : UKey} {v : List Nat}
    (hs : UtSorted t) (h : utFind t k = some v) : utSet (utErase t k) k v = t := by
  induction t with
  | nil => simp [utFind_nil] at h
  | cons e rest ih =>
    rcases List.pairwise_cons.mp hs with ⟨hall, hp⟩
    rw [utFind_cons] at h
    rw [utErase]
    by_cases he : e.1 = k
    · simp [he] at h ⊢
      have : utSet rest k v = (k, v) :: rest :=
        utSet_front v (fun f hf => he ▸ hall f hf)
      rw [this]
      congr 1
      calc (k, v) = (e.1, e.2) := by rw [he, h]
        _ = e := rfl
    · simp [he] at h ⊢
      have hmem := utFind_some_mem h
      have hek : keyLt e.1 k := hall _ hmem
      have hnlt : ¬ (keyLtB k e.1 = true) := fun hc => keyLt_asymm hek (keyLtB_iff.mp hc)
      rw [utSet]
      simp [he, hnlt]
      exact ih hp h

theorem utSet_utSet (t : UtxoTree) (k : UKey) (v w : List Nat) :
    utSet (utSet t k v) k w = utSet t k w := by
  induction t with
  | nil => simp [utSet]
  | cons e rest ih =>
    rw [utSet, utSet]
    by_cases he : e.1 = k
    · simp [he, utSet]
    · simp [he]
      by_cases hlt : keyLtB k e.1
      · simp [hlt, utSet]
      · simp [hlt, utSet, he, ih]

theorem utFindRanged_some {t : UtxoTree} {c a b : Nat} {k : UKey} {ids : List Nat}
    (hs : UtSorted t) (h : utFindRanged t c a b = some (k, ids)) :
    utFind t k = some ids ∧ k.1 = c ∧ a ≤ k.2 ∧ k.2 ≤ b := by
  have hmem := List.mem_of_find?_eq_some h
  have hpred := List.find?_some h
  simp at hpred
  exact ⟨mem_utFind hs hmem, hpred.1.1, hpred.1.2, hpred.2⟩

theorem utFind_none_of_all {t : UtxoTree} {k : UKey}
    (h : ∀ f ∈ t, f.1 ≠ k) : utFind t k = none := by
  induction t with
  | nil => rfl
  | cons e rest ih =>
    rw [utFind_cons]
    simp [h e (by simp)]
    exact ih (fun f hf => h f (List.mem_cons_of_mem _ hf))

theorem utFind_utErase_self {t : UtxoTree} {k : UKey} (hs : UtSorted t) :
    utFind (utErase t k) k = none := by
  induction t with
  | nil => rfl
  | cons e rest ih =>
    rcases List.pairwise_cons.mp hs with ⟨hall, hp⟩
    rw [utErase]
    by_cases he : e.1 = k
    · simp [he]
      apply utFind_none_of_all
      intro f hf hc
      exact keyLt_ne (he ▸ hall f hf) hc.symm
    · simp [he]
      rw [utFind_cons]
      simp [he]
      exact ih hp

/-- Unpacked form of the chain-state invariant. -/
theorem wfB_iff {s : ChainState} : wfB s = true ↔
    UtSorted s.utxos ∧ (∀ e ∈ s.utxos, e.2 ≠ []) ∧
    wfAssetsMmr 1 s.assets s.mmrAssets = true ∧
    s.cmList.length = s.shieldedOutputs ∧
    s.paramShieldedOutputs = s.shieldedOutputs ∧
    s.shieldedOutputs ≤ s.mmrShielded.length ∧
    s.paramShieldedInputs = s.mmrShielded.length - s.shieldedOutputs := by
  simp [wfB, utSortedB_iff, List.all_eq_true, List.isEmpty_iff, and_assoc]

/-! ## Input and output element round-trips -/

theorem HandleInputFwd_rt {v : Inp} {h : Nat} {s : ChainState} {v' : Inp}
    {s' : ChainState} (hw : wfB s = true)
    (hres : HandleInputFwd v h s = (true, v', s')) :
    HandleInputBwd v' s' = s ∧ wfB s' = true ∧
    s' = { s with utxos := s'.utxos } := by
  rcases wfB_iff.mp hw with ⟨hsort, hne, hrest⟩
  unfold HandleInputFwd at hres
  rcases hfr : utFindRanged s.utxos v.commitment (heightGenesis - 1) (h - 1) with
    _ | ⟨k, ids⟩
  · rw [hfr] at hres; simp at hres
  · rw [hfr] at hres
    rcases utFindRanged_some hsort hfr with ⟨hfind, hkc, _, _⟩
    match ids, hres with
    | [i], hres =>
      simp at hres
      rcases hres with ⟨rfl, rfl⟩
      refine ⟨?_, ?_, ?_⟩
      · unfold HandleInputBwd
        simp only [← hkc]
        rw [utFind_utErase_self hsort]
        simp [utSet_utErase_found hsort hfind]
      · rw [wfB_iff]
        refine ⟨sorted_utErase hsort k, ?_, hrest⟩
        intro e he
        exact hne e (List.Sublist.mem he (utErase_sublist s.utxos k))
      · rfl
    | i :: j :: rest, hres =>
      simp at hres
      rcases hres with ⟨rfl, rfl⟩
      refine ⟨?_, ?_, ?_⟩
      · unfold HandleInputBwd
        simp only [← hkc]
        rw [utFind_utSet_self]
        simp [utSet_utSet, utSet_self hsort hfind]
      · rw [wfB_iff]
        refine ⟨sorted_utSet hsort k _, ?_, hrest⟩
        intro e he
        rcases utSet_mem he with rfl | h2
        · simp
        · exact hne e h2
      · rfl

theorem HandleInputFwd_fail {v : Inp} {h : Nat} {s : ChainState} {v' : Inp}
    {s' : ChainState} (hres : HandleInputFwd v h s = (false, v', s')) :
    v' = v ∧ s' = s := by
  unfold HandleInputFwd at hres
  rcases hfr : utFindRanged s.utxos v.commitment (heightGenesis - 1) (h - 1) with
    _ | ⟨k, ids⟩
  · rw [hfr] at hres
    simp at hres
    exact ⟨hres.1.symm, hres.2.symm⟩
  · rw [hfr] at hres
    match ids, hres with
    | [], hres =>
      simp at hres
      exact ⟨hres.1.symm, hres.2.symm⟩
    | [i], hres => simp at hres
    | i :: j :: rest, hres => simp at hres

theorem HandleOutputFwd_rt {R : RulesM} {v : Outp} {s : ChainState} {bic : Bic}
    {s' : ChainState} (hw : wfB s = true)
    (hres : HandleOutputFwd R v s bic = (true, s')) :
    HandleOutputBwd R v bic.height s' = s ∧ wfB s' = true ∧
    s' = { s with utxos := s'.utxos, txos := s.txos + 1 } := by
  rcases wfB_iff.mp hw with ⟨hsort, hne, hrest⟩
  rw [HandleOutputFwd.eq_def] at hres
  simp only at hres
  set k : UKey := (v.commitment, get_MinMaturity R bic.height v) with hk
  rcases hf : utFind s.utxos k with _ | ids
  · rw [hf] at hres
    rcases hva : ValidateAssetRange bic v.assetProof with _ | _
    · simp [hva] at hres
    · simp [hva] at hres
      refine ⟨?_, ?_, ?_⟩
      · rw [← hres]
        rw [HandleOutputBwd.eq_def]
        simp only [← hk, Nat.add_sub_cancel]
        rw [utFind_utSet_self]
        simp [utErase_utSet_fresh _ hsort hf]
      · rw [← hres, wfB_iff]
        refine ⟨sorted_utSet hsort k _, ?_, hrest⟩
        intro e he
        rcases utSet_mem he with rfl | h2
        · simp
        · exact hne e h2
      · rw [← hres]
  · rw [hf] at hres
    rcases hva : ValidateAssetRange bic v.assetProof with _ | _
    · simp [hva] at hres
    · simp [hva] at hres
      by_cases hovf : (ids.length + 1) % 4294967296 = 0
      · simp [hovf] at hres
      · simp [hovf] at hres
        have hids : ids ≠ [] := hne _ (utFind_some_mem hf)
        refine ⟨?_, ?_, ?_⟩
        · rw [← hres]
          rw [HandleOutputBwd.eq_def]
          simp only [← hk, Nat.add_sub_cancel]
          rw [utFind_utSet_self]
          match ids, hids with
          | j :: rest, _ =>
            simp [utSet_utSet, utSet_self hsort hf]
        · rw [← hres, wfB_iff]
          refine ⟨sorted_utSet hsort k _, ?_, hrest⟩
          intro e he
          rcases utSet_mem he with rfl | h2
          · simp
          · exact hne e h2
        · rw [← hres]

theorem HandleOutputFwd_fail {R : RulesM} {v : Outp} {s : ChainState} {bic : Bic}
    {s' : ChainState} (hva : ValidateAssetRange bic v.assetProof = true)
    (hres : HandleOutputFwd R v s bic = (false, s')) : s' = s := by
  rw [HandleOutputFwd.eq_def] at hres
  simp only at hres
  rcases hf : utFind s.utxos (v.commitment, get_MinMaturity R bic.height v) with _ | ids
  · rw [hf] at hres
    simp [hva] at hres
  · rw [hf] at hres
    simp [hva] at hres
    by_cases hovf : (ids.length + 1) % 4294967296 = 0
    · simp [hovf] at hres
      exact hres.symm
    · simp [hovf] at hres

/-! ## Input and output vector lemmas -/

theorem HandleInputsFwd_inv {l : List Inp} {h : Nat} {s : ChainState}
    {ok : Bool} {ap rem : List Inp} {s' : ChainState} (hw : wfB s = true)
    (hres : HandleInputsFwd l h s = (ok, ap, rem, s')) :
    wfB s' = true ∧ HandleInputsBwd ap s' = s ∧
    s' = { s with utxos := s'.utxos } ∧ (ok = true → rem = []) := by
  induction l generalizing s ok ap rem s' with
  | nil =>
    rw [HandleInputsFwd] at hres
    simp at hres
    rcases hres with ⟨rfl, rfl, rfl, rfl⟩
    exact ⟨hw, rfl, rfl, fun _ => rfl⟩
  | cons x xs ih =>
    rw [HandleInputsFwd] at hres
    rcases hel : HandleInputFwd x h s with ⟨okx, x', s1⟩
    rw [hel] at hres
    cases okx with
    | false =>
      simp at hres
      rcases hres with ⟨rfl, rfl, rfl, rfl⟩
      rcases HandleInputFwd_fail hel with ⟨rfl, rfl⟩
      exact ⟨hw, rfl, rfl, by simp⟩
    | true =>
      simp at hres
      rcases hrec : HandleInputsFwd xs h s1 with ⟨ok2, ap2, rem2, s2⟩
      rw [hrec] at hres
      simp at hres
      rcases hres with ⟨rfl, rfl, rfl, rfl⟩
      rcases HandleInputFwd_rt hw hel with ⟨hbwd, hw1, hfr1⟩
      rcases ih hw1 hrec with ⟨hw2, hbwd2, hfr2, hok⟩
      refine ⟨hw2, ?_, ?_, hok⟩
      · rw [HandleInputsBwd]
        rw [hbwd2, hbwd]
      · rw [hfr2, hfr1]

theorem HandleOutputsFwd_succ {R : RulesM} {l : List Outp} {s : ChainState}
    {bic : Bic} {ap : List Outp} {s' : ChainState} (hw : wfB s = true)
    (hres : HandleOutputsFwd R l s bic = (true, ap, s')) :
    ap = l ∧ wfB s' = true ∧ HandleOutputsBwd R l bic.height s' = s ∧
    s' = { s with utxos := s'.utxos, txos := s'.txos } ∧
    s'.txos = s.txos + l.length := by
  induction l generalizing s ap s' with
  | nil =>
    rw [HandleOutputsFwd] at hres
    simp at hres
    rcases hres with ⟨rfl, rfl⟩
    exact ⟨rfl, hw, rfl, rfl, rfl⟩
  | cons x xs ih =>
    rw [HandleOutputsFwd] at hres
    rcases hel : HandleOutputFwd R x s bic with ⟨okx, s1⟩
    rw [hel] at hres
    cases okx with
    | false => simp at hres
    | true =>
      simp only at hres
      rcases hrec : HandleOutputsFwd R xs s1 bic with ⟨ok2, ap2, s2⟩
      rw [hrec] at hres
      simp at hres
      rcases hres with ⟨rfl, rfl, rfl⟩
      rcases HandleOutputFwd_rt hw hel with ⟨hbwd, hw1, hfr1⟩
      rcases ih hw1 hrec with ⟨rfl, hw2, hbwd2, hfr2, htx2⟩
      refine ⟨rfl, hw2, ?_, ?_, ?_⟩
      · rw [HandleOutputsBwd, hbwd2, hbwd]
      · rw [hfr2]
        conv_lhs => rw [hfr1]
      · rw [htx2]
        conv_lhs => rw [hfr1]
        show s.txos + 1 + ap2.length = s.txos + (ap2.length + 1)
        omega

theorem HandleOutputsFwd_inv {R : RulesM} {l : List Outp} {s : ChainState}
    {bic : Bic} {ok : Bool} {ap : List Outp} {s' : ChainState} (hw : wfB s = true)
    (hva : ∀ o ∈ l, ValidateAssetRange bic o.assetProof = true)
    (hres : HandleOutputsFwd R l s bic = (ok, ap, s')) :
    wfB s' = true ∧ HandleOutputsBwd R ap bic.height s' = s := by
  induction l generalizing s ok ap s' with
  | nil =>
    rw [HandleOutputsFwd] at hres
    simp at hres
    rcases hres with ⟨rfl, rfl, rfl⟩
    exact ⟨hw, rfl⟩
  | cons x xs ih =>
    rw [HandleOutputsFwd] at hres
    rcases hel : HandleOutputFwd R x s bic with ⟨okx, s1⟩
    rw [hel] at hres
    cases okx with
    | false =>
      simp at hres
      rcases hres with ⟨rfl, rfl, rfl⟩
      have := HandleOutputFwd_fail (hva x (by simp)) hel
      subst this
      exact ⟨hw, rfl⟩
    | true =>
      simp only at hres
      rcases hrec : HandleOutputsFwd R xs s1 bic with ⟨ok2, ap2, s2⟩
      rw [hrec] at hres
      simp at hres
      rcases hres with ⟨rfl, rfl, rfl⟩
      rcases HandleOutputFwd_rt hw hel with ⟨hbwd, hw1, _⟩
      rcases ih hw1 (fun o ho => hva o (List.mem_cons_of_mem _ ho)) hrec with
        ⟨hw2, hbwd2⟩
      exact ⟨hw2, by rw [HandleOutputsBwd, hbwd2, hbwd]⟩


/-! ## List helpers -/

theorem lset_getD {α : Type} (l : List α) (j : Nat) (x d : α) (hj : j < l.length) :
    (l.set j x).getD j d = x := by
  induction l generalizing j with
  | nil => simp at hj
  | cons a t ih =>
    cases j with
    | zero => rfl
    | succ j2 =>
      simp at hj
      simpa [List.set, List.getD] using ih j2 (by omega)

theorem lset_getD_ne {α : Type} (l : List α) (i j : Nat) (x d : α) (hne : i ≠ j) :
    (l.set j x).getD i d = l.getD i d := by
  induction l generalizing i j with
  | nil => simp [List.set]
  | cons a t ih =>
    cases j with
    | zero =>
      cases i with
      | zero => exact absurd rfl hne
      | succ i2 => rfl
    | succ j2 =>
      cases i with
      | zero => rfl
      | succ i2 => simpa [List.set, List.getD] using ih i2 j2 (by omega)

theorem lset_self {α : Type} {l : List α} {j : Nat} {d : α} (hj : j < l.length) :
    l.set j (l.getD j d) = l := by
  induction l generalizing j with
  | nil => simp at hj
  | cons a t ih =>
    cases j with
    | zero => rfl
    | succ j2 =>
      simp at hj
      simpa [List.set, List.getD] using ih (by omega)

theorem lset_append_at_length {α : Type} (l : List α) (x y : α) :
    (l ++ [x]).set l.length y = l ++ [y] := by
  induction l with
  | nil => rfl
  | cons a t ih => simp [List.set, ih]

theorem ltake_append {α : Type} (l : List α) (x : α) :
    (l ++ [x]).take l.length = l := by
  induction l with
  | nil => rfl
  | cons a t ih => simp [List.take, ih]

theorem lgetD_append_at_length {α : Type} (l : List α) (x d : α) :
    (l ++ [x]).getD l.length d = x := by
  induction l with
  | nil => rfl
  | cons a t ih => simp [List.getD, ih]

theorem lgetD_append_left {α : Type} (l l2 : List α) (j : Nat) (d : α)
    (hj : j < l.length) : (l ++ l2).getD j d = l.getD j d := by
  induction l generalizing j with
  | nil => simp at hj
  | cons a t ih =>
    cases j with
    | zero => rfl
    | succ j2 =>
      simp at hj
      simpa [List.getD] using ih j2 (by omega)

/-! ## Rollback buffer lemmas -/

theorem rbPop_rbPush (bic : Bic) (e : RbEntry) :
    rbPop (rbPush bic e) = some (e, bic) := by
  simp [rbPop, rbPush, List.getLast?_concat, List.dropLast_concat]

theorem rbPop_of_append {bic : Bic} {r : List RbEntry} {e : RbEntry}
    (h : bic.rollback = r ++ [e]) :
    rbPop bic = some (e, { bic with rollback := r }) := by
  simp [rbPop, h, List.getLast?_concat, List.dropLast_concat]

/-! ## Asset invariant characterization -/

theorem wfA_iff {i : Nat} {a : AssetTbl} {m : List HashV} :
    wfAssetsMmr i a m = true ↔
    (m.length = a.length ∧
     ∀ j, j < a.length →
       (match a.getD j none with
        | some r => m.getD j .zero = assetHashOf (i + j) r ∧ r.value < 2 ^ 128
        | none => m.getD j .zero = .zero)) := by
  induction a generalizing i m with
  | nil =>
    cases m with
    | nil => simp [wfAssetsMmr]
    | cons h t => simp [wfAssetsMmr]
  | cons o t ih =>
    cases m with
    | nil =>
      rcases o with _ | r <;> simp [wfAssetsMmr]
    | cons h mt =>
      rcases o with _ | r
      · rw [show wfAssetsMmr i (none :: t) (h :: mt) =
            ((h == HashV.zero) && wfAssetsMmr (i + 1) t mt) from rfl]
        simp only [Bool.and_eq_true, beq_iff_eq, ih]
        constructor
        · rintro ⟨rfl, hlen, hp⟩
          refine ⟨by simp [hlen], ?_⟩
          intro j hj
          cases j with
          | zero => simp [List.getD]
          | succ j2 =>
            simp at hj
            have := hp j2 (by omega)
            simpa [List.getD, Nat.add_assoc, Nat.add_comm 1 j2] using this
        · rintro ⟨hlen, hp⟩
          have h0 := hp 0 (by simp)
          simp [List.getD] at h0
          refine ⟨h0, by simpa using hlen, ?_⟩
          intro j hj
          have := hp (j + 1) (by simpa using hj)
          simpa [List.getD, Nat.add_assoc, Nat.add_comm 1 j] using this
      · rw [show wfAssetsMmr i (some r :: t) (h :: mt) =
            ((h == assetHashOf i r) && decide (r.value < 2 ^ 128) &&
              wfAssetsMmr (i + 1) t mt) from rfl]
        simp only [Bool.and_eq_true, beq_iff_eq, decide_eq_true_eq, ih]
        constructor
        · rintro ⟨⟨rfl, hv⟩, hlen, hp⟩
          refine ⟨by simp [hlen], ?_⟩
          intro j hj
          cases j with
          | zero => simpa [List.getD] using hv
          | succ j2 =>
            simp at hj
            have := hp j2 (by omega)
            simpa [List.getD, Nat.add_assoc, Nat.add_comm 1 j2] using this
        · rintro ⟨hlen, hp⟩
          have h0 := hp 0 (by simp)
          simp [List.getD] at h0
          refine ⟨⟨h0.1, h0.2⟩, by simpa using hlen, ?_⟩
          intro j hj
          have := hp (j + 1) (by simpa using hj)
          simpa [List.getD, Nat.add_assoc, Nat.add_comm 1 j] using this

/-! ## Round-trip framework for kernel handlers

`RTConc F s bic ok s' bic'` captures what a forward kernel-handler step
guarantees: the parts of the chain state a kernel never touches are
unchanged, the context keeps its flags, a failed step has already restored
the state, and a successful step is inverted exactly by the backward run of
the same handler (for any value of the untracked `m_AssetsUsed` cache and
`m_LimitExceeded` flag). -/

/-- Chain-state components no kernel subtype handler modifies. -/
def KFrame (s s' : ChainState) : Prop :=
  s'.utxos = s.utxos ∧ s'.txos = s.txos ∧ s'.mmrStates = s.mmrStates ∧
  s'.kernelIdx = s.kernelIdx ∧ s'.paramAssetsUsed = s.paramAssetsUsed

/-- Context fields preserved by every kernel handler invocation. -/
def BFrame (bic bic' : Bic) : Prop :=
  bic' = { bic with
    assetsUsed := bic'.assetsUsed, limitExceeded := bic'.limitExceeded,
    rollback := bic'.rollback, shieldedIns := bic'.shieldedIns,
    shieldedOuts := bic'.shieldedOuts }

/-- Round-trip conclusion for a handler `F` run forward from `(s, bic)`. -/
def RTConc (F : ChainState → Bic → Cor (Bool × ChainState × Bic))
    (s : ChainState) (bic : Bic) (ok : Bool) (s' : ChainState) (bic' : Bic) :
    Prop :=
  KFrame s s' ∧ BFrame bic bic' ∧
  (ok = false → s' = s ∧ bic'.rollback = bic.rollback ∧
    bic'.shieldedIns = bic.shieldedIns ∧ bic'.shieldedOuts = bic.shieldedOuts) ∧
  (ok = true → wfB s' = true ∧
    ∀ aU lE, ∃ aU2,
      F s' { bic' with fwd := false, assetsUsed := aU, limitExceeded := lE } =
      some (true, s,
        { bic with fwd := false, assetsUsed := aU2, limitExceeded := lE }))

theorem lfind_append_none {α : Type} {p : α → Bool} {l1 : List α}
    (h : l1.find? p = none) (l2 : List α) :
    (l1 ++ l2).find? p = l2.find? p := by
  induction l1 with
  | nil => rfl
  | cons a t ih =>
    rcases hpa : p a with _ | _
    · rw [List.find?_cons_of_neg _ (by simp [hpa])] at h
      simpa [List.find?_cons_of_neg _ (show ¬p a = true by simp [hpa])] using ih h
    · rw [List.find?_cons_of_pos _ hpa] at h
      simp at h

theorem shResizeTo_succ_self (l : List PtS) :
    shResizeTo l (l.length + 1) = l ++ [default] := by
  simp [shResizeTo]

theorem shResizeTo_take (l : List PtS) (n : Nat) (h : n ≤ l.length) :
    shResizeTo l n = l.take n := by
  simp [shResizeTo, h]

/-! ## Kernel subtype round-trips -/

theorem uniqueFind_none_find? {s : ChainState} {k : UKey}
    (h : uniqueFind s k = none) : s.uniqueKeys.find? (fun e => e.1 == k) = none := by
  simpa [uniqueFind] using h

theorem uniqueFind_append {s : ChainState} {k : UKey} {v : UVal}
    (h : uniqueFind s k = none) (l : List (UKey × UVal)) (hl : s.uniqueKeys ++ [(k, v)] = l) :
    (l.find? (fun e => e.1 == k)).map (fun e => e.2) = some v := by
  rw [← hl, lfind_append_none (uniqueFind_none_find? h)]
  simp

theorem eraseP_append_key {l : List (UKey × UVal)} {k : UKey} {v : UVal}
    (h : l.find? (fun e => e.1 == k) = none) :
    (l ++ [(k, v)]).eraseP (fun e => e.1 == k) = l := by
  have hall : ∀ b ∈ l, ¬((fun (e : UKey × UVal) => e.1 == k) b = true) := by
    intro b hb
    exact List.find?_eq_none.mp h b hb
  rw [List.eraseP_append_right _ (fun b hb hc => (hall b hb) hc)]
  simp [List.eraseP_cons_of_pos]

theorem shResizeTo_length (l : List PtS) (n : Nat) : (shResizeTo l n).length = n := by
  by_cases h : n ≤ l.length
  · simp [shResizeTo, h]
  · simp [shResizeTo, h]
    omega

theorem bic_flag_eta {bic : Bic} (hf : bic.fwd = true) (hv : bic.validateOnly = false)
    (hu : bic.updateMmrs = true) (hst : bic.storeShieldedOutput = true) :
    ({ bic with fwd := true, validateOnly := false, updateMmrs := true, storeShieldedOutput := true } : Bic) = bic := by
  cases bic
  simp only at hf hv hu hst
  simp [hf, hv, hu, hst]

theorem HK_shOut_rt {R : RulesM} {sp c : Nat} {ap : Option Nat} {s : ChainState}
    {bic : Bic} {ok : Bool} {s' : ChainState} {bic' : Bic}
    (hw : wfB s = true) (hf : bic.fwd = true) (hv : bic.validateOnly = false)
    (hu : bic.updateMmrs = true) (hst : bic.storeShieldedOutput = true)
    (hres : HandleKernelShieldedOutput R sp c ap s bic = some (ok, s', bic')) :
    RTConc (HandleKernelShieldedOutput R sp c ap) s bic ok s' bic' := by
  rcases wfB_iff.mp hw with ⟨hsort, hne, hwa, hcm, hpo, hso, hpi⟩
  simp only [HandleKernelShieldedOutput, hf, hv, hu, hst, if_true, Bool.not_false,
    Bool.false_eq_true, if_false] at hres
  by_cases hlim : bic.shieldedOuts ≥ R.shieldedMaxOuts
  · simp only [hlim, if_true] at hres
    simp at hres
    rcases hres with ⟨rfl, rfl, rfl⟩
    refine ⟨⟨rfl, rfl, rfl, rfl, rfl⟩, ?_, fun _ => ⟨rfl, rfl, rfl, rfl⟩, by simp⟩
    simp [BFrame, hf, hv, hu, hst]
  · simp only [hlim, if_false] at hres
    by_cases hva : ValidateAssetRange bic ap = true
    · simp only [hva, Bool.not_true, Bool.false_eq_true, if_false] at hres
      rcases hfind : uniqueFind s (sp, 0) with _ | u
      · rw [hfind] at hres
        simp at hres
        rcases hres with ⟨rfl, rfl, rfl⟩
        refine ⟨⟨rfl, rfl, rfl, rfl, rfl⟩, ?_, by simp, ?_⟩
        · simp [BFrame, hf, hv, hu, hst]
        · intro _
          constructor
          · rw [wfB_iff]
            refine ⟨hsort, hne, hwa, by simp [shResizeTo_length], rfl,
              by simp; omega, ?_⟩
            simp
            omega
          · intro aU lE
            refine ⟨aU, ?_⟩
            have hfd : ((s.uniqueKeys ++
                [((sp, 0), UVal.outp bic.height s.mmrShielded.length s.shieldedOutputs c)]).find?
                  (fun e => e.1 == ((sp, 0) : UKey))) =
                some ((sp, 0), UVal.outp bic.height s.mmrShielded.length s.shieldedOutputs c) := by
              rw [lfind_append_none (uniqueFind_none_find? hfind)]
              simp
            have herase : ((s.uniqueKeys ++
                [((sp, 0), UVal.outp bic.height s.mmrShielded.length s.shieldedOutputs c)]).eraseP
                  (fun e => e.1 == ((sp, 0) : UKey))) = s.uniqueKeys :=
              eraseP_append_key (uniqueFind_none_find? hfind)
            have hcm1 : (shResizeTo s.cmList (s.shieldedOutputs + 1)).set
                s.shieldedOutputs ⟨c, sp⟩ = s.cmList ++ [⟨c, sp⟩] := by
              rw [← hcm, shResizeTo_succ_self, lset_append_at_length]
            have hcm2 : shResizeTo (s.cmList ++ [(⟨c, sp⟩ : PtS)])
                (s.shieldedOutputs + 1 - 1) = s.cmList := by
              rw [Nat.add_sub_cancel, ← hcm, shResizeTo_take _ _ (by simp), ltake_append]
            simp only [HandleKernelShieldedOutput, uniqueFind, hcm1]
            simp [hfd, herase, hcm2, List.dropLast_concat, hf, hv, hu, hst]
            have hcm3 : shResizeTo (s.cmList ++ [(⟨c, sp⟩ : PtS)]) s.shieldedOutputs =
                s.cmList := by
              rw [← hcm, shResizeTo_take _ _ (by simp), ltake_append]
            have hfin : ∀ x, x = s.paramShieldedOutputs →
                ({ s with cmList := s.cmList, paramShieldedOutputs := x } :
                  ChainState) = s := by
              rintro x rfl
              rfl
            rw [hcm3]
            exact hfin _ hpo.symm
      · rw [hfind] at hres
        simp at hres
        rcases hres with ⟨rfl, rfl, rfl⟩
        exact ⟨⟨rfl, rfl, rfl, rfl, rfl⟩,
          by simp only [BFrame], fun _ => ⟨rfl, rfl, rfl, rfl⟩, by simp⟩
    · simp only [Bool.not_eq_true] at hva
      simp only [hva, Bool.not_false, if_true] at hres
      simp at hres
      rcases hres with ⟨rfl, rfl, rfl⟩
      exact ⟨⟨rfl, rfl, rfl, rfl, rfl⟩,
        by simp only [BFrame], fun _ => ⟨rfl, rfl, rfl, rfl⟩, by simp⟩

theorem HK_shIn_rt {R : RulesM} {sp we cfg : Nat} {ap : Option Nat} {s : ChainState}
    {bic : Bic} {ok : Bool} {s' : ChainState} {bic' : Bic}
    (hw : wfB s = true) (hf : bic.fwd = true) (hv : bic.validateOnly = false)
    (hu : bic.updateMmrs = true) (hst : bic.storeShieldedOutput = true)
    (hav : bic.alreadyValidated = false)
    (hres : HandleKernelShieldedInput R sp we cfg ap s bic = some (ok, s', bic')) :
    RTConc (HandleKernelShieldedInput R sp we cfg ap) s bic ok s' bic' := by
  rcases wfB_iff.mp hw with ⟨hsort, hne, hwa, hcm, hpo, hso, hpi⟩
  simp only [HandleKernelShieldedInput, hf, hv, hu, hst, hav, if_true, Bool.not_false,
    Bool.false_eq_true, if_false] at hres
  by_cases hva : ValidateAssetRange bic ap = true
  · simp only [hva, Bool.not_true, Bool.and_false, Bool.false_eq_true, if_false] at hres
    by_cases hlim : bic.shieldedIns ≥ R.shieldedMaxIns
    · simp [hlim] at hres
      rcases hres with ⟨rfl, rfl, rfl⟩
      refine ⟨⟨rfl, rfl, rfl, rfl, rfl⟩, ?_, fun _ => ⟨rfl, rfl, rfl, rfl⟩, by simp⟩
      simp [BFrame, hf, hv, hu, hst, hav]
    · simp only [hlim, if_false] at hres
      simp at hres
      by_cases hpool : IsShieldedInPool R s we cfg = true
      · simp only [hpool, Bool.not_true, Bool.and_false, Bool.false_eq_true,
          if_false] at hres
        rcases hfind : uniqueFind s (sp, 2) with _ | u
        · rw [hfind] at hres
          simp at hres
          rcases hres with ⟨rfl, rfl, rfl⟩
          refine ⟨⟨rfl, rfl, rfl, rfl, rfl⟩,
            by simp [BFrame, hf, hv, hu, hst, hav], by simp, ?_⟩
          intro _
          constructor
          · rw [wfB_iff]
            refine ⟨hsort, hne, hwa, by simp [hcm], hpo, by simp; omega, by simp⟩
          · intro aU lE
            refine ⟨aU, ?_⟩
            have hfd : ((s.uniqueKeys ++
                [((sp, 2), UVal.inp bic.height s.mmrShielded.length)]).find?
                  (fun e => e.1 == ((sp, 2) : UKey))) =
                some ((sp, 2), UVal.inp bic.height s.mmrShielded.length) := by
              rw [lfind_append_none (uniqueFind_none_find? hfind)]
              simp
            have herase : ((s.uniqueKeys ++
                [((sp, 2), UVal.inp bic.height s.mmrShielded.length)]).eraseP
                  (fun e => e.1 == ((sp, 2) : UKey))) = s.uniqueKeys :=
              eraseP_append_key (uniqueFind_none_find? hfind)
            simp only [HandleKernelShieldedInput, uniqueFind]
            simp [hfd, herase, List.dropLast_concat, hf, hv, hu, hst, hav]
            have hfin : ∀ x, x = s.paramShieldedInputs →
                ({ s with uniqueKeys := s.uniqueKeys, paramShieldedInputs := x } :
                  ChainState) = s := by
              rintro x rfl
              rfl
            exact hfin _ hpi.symm
        · rw [hfind] at hres
          simp at hres
          rcases hres with ⟨rfl, rfl, rfl⟩
          exact ⟨⟨rfl, rfl, rfl, rfl, rfl⟩, by simp only [BFrame],
            fun _ => ⟨rfl, rfl, rfl, rfl⟩, by simp⟩
      · simp only [Bool.not_eq_true] at hpool
        simp only [hpool, Bool.not_false, Bool.and_true, if_true] at hres
        simp at hres
        rcases hres with ⟨rfl, rfl, rfl⟩
        exact ⟨⟨rfl, rfl, rfl, rfl, rfl⟩, by simp only [BFrame],
          fun _ => ⟨rfl, rfl, rfl, rfl⟩, by simp⟩
  · simp only [Bool.not_eq_true] at hva
    simp only [hva, Bool.not_false, Bool.and_true, if_true] at hres
    simp at hres
    rcases hres with ⟨rfl, rfl, rfl⟩
    exact ⟨⟨rfl, rfl, rfl, rfl, rfl⟩, by simp only [BFrame],
      fun _ => ⟨rfl, rfl, rfl, rfl⟩, by simp⟩

/-! ## Asset operation lemmas -/

theorem mmrResizeTo_take (m : List HashV) (n : Nat) (h : n ≤ m.length) :
    mmrResizeTo m n = m.take n := by
  simp [mmrResizeTo, h]

theorem mmrResizeTo_succ_self (m : List HashV) :
    mmrResizeTo m (m.length + 1) = m ++ [.zero] := by
  simp [mmrResizeTo]

theorem lgetD_some_lt {α : Type} {l : List (Option α)} {j : Nat} {r : α}
    (h : l.getD j none = some r) : j < l.length := by
  induction l generalizing j with
  | nil => simp [List.getD] at h
  | cons a t ih =>
    cases j with
    | zero => simp
    | succ j2 =>
      simp [List.getD] at h
      have := ih (by simpa [List.getD] using h)
      simp
      omega

theorem lgetD_last {α : Type} {l : List α} (d : α) (h : l ≠ []) :
    l.dropLast ++ [l.getD (l.length - 1) d] = l := by
  induction l with
  | nil => exact absurd rfl h
  | cons a t ih =>
    cases t with
    | nil => rfl
    | cons b t2 =>
      have := ih (by simp)
      simpa [List.dropLast, List.getD] using this

theorem lset_last_dropLast {α : Type} (l : List α) (x : α) (h : l ≠ []) :
    (l.set (l.length - 1) x).dropLast = l.dropLast := by
  induction l with
  | nil => rfl
  | cons a t ih =>
    cases t with
    | nil => rfl
    | cons b t2 =>
      have := ih (by simp)
      simpa [List.set, List.dropLast] using this

theorem atPad_self {a : AssetTbl} {n : Nat} (h : n ≤ a.length) : atPad a n = a := by
  simp [atPad, Nat.sub_eq_zero_of_le h]

theorem AssetGetSafe_iff {a : AssetTbl} {id : Nat} {r : AssetRec} :
    AssetGetSafe a id = some r ↔ id ≠ 0 ∧ a.getD (id - 1) none = some r := by
  by_cases h : id = 0 <;> simp [AssetGetSafe, h]

theorem wfA_length {a : AssetTbl} {m : List HashV}
    (h : wfAssetsMmr 1 a m = true) : m.length = a.length := (wfA_iff.mp h).1

theorem wfA_getD_some {a : AssetTbl} {m : List HashV} {j : Nat} {r : AssetRec}
    (h : wfAssetsMmr 1 a m = true) (hj : a.getD j none = some r) :
    m.getD j .zero = assetHashOf (1 + j) r ∧ r.value < 2 ^ 128 := by
  have hp := (wfA_iff.mp h).2 j (lgetD_some_lt hj)
  rw [hj] at hp
  exact hp

theorem wfA_update {a : AssetTbl} {m : List HashV} {id : Nat} {r : AssetRec}
    (hwa : wfAssetsMmr 1 a m = true) (hid : 1 ≤ id) (hlt : id - 1 < a.length)
    (hv : r.value < 2 ^ 128) :
    wfAssetsMmr 1 (a.set (id - 1) (some r)) (m.set (id - 1) (assetHashOf id r)) =
      true := by
  rcases wfA_iff.mp hwa with ⟨hlen, hp⟩
  rw [wfA_iff]
  refine ⟨by simp [hlen], ?_⟩
  intro j hj
  simp only [List.length_set] at hj
  by_cases hje : j = id - 1
  · subst hje
    rw [lset_getD _ _ _ _ hj, lset_getD _ _ _ _ (by omega)]
    simp only
    refine ⟨?_, hv⟩
    congr 1
    omega
  · rw [lset_getD_ne _ _ _ _ _ hje, lset_getD_ne _ _ _ _ _ hje]
    exact hp j hj

theorem wfA_append {a : AssetTbl} {m : List HashV} {r : AssetRec}
    (hwa : wfAssetsMmr 1 a m = true) (hv : r.value < 2 ^ 128) :
    wfAssetsMmr 1 (a ++ [some r]) (m ++ [assetHashOf (a.length + 1) r]) = true := by
  rcases wfA_iff.mp hwa with ⟨hlen, hp⟩
  rw [wfA_iff]
  refine ⟨by simp [hlen], ?_⟩
  intro j hj
  simp only [List.length_append, List.length_singleton] at hj
  by_cases hje : j = a.length
  · subst hje
    rw [lgetD_append_at_length, ← hlen, lgetD_append_at_length, hlen]
    simp only
    refine ⟨?_, hv⟩
    congr 1
    omega
  · have hjlt : j < a.length := by omega
    rw [lgetD_append_left _ _ _ _ hjlt, lgetD_append_left _ _ _ _ (by omega)]
    exact hp j hjlt

theorem EnsureAssetsUsed_eq (R : RulesM) (s : ChainState) (bic : Bic) :
    EnsureAssetsUsed R s bic = { bic with assetsUsed :=
      (if bic.assetsUsed = R.assetMaxCount + 1 then s.paramAssetsUsed
       else bic.assetsUsed) } := by
  unfold EnsureAssetsUsed
  split <;> simp

theorem HK_create_rt {R : RulesM} {owner meta : Nat} {s : ChainState}
    {bic : Bic} {ok : Bool} {s' : ChainState} {bic' : Bic}
    (hw : wfB s = true) (hf : bic.fwd = true) (hv : bic.validateOnly = false)
    (hu : bic.updateMmrs = true) (hst : bic.storeShieldedOutput = true)
    (hav : bic.alreadyValidated = false)
    (hres : HandleKernelAssetCreate R owner meta s bic = some (ok, s', bic')) :
    RTConc (HandleKernelAssetCreate R owner meta) s bic ok s' bic' := by
  rcases wfB_iff.mp hw with ⟨hsort, hne, hwa, hcm, hpo, hso, hpi⟩
  have hlen := wfA_length hwa
  have hF1 : mmrResizeTo s.mmrAssets (s.assets.length + 1) =
      s.mmrAssets ++ [.zero] := by
    rw [← hlen, mmrResizeTo_succ_self]
  have hF2 : ∀ h : HashV, (s.mmrAssets ++ [HashV.zero]).set s.assets.length h =
      s.mmrAssets ++ [h] := by
    intro h
    rw [← hlen, lset_append_at_length]
  simp only [HandleKernelAssetCreate, EnsureAssetsUsed_eq, hf, hv, hu, hst, hav,
    Bool.not_false, Bool.not_true, Bool.false_eq_true, if_true, if_false] at hres
  by_cases hown : AssetFindByOwner s.assets owner = true
  · simp [hown] at hres
    rcases hres with ⟨rfl, rfl, rfl⟩
    exact ⟨⟨rfl, rfl, rfl, rfl, rfl⟩, by simp [BFrame, hf, hv, hu, hst, hav],
      fun _ => ⟨rfl, rfl, rfl, rfl⟩, by simp⟩
  · simp only [hown, Bool.false_eq_true, if_false] at hres
    by_cases hmax : (if bic.assetsUsed = R.assetMaxCount + 1 then s.paramAssetsUsed
        else bic.assetsUsed) ≥ R.assetMaxCount
    · simp [hmax] at hres
      rcases hres with ⟨rfl, rfl, rfl⟩
      exact ⟨⟨rfl, rfl, rfl, rfl, rfl⟩, by simp [BFrame, hf, hv, hu, hst, hav],
        fun _ => ⟨rfl, rfl, rfl, rfl⟩, by simp⟩
    · simp only [hmax, if_false, Bool.not_true, Bool.false_eq_true, InternalAssetAdd,
        AssetAdd, mmrReplace, rbPush, Nat.add_sub_cancel, reduceIte] at hres
      rw [hlen] at hres
      simp only [Nat.lt_succ_self, if_true, hF1, hF2] at hres
      simp at hres
      rcases hres with ⟨rfl, rfl, rfl⟩
      refine ⟨⟨rfl, rfl, rfl, rfl, rfl⟩, by simp [BFrame, hf, hv, hu, hst, hav],
        by simp, ?_⟩
      intro _
      constructor
      · rw [wfB_iff]
        exact ⟨hsort, hne, wfA_append hwa (by norm_num), hcm, hpo, hso, hpi⟩
      · intro aU lE
        refine ⟨(if aU = R.assetMaxCount + 1 then s.paramAssetsUsed else aU) - 1, ?_⟩
        simp only [HandleKernelAssetCreate, EnsureAssetsUsed_eq, hav, Bool.not_false,
          Bool.not_true, Bool.false_eq_true, if_true, if_false]
        have hPad : ∀ x : Option AssetRec,
            atPad (s.assets ++ [x]) (s.assets.length + 1) = s.assets ++ [x] :=
          fun x => atPad_self (by simp)
        have hSet : ∀ x : Option AssetRec,
            (s.assets ++ [x]).set s.assets.length none = s.assets ++ [none] :=
          fun x => lset_append_at_length _ _ _
        have hTake : ∀ h : HashV,
            (s.mmrAssets ++ [h]).take s.assets.length = s.mmrAssets := by
          intro h
          rw [← hlen, ltake_append]
        simp only [rbPop, List.getLast?_concat, List.dropLast_concat]
        simp only [InternalAssetDel, AssetDelete]
        simp [hlen, hPad, hSet, hTake, mmrResizeTo_take, List.dropLast_concat,
          Nat.add_sub_cancel]
        exact ⟨hv, hu, hst⟩

theorem lgetD_take {α : Type} (l : List α) (n j : Nat) (d : α) (hj : j < n) :
    (l.take n).getD j d = l.getD j d := by
  induction l generalizing n j with
  | nil => simp
  | cons a t ih =>
    cases n with
    | zero => omega
    | succ n2 =>
      cases j with
      | zero => rfl
      | succ j2 => simpa [List.getD] using ih n2 j2 (by omega)

theorem lgetD_dropLast {α : Type} (l : List α) (j : Nat) (d : α)
    (hj : j < l.length - 1) : l.dropLast.getD j d = l.getD j d := by
  rw [List.dropLast_eq_take]
  exact lgetD_take l (l.length - 1) j d hj

theorem wfA_del_interior {a : AssetTbl} {m : List HashV} {id : Nat}
    (hwa : wfAssetsMmr 1 a m = true) (_hid : 1 ≤ id) (hlt : id - 1 < a.length) :
    wfAssetsMmr 1 (a.set (id - 1) none) (m.set (id - 1) .zero) = true := by
  rcases wfA_iff.mp hwa with ⟨hlen, hp⟩
  rw [wfA_iff]
  refine ⟨by simp [hlen], ?_⟩
  intro j hj
  simp only [List.length_set] at hj
  by_cases hje : j = id - 1
  · subst hje
    rw [lset_getD _ _ _ _ hj, lset_getD _ _ _ _ (by omega)]
  · rw [lset_getD_ne _ _ _ _ _ hje, lset_getD_ne _ _ _ _ _ hje]
    exact hp j hj

theorem wfA_dropLast {a : AssetTbl} {m : List HashV}
    (hwa : wfAssetsMmr 1 a m = true) :
    wfAssetsMmr 1 a.dropLast (m.take (a.length - 1)) = true := by
  rcases wfA_iff.mp hwa with ⟨hlen, hp⟩
  rw [wfA_iff]
  refine ⟨?_, ?_⟩
  · simp [hlen]
  · intro j hj
    simp only [List.length_dropLast] at hj
    rw [lgetD_take _ _ _ _ hj, lgetD_dropLast _ _ _ hj]
    exact hp j (by omega)

/-- Deleting an asset with a zero value and re-adding it at the same id is
the identity on the chain state, and the deletion preserves the asset
invariant. -/
theorem asset_del_add_rt {s : ChainState} {id : Nat} {ai : AssetRec}
    (hwa : wfAssetsMmr 1 s.assets s.mmrAssets = true)
    (hget : AssetGetSafe s.assets id = some ai) (hv0 : ai.value = 0) :
    wfAssetsMmr 1 (InternalAssetDel s id).assets
      (InternalAssetDel s id).mmrAssets = true ∧
    InternalAssetAdd (InternalAssetDel s id) ai id = (s, id) ∧
    InternalAssetDel s id = { s with
      assets := (InternalAssetDel s id).assets
      mmrAssets := (InternalAssetDel s id).mmrAssets } := by
  rcases AssetGetSafe_iff.mp hget with ⟨hid0, hgetD⟩
  have hid1 : 1 ≤ id := by omega
  have hlt : id - 1 < s.assets.length := lgetD_some_lt hgetD
  have hlen := wfA_length hwa
  have hidle : id ≤ s.assets.length := by omega
  rcases wfA_getD_some hwa hgetD with ⟨hmgetD, _⟩
  have hai0 : ({ ai with value := 0 } : AssetRec) = ai := by
    cases ai
    simp only at hv0
    simp [hv0]
  by_cases hidlen : id = s.assets.length
  · -- the deleted asset is the last one: the table and the MMR shrink
    have hannil : s.assets ≠ [] := by
      intro hc
      rw [hc] at hlt
      simp at hlt
    have hAD : AssetDelete s.assets id =
        (s.assets.dropLast, s.assets.length - 1) := by
      simp only [AssetDelete, atPad_self hidle]
      rw [if_pos (by simp [hidlen])]
      rw [hidlen, lset_last_dropLast _ _ hannil]
      simp
    have hdel : InternalAssetDel s id =
        { s with
          assets := s.assets.dropLast
          mmrAssets := s.mmrAssets.take (s.assets.length - 1) } := by
      simp only [InternalAssetDel, hAD]
      rw [if_pos (by omega), mmrResizeTo_take _ _ (by omega)]
    refine ⟨by rw [hdel]; exact wfA_dropLast hwa, ?_, by rw [hdel]⟩
    rw [hdel]
    have hgrow : s.assets.dropLast ++ [some ai] = s.assets := by
      have h1 := lgetD_last (none : Option AssetRec) hannil
      rw [show s.assets.getD (s.assets.length - 1) none = some ai from by
        rw [← hgetD]
        congr 1
        omega] at h1
      exact h1
    have hAA : AssetAdd s.assets.dropLast ai id = (s.assets, id) := by
      simp only [AssetAdd]
      rw [if_neg hid0]
      rw [show atPad s.assets.dropLast id = s.assets.dropLast ++ [none] from by
        simp only [atPad, List.length_dropLast]
        rw [show id - (s.assets.length - 1) = 1 from by omega]
        rfl]
      rw [show id - 1 = s.assets.dropLast.length from by simp; omega]
      rw [lset_append_at_length, hgrow]
    simp only [InternalAssetAdd, hAA, hai0]
    have hmnil : s.mmrAssets ≠ [] := by
      intro hc
      rw [hc] at hlen
      simp at hlen
      omega
    rw [if_pos (by simp [List.length_take]; omega)]
    rw [show mmrResizeTo (s.mmrAssets.take (s.assets.length - 1)) id =
        s.mmrAssets.take (s.assets.length - 1) ++ [.zero] from by
      simp only [mmrResizeTo, List.length_take]
      rw [if_neg (by omega)]
      rw [show id - min (s.assets.length - 1) s.mmrAssets.length = 1 from by omega]
      rfl]
    simp only [mmrReplace]
    rw [show id - 1 = (s.mmrAssets.take (s.assets.length - 1)).length from by
      simp [List.length_take]
      omega]
    rw [lset_append_at_length]
    rw [show s.mmrAssets.take (s.assets.length - 1) ++ [assetHashOf id ai] =
        s.mmrAssets from by
      have h2 := lgetD_last (HashV.zero) (l := s.mmrAssets) hmnil
      rw [show s.mmrAssets.getD (s.mmrAssets.length - 1) HashV.zero =
          assetHashOf id ai from by
        rw [show s.mmrAssets.length - 1 = id - 1 from by omega]
        rw [hmgetD]
        congr 1
        omega] at h2
      rw [show s.assets.length - 1 = s.mmrAssets.length - 1 from by omega]
      rw [← List.dropLast_eq_take]
      exact h2]
  · -- interior deletion: the slot and its MMR position are zeroed in place
    have hAD : AssetDelete s.assets id =
        (s.assets.set (id - 1) none, s.assets.length) := by
      simp only [AssetDelete, atPad_self hidle]
      rw [if_neg (by simp; omega)]
      simp
    have hdel : InternalAssetDel s id =
        { s with
          assets := s.assets.set (id - 1) none
          mmrAssets := s.mmrAssets.set (id - 1) .zero } := by
      simp only [InternalAssetDel, hAD]
      rw [if_neg (by omega)]
      simp only [mmrReplace]
    refine ⟨by rw [hdel]; exact wfA_del_interior hwa hid1 hlt, ?_, by rw [hdel]⟩
    rw [hdel]
    have hAA : AssetAdd (s.assets.set (id - 1) none) ai id =
        (s.assets, id) := by
      simp only [AssetAdd]
      rw [if_neg hid0]
      rw [atPad_self (by simp; omega)]
      rw [List.set_set]
      rw [show s.assets.set (id - 1) (some ai) = s.assets from by
        conv_lhs => rw [← hgetD]
        exact lset_self hlt]
    simp only [InternalAssetAdd, hAA, hai0]
    rw [if_neg (by simp; omega)]
    simp only [mmrReplace]
    rw [List.set_set]
    rw [show s.mmrAssets.set (id - 1) (assetHashOf id ai) = s.mmrAssets from by
      rw [show assetHashOf id ai = s.mmrAssets.getD (id - 1) HashV.zero from by
        rw [hmgetD]
        congr 1
        omega]
      exact lset_self (by omega)]

/-- Round-trip of `HandleKernel(TxKernelAssetDestroy)`: failure leaves the
state untouched; success deletes the (zero-valued) asset and the backward
pass re-creates it at the same id from the journaled metadata. -/
theorem HK_destroy_rt {R : RulesM} {assetID owner : Nat} {s : ChainState}
    {bic : Bic} {ok : Bool} {s' : ChainState} {bic' : Bic}
    (hw : wfB s = true) (hf : bic.fwd = true) (hv : bic.validateOnly = false)
    (hu : bic.updateMmrs = true) (hst : bic.storeShieldedOutput = true)
    (hav : bic.alreadyValidated = false)
    (hres : HandleKernelAssetDestroy R assetID owner s bic = some (ok, s', bic')) :
    RTConc (HandleKernelAssetDestroy R assetID owner) s bic ok s' bic' := by
  rcases wfB_iff.mp hw with ⟨hsort, hne, hwa, hcm, hpo, hso, hpi⟩
  simp only [HandleKernelAssetDestroy, EnsureAssetsUsed_eq, hf, hv, hu, hst, hav,
    Bool.not_false, Bool.not_true, Bool.false_eq_true, if_true, if_false] at hres
  rcases hget : AssetGetSafe s.assets assetID with _ | ai
  · simp [hget] at hres
    rcases hres with ⟨rfl, rfl, rfl⟩
    exact ⟨⟨rfl, rfl, rfl, rfl, rfl⟩, by simp [BFrame, hf, hv, hu, hst, hav],
      fun _ => ⟨rfl, rfl, rfl, rfl⟩, by simp⟩
  · simp only [hget] at hres
    rcases hck : (decide (ai.owner = owner) && decide (ai.value = 0) &&
        !decide (ai.lockHeight + R.caLockPeriod > bic.height)) with _ | _
    · simp only [hck, Bool.not_false, if_true] at hres
      simp at hres
      rcases hres with ⟨rfl, rfl, rfl⟩
      exact ⟨⟨rfl, rfl, rfl, rfl, rfl⟩, by simp [BFrame, hf, hv, hu, hst, hav],
        fun _ => ⟨rfl, rfl, rfl, rfl⟩, by simp⟩
    · simp only [hck, Bool.not_true, Bool.false_eq_true, if_false, if_true,
        Option.some.injEq] at hres
      simp at hres
      rcases hres with ⟨rfl, rfl, rfl⟩
      simp only [Bool.and_eq_true, Bool.not_eq_true', decide_eq_true_eq,
        decide_eq_false_iff_not] at hck
      rcases hck with ⟨⟨ho, hval⟩, hlock⟩
      rcases asset_del_add_rt hwa (by rw [hget]) hval with ⟨hwfdel, hadd, hframe⟩
      refine ⟨by rw [hframe]; exact ⟨rfl, rfl, rfl, rfl, rfl⟩,
        by simp [BFrame, rbPush, hf, hv, hu, hst, hav], by simp, ?_⟩
      intro _
      have hrec : AssetRec.mk owner ai.meta 0 ai.lockHeight = ai := by
        cases ai
        simp only at ho hval
        simp [ho, hval]
      constructor
      · rw [hframe, wfB_iff]
        exact ⟨hsort, hne, hwfdel, hcm, hpo, hso, hpi⟩
      · intro aU lE
        refine ⟨(if aU = R.assetMaxCount + 1 then s.paramAssetsUsed else aU) + 1, ?_⟩
        simp only [HandleKernelAssetDestroy, EnsureAssetsUsed_eq, hav, Bool.not_false,
          Bool.not_true, Bool.false_eq_true, if_true, if_false]
        have hpau : (InternalAssetDel s assetID).paramAssetsUsed =
            s.paramAssetsUsed := by rw [hframe]
        simp only [rbPush, rbPop, List.getLast?_concat, List.dropLast_concat]
        simp [hpau, hrec, hadd, hf, hv, hu, hst]

theorem bne_comm2 (x y : Bool) : (x != y) = (y != x) := by
  cases x <;> cases y <;> rfl

theorem mod_add_sub_cancel (x t : Nat) (hx : x < 2 ^ 128) :
    ((x + (2 ^ 128 - t % 2 ^ 64) % 2 ^ 128) % 2 ^ 128 + t % 2 ^ 64) % 2 ^ 128
      = x := by omega

theorem mod_sub_add_cancel (x t : Nat) (hx : x < 2 ^ 128) :
    ((x + t % 2 ^ 64) % 2 ^ 128 + (2 ^ 128 - t % 2 ^ 64) % 2 ^ 128) % 2 ^ 128
      = x := by omega

/-- Round-trip of `HandleKernel(TxKernelAssetEmit)`: failure (unknown asset,
wrong owner, non-negatable amount, overflow or underflow) leaves the state
untouched; success updates the asset's value — journaling the previous lock
height whenever the value crosses zero — and the backward pass applies the
inverse delta and restores the journaled lock height. -/
theorem HK_emit_rt {R : RulesM} {assetID owner : Nat} {value : Int}
    {s : ChainState} {bic : Bic} {ok : Bool} {s' : ChainState} {bic' : Bic}
    (hw : wfB s = true) (hf : bic.fwd = true) (_hv : bic.validateOnly = false)
    (hu : bic.updateMmrs = true) (_hst : bic.storeShieldedOutput = true)
    (_hav : bic.alreadyValidated = false)
    (hres : HandleKernelAssetEmit R assetID owner value s bic =
      some (ok, s', bic')) :
    RTConc (HandleKernelAssetEmit R assetID owner value) s bic ok s' bic' := by
  rcases wfB_iff.mp hw with ⟨hsort, hne, hwa, hcm, hpo, hso, hpi⟩
  simp only [HandleKernelAssetEmit, hf, hu, Bool.not_true, Bool.false_and,
    Bool.false_eq_true, if_false] at hres
  rcases hget : AssetGetSafe s.assets assetID with _ | ai
  · simp [hget] at hres
    rcases hres with ⟨rfl, rfl, rfl⟩
    exact ⟨⟨rfl, rfl, rfl, rfl, rfl⟩, by simp [BFrame],
      fun _ => ⟨rfl, rfl, rfl, rfl⟩, by simp⟩
  · simp only [hget] at hres
    rcases how : (ai.owner != owner) with _ | _
    swap
    · simp [how] at hres
      rcases hres with ⟨rfl, rfl, rfl⟩
      exact ⟨⟨rfl, rfl, rfl, rfl, rfl⟩, by simp [BFrame],
        fun _ => ⟨rfl, rfl, rfl, rfl⟩, by simp⟩
    rcases AssetGetSafe_iff.mp hget with ⟨hid0, hgetD⟩
    have hlt1 : assetID - 1 < s.assets.length := lgetD_some_lt hgetD
    rcases wfA_getD_some hwa hgetD with ⟨hmgetD, hvlt⟩
    have hlenA := wfA_length hwa
    have hmlt : assetID - 1 < s.mmrAssets.length := by omega
    have hget2 : ∀ r : AssetRec,
        (s.assets.set (assetID - 1) (some r)).getD (assetID - 1) none = some r :=
      fun r => lset_getD _ _ _ _ (by simpa using hlt1)
    have hsetai : s.assets.set (assetID - 1) (some ai) = s.assets := by
      conv_lhs => rw [← hgetD]
      exact lset_self hlt1
    have hsetmh : s.mmrAssets.set (assetID - 1) (assetHashOf assetID ai) =
        s.mmrAssets := by
      rw [show assetHashOf assetID ai = s.mmrAssets.getD (assetID - 1) .zero from
        by rw [hmgetD]; congr 1; omega]
      exact lset_self hmlt
    rcases hb : decide (0 ≤ value) with _ | _
    · -- negative amount: forward burns, backward re-mints
      by_cases hneg : negI64 value < 0
      · simp [how, hb, hneg] at hres
        rcases hres with ⟨rfl, rfl, rfl⟩
        exact ⟨⟨rfl, rfl, rfl, rfl, rfl⟩, by simp [BFrame],
          fun _ => ⟨rfl, rfl, rfl, rfl⟩, by simp⟩
      · by_cases hund : ai.value < (negI64 value).toNat % 2 ^ 64
        · simp only [how, hb, hf, hu, eq_self_iff_true, if_true, Bool.not_true,
            Bool.not_false, Bool.false_eq_true, Bool.true_eq_false, if_false,
            if_neg hneg, if_pos hund] at hres
          simp at hres
          rcases hres with ⟨rfl, rfl, rfl⟩
          exact ⟨⟨rfl, rfl, rfl, rfl, rfl⟩, by simp [BFrame],
            fun _ => ⟨rfl, rfl, rfl, rfl⟩, by simp⟩
        · simp only [how, hb, hf, hu, eq_self_iff_true, if_true, Bool.not_true,
            Bool.not_false, Bool.false_eq_true, Bool.true_eq_false, if_false,
            if_neg hneg, if_neg hund] at hres
          rcases hflip : (decide ((ai.value +
              (2 ^ 128 - (negI64 value).toNat % 2 ^ 64) % 2 ^ 128) % 2 ^ 128 = 0)
              != decide (ai.value = 0)) with _ | _
          · simp only [hflip, Bool.false_eq_true, if_false] at hres
            simp only [Option.some.injEq, Prod.mk.injEq] at hres
            rcases hres with ⟨rfl, rfl, rfl⟩
            have hb1 := mod_add_sub_cancel ai.value (negI64 value).toNat hvlt
            have hflip2 := (bne_comm2 (decide (ai.value = 0)) _).trans hflip
            refine ⟨⟨rfl, rfl, rfl, rfl, rfl⟩, by simp [BFrame], by simp, ?_⟩
            intro _
            constructor
            · rw [wfB_iff]
              refine ⟨hsort, hne, ?_, hcm, hpo, hso, hpi⟩
              simp only [AssetSetValue, hgetD, mmrReplace]
              exact wfA_update hwa (by omega) hlt1 (Nat.mod_lt _ (by norm_num))
            · intro aU lE
              refine ⟨aU, ?_⟩
              simp only [HandleKernelAssetEmit, AssetSetValue, AssetGetSafe,
                mmrReplace, hgetD, hid0, hget2, List.set_set, hsetai, hsetmh,
                how, hb, hneg, hund, hb1, hflip2, hu, hf, Bool.not_true,
                Bool.not_false, Bool.true_and, Bool.false_and, Bool.and_false,
                Bool.false_eq_true, Bool.true_eq_false, eq_self_iff_true,
                if_true, if_false]
          · simp only [hflip, if_true] at hres
            simp only [Option.some.injEq, Prod.mk.injEq] at hres
            rcases hres with ⟨rfl, rfl, rfl⟩
            have hb1 := mod_add_sub_cancel ai.value (negI64 value).toNat hvlt
            have hflip2 := (bne_comm2 (decide (ai.value = 0)) _).trans hflip
            refine ⟨⟨rfl, rfl, rfl, rfl, rfl⟩, by simp [BFrame, rbPush],
              by simp, ?_⟩
            intro _
            constructor
            · rw [wfB_iff]
              refine ⟨hsort, hne, ?_, hcm, hpo, hso, hpi⟩
              simp only [AssetSetValue, hgetD, mmrReplace]
              exact wfA_update hwa (by omega) hlt1 (Nat.mod_lt _ (by norm_num))
            · intro aU lE
              refine ⟨aU, ?_⟩
              simp only [HandleKernelAssetEmit, AssetSetValue, AssetGetSafe,
                mmrReplace, rbPush, rbPop, List.getLast?_concat,
                List.dropLast_concat, hgetD, hid0, hget2, List.set_set, hsetai,
                hsetmh, how, hb, hneg, hund, hb1, hflip2, hu, hf, Bool.not_true,
                Bool.not_false, Bool.true_and, Bool.false_and, Bool.and_false,
                Bool.false_eq_true, Bool.true_eq_false, eq_self_iff_true,
                if_true, if_false]
    · -- positive amount: forward mints, backward burns
      have h0 : 0 ≤ value := of_decide_eq_true hb
      by_cases hov : (ai.value + value.toNat % 2 ^ 64) % 2 ^ 128 <
          value.toNat % 2 ^ 64
      · simp only [how, hb, hf, hu, eq_self_iff_true, if_true, Bool.not_true,
          Bool.not_false, Bool.false_eq_true, Bool.true_eq_false, if_false,
          if_neg (not_lt.mpr h0), if_pos hov] at hres
        simp at hres
        rcases hres with ⟨rfl, rfl, rfl⟩
        exact ⟨⟨rfl, rfl, rfl, rfl, rfl⟩, by simp [BFrame],
          fun _ => ⟨rfl, rfl, rfl, rfl⟩, by simp⟩
      · simp only [how, hb, hf, hu, eq_self_iff_true, if_true, Bool.not_true,
          Bool.not_false, Bool.false_eq_true, Bool.true_eq_false, if_false,
          if_neg (not_lt.mpr h0), if_neg hov] at hres
        have hnn : ¬ value < 0 := not_lt.mpr h0
        rcases hflip : (decide ((ai.value + value.toNat % 2 ^ 64) % 2 ^ 128 = 0)
            != decide (ai.value = 0)) with _ | _
        · simp only [hflip, Bool.false_eq_true, if_false] at hres
          simp only [Option.some.injEq, Prod.mk.injEq] at hres
          rcases hres with ⟨rfl, rfl, rfl⟩
          have hb1 := mod_sub_add_cancel ai.value value.toNat hvlt
          have hflip2 := (bne_comm2 (decide (ai.value = 0)) _).trans hflip
          refine ⟨⟨rfl, rfl, rfl, rfl, rfl⟩, by simp [BFrame], by simp, ?_⟩
          intro _
          constructor
          · rw [wfB_iff]
            refine ⟨hsort, hne, ?_, hcm, hpo, hso, hpi⟩
            simp only [AssetSetValue, hgetD, mmrReplace]
            exact wfA_update hwa (by omega) hlt1 (Nat.mod_lt _ (by norm_num))
          · intro aU lE
            refine ⟨aU, ?_⟩
            simp only [HandleKernelAssetEmit, AssetSetValue, AssetGetSafe,
              mmrReplace, hgetD, hid0, hget2, List.set_set, hsetai, hsetmh,
              how, hb, hnn, hov, hb1, hflip2, hu, hf, Bool.not_true,
              Bool.not_false, Bool.true_and, Bool.false_and, Bool.and_false,
              Bool.false_eq_true, Bool.true_eq_false, eq_self_iff_true,
              if_true, if_false]
        · simp only [hflip, if_true] at hres
          simp only [Option.some.injEq, Prod.mk.injEq] at hres
          rcases hres with ⟨rfl, rfl, rfl⟩
          have hb1 := mod_sub_add_cancel ai.value value.toNat hvlt
          have hflip2 := (bne_comm2 (decide (ai.value = 0)) _).trans hflip
          refine ⟨⟨rfl, rfl, rfl, rfl, rfl⟩, by simp [BFrame, rbPush],
            by simp, ?_⟩
          intro _
          constructor
          · rw [wfB_iff]
            refine ⟨hsort, hne, ?_, hcm, hpo, hso, hpi⟩
            simp only [AssetSetValue, hgetD, mmrReplace]
            exact wfA_update hwa (by omega) hlt1 (Nat.mod_lt _ (by norm_num))
          · intro aU lE
            refine ⟨aU, ?_⟩
            simp only [HandleKernelAssetEmit, AssetSetValue, AssetGetSafe,
              mmrReplace, rbPush, rbPop, List.getLast?_concat,
              List.dropLast_concat, hgetD, hid0, hget2, List.set_set, hsetai,
              hsetmh, how, hb, hnn, hov, hb1, hflip2, hu, hf, Bool.not_true,
              Bool.not_false, Bool.true_and, Bool.false_and, Bool.and_false,
              Bool.false_eq_true, Bool.true_eq_false, eq_self_iff_true,
              if_true, if_false]

/-- Round-trip of the kernel-subtype dispatch (`HandleKernel` overloads). -/
theorem HKD_rt {R : RulesM} {d : KrnData} {s : ChainState} {bic : Bic}
    {ok : Bool} {s' : ChainState} {bic' : Bic}
    (hw : wfB s = true) (hf : bic.fwd = true) (hv : bic.validateOnly = false)
    (hu : bic.updateMmrs = true) (hst : bic.storeShieldedOutput = true)
    (hav : bic.alreadyValidated = false)
    (hres : HandleKernelData R d s bic = some (ok, s', bic')) :
    RTConc (HandleKernelData R d) s bic ok s' bic' := by
  cases d with
  | std rel =>
    simp only [HandleKernelData, Option.some.injEq, Prod.mk.injEq] at hres
    rcases hres with ⟨rfl, rfl, rfl⟩
    refine ⟨⟨rfl, rfl, rfl, rfl, rfl⟩, by simp [BFrame],
      fun _ => ⟨rfl, rfl, rfl, rfl⟩, ?_⟩
    intro _
    refine ⟨hw, fun aU lE => ⟨aU, ?_⟩⟩
    cases rel with
    | none => rfl
    | some p => simp [HandleKernelData, HandleKernelStd]
  | assetCreate owner meta => exact HK_create_rt (R := R) hw hf hv hu hst hav hres
  | assetEmit aid owner v => exact HK_emit_rt (R := R) hw hf hv hu hst hav hres
  | assetDestroy aid owner => exact HK_destroy_rt (R := R) hw hf hv hu hst hav hres
  | shOut sp c ap => exact HK_shOut_rt (R := R) hw hf hv hu hst hres
  | shIn sp we cfg ap => exact HK_shIn_rt (R := R) hw hf hv hu hst hav hres

/-- Round-trip conclusion for the forward kernel-vector loop: a successful
forward pass is undone exactly by the backward loop. -/
def RTVec (R : RulesM) (l : List Krn) (s : ChainState) (bic : Bic) (ok : Bool)
    (s' : ChainState) (bic' : Bic) : Prop :=
  KFrame s s' ∧ BFrame bic bic' ∧
  (ok = false → s' = s ∧ bic'.rollback = bic.rollback ∧
    bic'.shieldedIns = bic.shieldedIns ∧ bic'.shieldedOuts = bic.shieldedOuts) ∧
  (ok = true → wfB s' = true ∧
    ∀ aU lE, ∃ aU2,
      HandleKernelVecBwd R l s'
        { bic' with fwd := false, assetsUsed := aU, limitExceeded := lE } =
      some (s, { bic with fwd := false, assetsUsed := aU2, limitExceeded := lE }))

theorem KFrame_trans {s1 s2 s3 : ChainState} (h1 : KFrame s1 s2)
    (h2 : KFrame s2 s3) : KFrame s1 s3 := by
  rcases h1 with ⟨a1, a2, a3, a4, a5⟩
  rcases h2 with ⟨b1, b2, b3, b4, b5⟩
  exact ⟨b1.trans a1, b2.trans a2, b3.trans a3, b4.trans a4, b5.trans a5⟩

theorem BFrame_trans {a b c : Bic} (h1 : BFrame a b) (h2 : BFrame b c) :
    BFrame a c := by
  simp only [BFrame] at h1 h2 ⊢
  rw [h2, h1]

theorem BFrame_fields {a b : Bic} (h : BFrame a b) :
    b.fwd = a.fwd ∧ b.validateOnly = a.validateOnly ∧
    b.updateMmrs = a.updateMmrs ∧ b.storeShieldedOutput = a.storeShieldedOutput ∧
    b.alreadyValidated = a.alreadyValidated := by
  rw [h]
  exact ⟨rfl, rfl, rfl, rfl, rfl⟩

theorem BFrame_restore {a b : Bic} (h : BFrame a b)
    (h1 : b.rollback = a.rollback) (h2 : b.shieldedIns = a.shieldedIns)
    (h3 : b.shieldedOuts = a.shieldedOuts) :
    b = { a with assetsUsed := b.assetsUsed, limitExceeded := b.limitExceeded } := by
  rw [BFrame] at h
  rw [h, h1, h2, h3]

/-- Joint round-trip of the generic kernel handler and the forward
kernel-vector loop, by strong induction on size. -/
theorem HK_mutual_rt (n : Nat) :
    (∀ (v : Krn) (R : RulesM) (s : ChainState) (bic : Bic) (ok : Bool)
      (s' : ChainState) (bic' : Bic), sizeOf v ≤ n → wfB s = true →
      bic.fwd = true → bic.validateOnly = false → bic.updateMmrs = true →
      bic.storeShieldedOutput = true → bic.alreadyValidated = false →
      HandleKernelRec R v s bic = some (ok, s', bic') →
      RTConc (HandleKernelRec R v) s bic ok s' bic') ∧
    (∀ (l : List Krn) (R : RulesM) (s : ChainState) (bic : Bic) (ok : Bool)
      (s' : ChainState) (bic' : Bic), sizeOf l ≤ n → wfB s = true →
      bic.fwd = true → bic.validateOnly = false → bic.updateMmrs = true →
      bic.storeShieldedOutput = true → bic.alreadyValidated = false →
      HandleKernelVecFwd R l s bic = some (ok, s', bic') →
      RTVec R l s bic ok s' bic') := by
  induction n with
  | zero =>
    constructor
    · intro v R s bic ok s' bic' hsz
      rcases v with ⟨kid, data, nested⟩
      simp [Krn.mk.sizeOf_spec] at hsz
    · intro l R s bic ok s' bic' hsz
      cases l with
      | nil => simp at hsz
      | cons x xs => simp [List.cons.sizeOf_spec] at hsz
  | succ n ih =>
    rcases ih with ⟨ih1, ih2⟩
    constructor
    · -- the generic kernel handler
      intro v R s bic ok s' bic' hsz hw hf hv hu hst hav hres
      rcases v with ⟨kid, data, nested⟩
      have hszn : sizeOf nested ≤ n := by
        simp [Krn.mk.sizeOf_spec] at hsz
        omega
      simp only [HandleKernelRec, hf, eq_self_iff_true, if_true] at hres
      rcases hVF : HandleKernelVecFwd R nested s bic with _ | ⟨ok1, s1, bic1⟩
      · simp [hVF] at hres
      simp only [hVF] at hres
      rcases hok1 : ok1 with _ | _
      · -- nested loop failed (already self-reverted)
        subst hok1
        rcases ih2 nested R s bic false s1 bic1 hszn hw hf hv hu hst hav hVF
          with ⟨hKF1, hBF1, hfail1, _⟩
        simp only [Bool.false_eq_true, if_false, Option.some.injEq,
          Prod.mk.injEq] at hres
        rcases hres with ⟨rfl, rfl, rfl⟩
        exact ⟨hKF1, hBF1, fun _ => hfail1 rfl, by simp⟩
      subst hok1
      simp only [if_true] at hres
      rcases ih2 nested R s bic true s1 bic1 hszn hw hf hv hu hst hav hVF
        with ⟨hKF1, hBF1, _, hS1⟩
      obtain ⟨hw1, hbwd1⟩ := hS1 rfl
      obtain ⟨hbf1, hbv1, hbu1, hbs1, hba1⟩ := BFrame_fields hBF1
      rcases hD : HandleKernelData R data s1 bic1 with _ | ⟨ok2, s2, bic2⟩
      · simp [hD] at hres
      simp only [hD] at hres
      rcases HKD_rt (R := R) hw1 (hbf1.trans hf) (hbv1.trans hv)
          (hbu1.trans hu) (hbs1.trans hst) (hba1.trans hav) hD
        with ⟨hKF2, hBF2, hfail2, hS2⟩
      obtain ⟨hbf2, hbv2, hbu2, hbs2, hba2⟩ := BFrame_fields hBF2
      rcases hok2 : ok2 with _ | _
      · -- subtype handler failed: revert the nested prefix
        subst hok2
        obtain ⟨rfl, hrb2, hsi2, hso2⟩ := hfail2 rfl
        have hv2 : bic2.validateOnly = false := (hbv2.trans hbv1).trans hv
        simp only [Bool.false_eq_true, if_false] at hres
        rw [if_neg (show ¬ bic2.validateOnly = true from by simp [hv2])] at hres
        have hbic2eq : ({ bic2 with fwd := false } : Bic) =
            { bic1 with
              fwd := false
              assetsUsed := bic2.assetsUsed
              limitExceeded := bic2.limitExceeded } := by
          rw [BFrame_restore hBF2 hrb2 hsi2 hso2]
        obtain ⟨aU2, hVB⟩ := hbwd1 bic2.assetsUsed bic2.limitExceeded
        rw [hbic2eq, hVB] at hres
        simp only [Option.some.injEq, Prod.mk.injEq] at hres
        rcases hres with ⟨rfl, rfl, rfl⟩
        exact ⟨⟨rfl, rfl, rfl, rfl, rfl⟩, by simp [BFrame, hf],
          fun _ => ⟨rfl, rfl, rfl, rfl⟩, by simp⟩
      · -- full success
        subst hok2
        simp only [if_true, Option.some.injEq, Prod.mk.injEq] at hres
        rcases hres with ⟨rfl, rfl, rfl⟩
        obtain ⟨hw2, hbwd2⟩ := hS2 rfl
        refine ⟨KFrame_trans hKF1 hKF2, BFrame_trans hBF1 hBF2, by simp, ?_⟩
        intro _
        refine ⟨hw2, ?_⟩
        intro aU lE
        obtain ⟨aUd, hDb⟩ := hbwd2 aU lE
        obtain ⟨aU3, hVB⟩ := hbwd1 aUd lE
        refine ⟨aU3, ?_⟩
        have hv1 : bic1.validateOnly = false := hbv1.trans hv
        simp only [HandleKernelRec, hDb, hVB, Bool.not_true,
          Bool.false_eq_true, if_false]
        rw [if_neg (show ¬ bic1.validateOnly = true from by simp [hv1])]
    · -- the forward vector loop
      intro l R s bic ok s' bic' hsz hw hf hv hu hst hav hres
      cases l with
      | nil =>
        simp only [HandleKernelVecFwd, Option.some.injEq, Prod.mk.injEq] at hres
        rcases hres with ⟨rfl, rfl, rfl⟩
        refine ⟨⟨rfl, rfl, rfl, rfl, rfl⟩, by simp [BFrame], by simp, ?_⟩
        intro _
        exact ⟨hw, fun aU lE => ⟨aU, rfl⟩⟩
      | cons x xs =>
        have hszx : sizeOf x ≤ n := by
          simp [List.cons.sizeOf_spec] at hsz
          omega
        have hszxs : sizeOf xs ≤ n := by
          simp [List.cons.sizeOf_spec] at hsz
          omega
        simp only [HandleKernelVecFwd] at hres
        rcases hX : HandleKernelRec R x s bic with _ | ⟨okx, s1, bic1⟩
        · simp [hX] at hres
        simp only [hX] at hres
        rcases ih1 x R s bic okx s1 bic1 hszx hw hf hv hu hst hav hX
          with ⟨hKFx, hBFx, hfailx, hSx⟩
        obtain ⟨hbfx, hbvx, hbux, hbsx, hbax⟩ := BFrame_fields hBFx
        rcases hokx : okx with _ | _
        · -- head kernel failed (already self-reverted)
          subst hokx
          simp only [Bool.not_false, if_true, Option.some.injEq,
            Prod.mk.injEq] at hres
          rcases hres with ⟨rfl, rfl, rfl⟩
          exact ⟨hKFx, hBFx, fun _ => hfailx rfl, by simp⟩
        subst hokx
        obtain ⟨hwx, hbwdx⟩ := hSx rfl
        simp only [Bool.not_true, Bool.false_eq_true, if_false] at hres
        rcases hXS : HandleKernelVecFwd R xs s1 bic1 with _ | ⟨ok2, s2, bic2⟩
        · simp [hXS] at hres
        simp only [hXS] at hres
        rcases ih2 xs R s1 bic1 ok2 s2 bic2 hszxs hwx (hbfx.trans hf)
            (hbvx.trans hv) (hbux.trans hu) (hbsx.trans hst)
            (hbax.trans hav) hXS
          with ⟨hKF2, hBF2, hfail2, hS2⟩
        obtain ⟨hbf2, hbv2, hbu2, hbs2, hba2⟩ := BFrame_fields hBF2
        rcases hok2 : ok2 with _ | _
        · -- tail loop failed: revert the head kernel
          subst hok2
          obtain ⟨rfl, hrb2, hsi2, hso2⟩ := hfail2 rfl
          have hv2 : bic2.validateOnly = false := (hbv2.trans hbvx).trans hv
          simp only [Bool.false_eq_true, if_false] at hres
          rw [if_neg (show ¬ bic2.validateOnly = true from by simp [hv2])] at hres
          have hbic2eq : ({ bic2 with fwd := false } : Bic) =
              { bic1 with
                fwd := false
                assetsUsed := bic2.assetsUsed
                limitExceeded := bic2.limitExceeded } := by
            rw [BFrame_restore hBF2 hrb2 hsi2 hso2]
          obtain ⟨aU2, hXB⟩ := hbwdx bic2.assetsUsed bic2.limitExceeded
          rw [hbic2eq, hXB] at hres
          simp only [if_true, Option.some.injEq, Prod.mk.injEq] at hres
          rcases hres with ⟨rfl, rfl, rfl⟩
          exact ⟨⟨rfl, rfl, rfl, rfl, rfl⟩, by simp [BFrame, hf],
            fun _ => ⟨rfl, rfl, rfl, rfl⟩, by simp⟩
        · -- full success of head and tail
          subst hok2
          simp only [if_true, Option.some.injEq, Prod.mk.injEq] at hres
          rcases hres with ⟨rfl, rfl, rfl⟩
          obtain ⟨hw2, hbwd2⟩ := hS2 rfl
          refine ⟨KFrame_trans hKFx hKF2, BFrame_trans hBFx hBF2, by simp, ?_⟩
          intro _
          refine ⟨hw2, ?_⟩
          intro aU lE
          obtain ⟨aUd, hXSb⟩ := hbwd2 aU lE
          obtain ⟨aU3, hXb⟩ := hbwdx aUd lE
          refine ⟨aU3, ?_⟩
          simp only [HandleKernelVecBwd, hXSb, hXb, if_true]

/-- Round-trip of `HandleKernel(TxKernel)` (generic, nested kernels). -/
theorem HKRec_rt {R : RulesM} {v : Krn} {s : ChainState} {bic : Bic} {ok : Bool}
    {s' : ChainState} {bic' : Bic} (hw : wfB s = true) (hf : bic.fwd = true)
    (hv : bic.validateOnly = false) (hu : bic.updateMmrs = true)
    (hst : bic.storeShieldedOutput = true) (hav : bic.alreadyValidated = false)
    (hres : HandleKernelRec R v s bic = some (ok, s', bic')) :
    RTConc (HandleKernelRec R v) s bic ok s' bic' :=
  (HK_mutual_rt (sizeOf v)).1 v R s bic ok s' bic' le_rfl hw hf hv hu hst hav hres

/-- Round-trip of the forward loop over nested kernels. -/
theorem HKVec_rt {R : RulesM} {l : List Krn} {s : ChainState} {bic : Bic}
    {ok : Bool} {s' : ChainState} {bic' : Bic} (hw : wfB s = true)
    (hf : bic.fwd = true) (hv : bic.validateOnly = false)
    (hu : bic.updateMmrs = true) (hst : bic.storeShieldedOutput = true)
    (hav : bic.alreadyValidated = false)
    (hres : HandleKernelVecFwd R l s bic = some (ok, s', bic')) :
    RTVec R l s bic ok s' bic' :=
  (HK_mutual_rt (sizeOf l)).2 l R s bic ok s' bic' le_rfl hw hf hv hu hst hav hres

/-- State fields preserved by a top-level kernel element (everything the
kernels never touch, except the kernel index). -/
def KFrame2 (s s' : ChainState) : Prop :=
  s'.utxos = s.utxos ∧ s'.txos = s.txos ∧ s'.mmrStates = s.mmrStates ∧
  s'.paramAssetsUsed = s.paramAssetsUsed

theorem BFrame_hk {a b : Bic} (h : BFrame a b) :
    b.height = a.height ∧ b.saveKid = a.saveKid := by
  rw [h]
  exact ⟨rfl, rfl⟩

theorem eraseP_concat {α : Type} (p : α → Bool) (l : List α) (x : α)
    (hall : ∀ b ∈ l, ¬ p b = true) (hx : p x = true) :
    (l ++ [x]).eraseP p = l := by
  rw [List.eraseP_append_right _ (fun b hb hc => (hall b hb) hc)]
  simp [hx]

/-- Round-trip conclusion for a top-level (block-element) kernel at height
`h` with id `kid`. -/
def RTKrn (F : ChainState → Bic → Cor (Bool × ChainState × Bic)) (h kid : Nat)
    (s : ChainState) (bic : Bic) (ok : Bool) (s' : ChainState) (bic' : Bic) :
    Prop :=
  KFrame2 s s' ∧ BFrame bic bic' ∧ wfB s' = true ∧
  (ok = false → s' = s ∧ bic'.rollback = bic.rollback ∧
    bic'.shieldedIns = bic.shieldedIns ∧ bic'.shieldedOuts = bic.shieldedOuts) ∧
  (ok = true →
    (s'.kernelIdx = s.kernelIdx ∨ s'.kernelIdx = s.kernelIdx ++ [(kid, h)]) ∧
    ∀ aU lE, ∃ aU2,
      F s' { bic' with fwd := false, assetsUsed := aU, limitExceeded := lE } =
      some (true, s,
        { bic with fwd := false, assetsUsed := aU2, limitExceeded := lE }))

/-- Round-trip of `HandleBlockElement(TxKernel)`: the duplicate checks reject
without touching the state; a successful forward application (kernel body
plus the kernel-id insert when `bSaveID`) is undone exactly by the backward
pass (kernel-id delete, then the kernel body backward). -/
theorem HBEK_rt {R : RulesM} {v : Krn} {s : ChainState} {bic : Bic} {ok : Bool}
    {s' : ChainState} {bic' : Bic}
    (hw : wfB s = true) (hf : bic.fwd = true) (hv : bic.validateOnly = false)
    (hu : bic.updateMmrs = true) (hst : bic.storeShieldedOutput = true)
    (hav : bic.alreadyValidated = false)
    (hki : ∀ e ∈ s.kernelIdx, ¬(e.1 = v.kid ∧ e.2 = bic.height))
    (hres : HandleBlockElementKrn R v s bic = some (ok, s', bic')) :
    RTKrn (HandleBlockElementKrn R v) bic.height v.kid s bic ok s' bic' := by
  rcases hdup : (bic.fwd && decide (bic.height ≥ R.fork2) &&
      !bic.alreadyValidated &&
      decide (FindVisibleKernel R s bic v.kid ≥ heightGenesis)) with _ | _
  swap
  · -- duplicate kernel: rejected, no state change
    simp only [HandleBlockElementKrn, hdup, if_true, Option.some.injEq,
      Prod.mk.injEq] at hres
    rcases hres with ⟨rfl, rfl, rfl⟩
    exact ⟨⟨rfl, rfl, rfl, rfl⟩, by simp [BFrame], hw,
      fun _ => ⟨rfl, rfl, rfl, rfl⟩, by simp⟩
  · have hd2 : (bic.fwd && decide (bic.height ≥ R.fork2) &&
        !bic.alreadyValidated && bic.validateOnly &&
        bic.dupIDs.contains v.kid) = false := by simp [hv]
    have hd3 : (bic.fwd && decide (bic.height ≥ R.fork2) &&
        !bic.alreadyValidated && bic.validateOnly) = false := by simp [hv]
    simp only [HandleBlockElementKrn, hdup, hd2, hd3, Bool.false_eq_true,
      if_false] at hres
    simp only [hf, Bool.not_true, Bool.and_false, Bool.false_eq_true,
      if_false] at hres
    rcases hRec : HandleKernelRec R v s bic with _ | ⟨okr, s1, bic1⟩
    · simp [hRec] at hres
    simp only [hRec] at hres
    rcases HKRec_rt (R := R) hw hf hv hu hst hav hRec with ⟨hKF, hBF, hfailr, hSr⟩
    obtain ⟨hu1, ht1, hm1, hki1, hp1⟩ := hKF
    obtain ⟨hh1, hsk1⟩ := BFrame_hk hBF
    rcases hokr : okr with _ | _
    · -- kernel failed (already self-reverted)
      subst hokr
      obtain ⟨rfl, hrb, hsi, hso⟩ := hfailr rfl
      simp only [Bool.not_false, Bool.not_true, Bool.false_eq_true,
        eq_self_iff_true, if_true, if_false, Option.some.injEq,
        Prod.mk.injEq] at hres
      rcases hres with ⟨rfl, rfl, rfl⟩
      exact ⟨⟨rfl, rfl, rfl, rfl⟩, hBF, hw, fun _ => ⟨rfl, hrb, hsi, hso⟩,
        by simp⟩
    · -- kernel succeeded
      subst hokr
      obtain ⟨hw1, hbwd⟩ := hSr rfl
      simp only [Bool.not_true, Bool.false_eq_true, if_false] at hres
      rcases hsv : (decide (bic.height ≥ heightGenesis) && bic.saveKid)
        with _ | _
      · -- kernel ids not recorded at this height
        have hsv1 : (decide (bic1.height ≥ heightGenesis) && bic1.saveKid)
            = false := by
          rw [hh1, hsk1]
          exact hsv
        simp only [hsv, Bool.false_and, Bool.false_eq_true, if_false,
          Option.some.injEq, Prod.mk.injEq] at hres
        rcases hres with ⟨rfl, rfl, rfl⟩
        refine ⟨⟨hu1, ht1, hm1, hp1⟩, hBF, hw1, by simp, ?_⟩
        intro _
        refine ⟨Or.inl hki1, ?_⟩
        intro aU lE
        obtain ⟨aU2, hRecB⟩ := hbwd aU lE
        refine ⟨aU2, ?_⟩
        simp only [HandleBlockElementKrn, hRecB, hsv1, Bool.false_and,
          Bool.and_false, Bool.true_and, Bool.and_true, Bool.not_false,
          Bool.not_true, Bool.false_eq_true, eq_self_iff_true, if_true,
          if_false]
      · -- kernel id inserted forward, deleted backward
        have hsv1 : (decide (bic1.height ≥ heightGenesis) && bic1.saveKid)
            = true := by
          rw [hh1, hsk1]
          exact hsv
        have herase : List.eraseP
            (fun e => e.1 == v.kid && e.2 == bic1.height)
            (s1.kernelIdx ++ [(v.kid, bic.height)]) = s1.kernelIdx := by
          rw [hki1, hh1]
          refine eraseP_concat _ _ _ ?_ (by simp)
          intro b hb
          have hb2 := hki b hb
          simp only [Bool.and_eq_true, beq_iff_eq]
          tauto
        simp only [hsv, hf, Bool.true_and, Bool.and_true, eq_self_iff_true,
          if_true, Option.some.injEq, Prod.mk.injEq] at hres
        rcases hres with ⟨rfl, rfl, rfl⟩
        refine ⟨⟨hu1, ht1, hm1, hp1⟩, hBF, ?_, by simp, ?_⟩
        · rw [wfB_iff]
          exact wfB_iff.mp hw1
        · intro _
          refine ⟨Or.inr (by simp [hki1]), ?_⟩
          intro aU lE
          obtain ⟨aU2, hRecB⟩ := hbwd aU lE
          refine ⟨aU2, ?_⟩
          simp only [HandleBlockElementKrn, herase, hRecB, hsv1,
            Bool.false_and, Bool.and_false, Bool.true_and, Bool.and_true,
            Bool.not_false, Bool.not_true, Bool.false_eq_true,
            eq_self_iff_true, if_true, if_false]

theorem KFrame2_trans {s1 s2 s3 : ChainState} (h1 : KFrame2 s1 s2)
    (h2 : KFrame2 s2 s3) : KFrame2 s1 s3 := by
  rcases h1 with ⟨a1, a2, a3, a4⟩
  rcases h2 with ⟨b1, b2, b3, b4⟩
  exact ⟨b1.trans a1, b2.trans a2, b3.trans a3, b4.trans a4⟩

/-- Round-trip conclusion for the loop over a block's top-level kernels:
`ap` is the applied prefix; applying `HandleKrnsBwd` to it undoes the pass
exactly. -/
def RTKrns (R : RulesM) (l ap : List Krn) (s : ChainState) (bic : Bic)
    (ok : Bool) (s' : ChainState) (bic' : Bic) : Prop :=
  KFrame2 s s' ∧ BFrame bic bic' ∧ wfB s' = true ∧ (ok = true → ap = l) ∧
  (∃ ks : List Nat, (∀ k ∈ ks, k ∈ ap.map Krn.kid) ∧
    s'.kernelIdx = s.kernelIdx ++ ks.map (fun k => (k, bic.height))) ∧
  ∀ aU lE, ∃ aU2,
    HandleKrnsBwd R ap s'
      { bic' with fwd := false, assetsUsed := aU, limitExceeded := lE } =
    some (s, { bic with fwd := false, assetsUsed := aU2, limitExceeded := lE })

/-- Round-trip of the forward loop over the top-level kernels. -/
theorem HKrns_rt {R : RulesM} (l : List Krn) {ap : List Krn} {s : ChainState}
    {bic : Bic} {ok : Bool} {s' : ChainState} {bic' : Bic}
    (hw : wfB s = true) (hf : bic.fwd = true) (hv : bic.validateOnly = false)
    (hu : bic.updateMmrs = true) (hst : bic.storeShieldedOutput = true)
    (hav : bic.alreadyValidated = false)
    (hki : ∀ e ∈ s.kernelIdx, e.2 = bic.height → e.1 ∉ l.map Krn.kid)
    (hnd : (l.map Krn.kid).Nodup)
    (hres : HandleKrnsFwd R l s bic = some (ok, ap, s', bic')) :
    RTKrns R l ap s bic ok s' bic' := by
  induction l generalizing ap s bic ok s' bic' with
  | nil =>
    simp only [HandleKrnsFwd, Option.some.injEq, Prod.mk.injEq] at hres
    rcases hres with ⟨rfl, rfl, rfl, rfl⟩
    exact ⟨⟨rfl, rfl, rfl, rfl⟩, by simp [BFrame], hw, fun _ => rfl,
      ⟨[], by simp, by simp⟩, fun aU lE => ⟨aU, rfl⟩⟩
  | cons x xs ih =>
    have hki1 : ∀ e ∈ s.kernelIdx, ¬(e.1 = x.kid ∧ e.2 = bic.height) := by
      intro e he hc
      exact (hki e he hc.2) (by simp [hc.1])
    simp only [HandleKrnsFwd] at hres
    rcases hX : HandleBlockElementKrn R x s bic with _ | ⟨okx, s1, bic1⟩
    · simp [hX] at hres
    simp only [hX] at hres
    rcases HBEK_rt (R := R) hw hf hv hu hst hav hki1 hX
      with ⟨hKFx, hBFx, hwx, hfailx, hSx⟩
    obtain ⟨hbfx, hbvx, hbux, hbsx, hbax⟩ := BFrame_fields hBFx
    obtain ⟨hhx, _⟩ := BFrame_hk hBFx
    rcases hokx : okx with _ | _
    · -- head kernel rejected: nothing applied beyond the self-reverted head
      subst hokx
      obtain ⟨rfl, hrb, hsi, hso⟩ := hfailx rfl
      have hb1 := BFrame_restore hBFx hrb hsi hso
      simp only [Bool.not_false, if_true, Option.some.injEq,
        Prod.mk.injEq] at hres
      rcases hres with ⟨rfl, rfl, rfl, rfl⟩
      refine ⟨⟨rfl, rfl, rfl, rfl⟩, hBFx, hw, by simp, ⟨[], by simp, by simp⟩,
        ?_⟩
      intro aU lE
      refine ⟨aU, ?_⟩
      simp only [HandleKrnsBwd, Option.some.injEq]
      rw [hb1]
    · -- head applied; recurse on the tail
      subst hokx
      obtain ⟨hkix, hbwdx⟩ := hSx rfl
      simp only [Bool.not_true, Bool.false_eq_true, if_false] at hres
      rcases hXS : HandleKrnsFwd R xs s1 bic1 with _ | ⟨ok2, ap2, s2, bic2⟩
      · simp [hXS] at hres
      simp only [hXS, Option.some.injEq, Prod.mk.injEq] at hres
      have hki2 : ∀ e ∈ s1.kernelIdx, e.2 = bic1.height →
          e.1 ∉ xs.map Krn.kid := by
        intro e he hh
        rw [hhx] at hh
        rcases hkix with hsame | happ
        · rw [hsame] at he
          have := hki e he hh
          simp only [List.map_cons, List.mem_cons] at this
          tauto
        · rw [happ] at he
          rcases List.mem_append.mp he with hold | hnew
          · have := hki e hold hh
            simp only [List.map_cons, List.mem_cons] at this
            tauto
          · simp at hnew
            rw [hnew]
            simp only [List.map_cons, List.nodup_cons] at hnd
            exact hnd.1
      have hnd2 : (xs.map Krn.kid).Nodup := by
        simp only [List.map_cons, List.nodup_cons] at hnd
        exact hnd.2
      rcases @ih ap2 s1 bic1 ok2 s2 bic2 hwx (hbfx.trans hf) (hbvx.trans hv)
          (hbux.trans hu) (hbsx.trans hst) (hbax.trans hav) hki2 hnd2 hXS
        with ⟨hKF2, hBF2, hw2, hap2, ⟨ks2, hks2mem, hks2⟩, hbwd2⟩
      rcases hres with ⟨rfl, rfl, rfl, rfl⟩
      refine ⟨KFrame2_trans hKFx hKF2, BFrame_trans hBFx hBF2, hw2,
        fun h2 => by rw [hap2 h2], ?_, ?_⟩
      · rcases hkix with hsame | happ
        · refine ⟨ks2, fun k hk => by simp [hks2mem k hk], ?_⟩
          rw [hks2, hsame, hhx]
        · refine ⟨x.kid :: ks2, ?_, ?_⟩
          · intro k hk
            rcases List.mem_cons.mp hk with h1 | h2
            · simp [h1]
            · simp [hks2mem k h2]
          · rw [hks2, happ, hhx]
            simp
      · intro aU lE
        obtain ⟨aUd, hTb⟩ := hbwd2 aU lE
        obtain ⟨aU3, hXb⟩ := hbwdx aUd lE
        refine ⟨aU3, ?_⟩
        simp only [HandleKrnsBwd, hTb, hXb, eq_self_iff_true, if_true]

/-- Round-trip / reversal of `HandleValidatedTx`: any forward failure
returns the starting state (the applied prefix is reverted in reverse
order: kernels, then outputs, then inputs), and a forward success is undone
exactly by the backward pass. -/
theorem HVT_rt {R : RulesM} {blk : Blk} {s : ChainState} {bic : Bic} {ok : Bool}
    {blk' : Blk} {s' : ChainState} {bic' : Bic}
    (hw : wfB s = true) (hf : bic.fwd = true) (hv : bic.validateOnly = false)
    (hu : bic.updateMmrs = true) (hst : bic.storeShieldedOutput = true)
    (hav : bic.alreadyValidated = false)
    (hki : ∀ e ∈ s.kernelIdx, e.2 = bic.height → e.1 ∉ blk.kernels.map Krn.kid)
    (hnd : (blk.kernels.map Krn.kid).Nodup)
    (hres : HandleValidatedTx R blk s bic = some (ok, blk', s', bic')) :
    (ok = false →
      (∀ o ∈ blk.outputs, ValidateAssetRange bic o.assetProof = true) →
      s' = s) ∧
    (ok = true → wfB s' = true ∧ s'.txos = s.txos + blk.outputs.length ∧
      blk'.kernels = blk.kernels ∧ blk'.outputs = blk.outputs ∧
      ∀ aU lE, ∃ aU2,
        HandleValidatedTx R blk' s'
          { bic' with fwd := false, assetsUsed := aU, limitExceeded := lE } =
        some (true, blk', s,
          { bic with fwd := false, assetsUsed := aU2, limitExceeded := lE })) := by
  simp only [HandleValidatedTx, hf, eq_self_iff_true, if_true] at hres
  rcases hIn : HandleInputsFwd blk.inputs bic.height s with ⟨ok0, apIn, remIn, s0⟩
  simp only [hIn] at hres
  rcases HandleInputsFwd_inv hw hIn with ⟨hw0, hbwdIn, hfr0, hrem⟩
  rcases hok0 : ok0 with _ | _
  · -- some input unresolved: revert the applied inputs
    subst hok0
    simp only [Bool.false_eq_true, if_false, Option.some.injEq,
      Prod.mk.injEq] at hres
    rcases hres with ⟨rfl, rfl, rfl, rfl⟩
    exact ⟨fun _ _ => hbwdIn, by simp⟩
  · subst hok0
    simp only [if_true] at hres
    rcases hOut : HandleOutputsFwd R blk.outputs s0 bic with ⟨ok1, apOut, s1⟩
    simp only [hOut] at hres
    rcases hok1 : ok1 with _ | _
    · -- some output failed: revert outputs then inputs
      subst hok1
      simp only [Bool.false_eq_true, if_false, Option.some.injEq,
        Prod.mk.injEq] at hres
      rcases hres with ⟨rfl, rfl, rfl, rfl⟩
      refine ⟨fun _ hva => ?_, by simp⟩
      rcases HandleOutputsFwd_inv hw0 hva hOut with ⟨hw1, hbwdOut⟩
      rw [hbwdOut, hbwdIn]
    · subst hok1
      rcases HandleOutputsFwd_succ hw0 hOut with ⟨rfl, hw1, hbwdOut, hfr1, htx1⟩
      simp only [if_true] at hres
      have hki1 : s1.kernelIdx = s.kernelIdx := by
        rw [hfr1, hfr0]
      rcases hK : HandleKrnsFwd R blk.kernels s1 bic with _ | ⟨ok2, apK, s2, bic2⟩
      · simp [hK] at hres
      simp only [hK] at hres
      rcases HKrns_rt (R := R) blk.kernels hw1 hf hv hu hst hav
          (by rw [hki1]; exact hki) hnd hK
        with ⟨hKF2, hBFk, hw2, hapk, hksEx, hbwdK⟩
      obtain ⟨hh2, _⟩ := BFrame_hk hBFk
      have hOb : HandleOutputsBwd R blk.outputs bic2.height s1 = s0 := by
        rw [hh2]
        exact hbwdOut
      rcases hok2 : ok2 with _ | _
      · -- some kernel failed: revert kernels, outputs, inputs
        subst hok2
        obtain ⟨aUk, hKb⟩ := hbwdK bic2.assetsUsed bic2.limitExceeded
        simp only [Bool.false_eq_true, if_false] at hres
        rw [hKb] at hres
        simp only [Option.some.injEq, Prod.mk.injEq] at hres
        rw [hbwdOut, hbwdIn] at hres
        rcases hres with ⟨rfl, rfl, rfl, rfl⟩
        exact ⟨fun _ _ => rfl, by simp⟩
      · -- full success
        subst hok2
        have hapk2 := hapk rfl
        subst hapk2
        simp only [if_true, Option.some.injEq, Prod.mk.injEq] at hres
        rcases hres with ⟨rfl, rfl, rfl, rfl⟩
        refine ⟨by simp, fun _ => ?_⟩
        have hrem2 := hrem rfl
        subst hrem2
        refine ⟨hw2, ?_, rfl, rfl, ?_⟩
        · rw [hKF2.2.1, htx1, hfr0]
        · intro aU lE
          obtain ⟨aUk, hKb⟩ := hbwdK aU lE
          refine ⟨aUk, ?_⟩
          simp only [HandleValidatedTx, hKb, hOb, List.append_nil, hbwdIn,
            Bool.not_true, Bool.false_eq_true, if_false]

/-- Round-trip / reversal of `HandleValidatedBlock`: failure restores the
starting state; success bumps the TxoID counter by the output count plus
one and is undone exactly by the backward pass. -/
theorem HVB_rt {R : RulesM} {blk : Blk} {s : ChainState} {bic : Bic} {ok : Bool}
    {blk' : Blk} {s' : ChainState} {bic' : Bic}
    (hw : wfB s = true) (hf : bic.fwd = true) (hv : bic.validateOnly = false)
    (hu : bic.updateMmrs = true) (hst : bic.storeShieldedOutput = true)
    (hav : bic.alreadyValidated = false)
    (hki : ∀ e ∈ s.kernelIdx, e.2 = bic.height → e.1 ∉ blk.kernels.map Krn.kid)
    (hnd : (blk.kernels.map Krn.kid).Nodup)
    (hres : HandleValidatedBlock R blk s bic = some (ok, blk', s', bic')) :
    (ok = false →
      (∀ o ∈ blk.outputs, ValidateAssetRange bic o.assetProof = true) →
      s' = s) ∧
    (ok = true → wfB s' = true ∧
      s'.txos = s.txos + blk.outputs.length + 1 ∧
      ∀ aU lE, ∃ aU2,
        HandleValidatedBlock R blk' s'
          { bic' with fwd := false, assetsUsed := aU, limitExceeded := lE } =
        some (true, blk', s,
          { bic with fwd := false, assetsUsed := aU2, limitExceeded := lE })) := by
  simp only [HandleValidatedBlock, hf, eq_self_iff_true, if_true] at hres
  rcases hT : HandleValidatedTx R blk s bic with _ | ⟨okT, blkT, s1, bic1⟩
  · simp [hT] at hres
  simp only [hT] at hres
  rcases HVT_rt (R := R) hw hf hv hu hst hav hki hnd hT with ⟨hfailT, hST⟩
  rcases hok : okT with _ | _
  · subst hok
    simp only [Bool.not_false, if_true, Option.some.injEq, Prod.mk.injEq]
      at hres
    rcases hres with ⟨rfl, rfl, rfl, rfl⟩
    exact ⟨fun _ hva => hfailT rfl hva, by simp⟩
  · subst hok
    obtain ⟨hw1, htx1, hks, hos, hbwdT⟩ := hST rfl
    simp only [Bool.not_true, Bool.false_eq_true, if_false, if_true,
      Option.some.injEq, Prod.mk.injEq] at hres
    rcases hres with ⟨rfl, rfl, rfl, rfl⟩
    refine ⟨by simp, fun _ => ?_⟩
    refine ⟨by rw [wfB_iff]; exact wfB_iff.mp hw1, by simp [htx1], ?_⟩
    intro aU lE
    obtain ⟨aU2, hTb⟩ := hbwdT aU lE
    refine ⟨aU2, ?_⟩
    simp only [HandleValidatedBlock, Nat.add_sub_cancel, hTb, Bool.not_true,
      Bool.false_eq_true, if_false]

/-- **C2**: applying a validated block forward through
`HandleValidatedBlock` and then applying it backward (`fwd = false`) with
the rollback buffer produced by the forward pass restores the starting
chain state exactly — the UtxoTree, the States/Shielded/Assets MMRs, the
asset registry, the shielded input/output counters and the TxoID counter
are bit-identical to their pre-apply values — and the rollback buffer is
fully consumed back to its initial contents by the LIFO pops. -/
theorem C2_apply_revert_roundtrip {R : RulesM} (blk : Blk) {blk' : Blk}
    {s s' : ChainState} {bic bic' : Bic}
    (hw : wfB s = true) (hf : bic.fwd = true) (hv : bic.validateOnly = false)
    (hu : bic.updateMmrs = true) (hst : bic.storeShieldedOutput = true)
    (hav : bic.alreadyValidated = false)
    (hki : ∀ e ∈ s.kernelIdx, e.2 = bic.height → e.1 ∉ blk.kernels.map Krn.kid)
    (hnd : (blk.kernels.map Krn.kid).Nodup)
    (hres : HandleValidatedBlock R blk s bic = some (true, blk', s', bic')) :
    ∃ aU2, HandleValidatedBlock R blk' s' { bic' with fwd := false } =
      some (true, blk', s,
        { bic with
          fwd := false
          assetsUsed := aU2
          limitExceeded := bic'.limitExceeded }) := by
  rcases HVB_rt (R := R) hw hf hv hu hst hav hki hnd hres with ⟨_, hS⟩
  obtain ⟨_, _, hbwd⟩ := hS rfl
  obtain ⟨aU2, hb⟩ := hbwd bic'.assetsUsed bic'.limitExceeded
  exact ⟨aU2, hb⟩

def sampleR : RulesM :=
  ⟨10, 100, true, 5, 5, 1, 2, 100, 10, 3, 8, 7, 60, 100, 240, 240, 1000000, 7200⟩

def sampleS : ChainState := ⟨[], 0, 0, [], [], [], [], [], [], [], 0, 0, 0⟩

def sampleBic : Bic :=
  { height := 5, fwd := true, storeShieldedOutput := true, assetsUsed := 3,
    assetHi := 0 }

def sampleBlk : Blk := ⟨[], [], []⟩

theorem C2_apply_revert_roundtrip_witness :
    ∃ aU2, HandleValidatedBlock sampleR sampleBlk
        { sampleS with txos := 1 } { sampleBic with fwd := false } =
      some (true, sampleBlk, sampleS,
        { sampleBic with
          fwd := false
          assetsUsed := aU2
          limitExceeded := sampleBic.limitExceeded }) :=
  C2_apply_revert_roundtrip sampleBlk (by rfl) (by rfl) (by rfl) (by rfl)
    (by rfl) (by rfl) (by simp [sampleS]) (by simp [sampleBlk]) (by rfl)

/-- **C7**: for every `AssetEmit` kernel applied forward, `INT64_MIN`
(which cannot be negated) is rejected; adding a positive delta fails when
the asset's value would overflow `u128`; subtracting fails when the delta
exceeds the current value; and on success the value transitions between
zero and non-zero (in either direction) exactly when the lock height is
rewritten to the current block height with the previous lock height
journaled in the rollback buffer — otherwise both are left untouched. -/
theorem C7_asset_emit_semantics {R : RulesM} {assetID owner : Nat}
    {value : Int} {s : ChainState} {bic : Bic} {ai : AssetRec}
    (hget : AssetGetSafe s.assets assetID = some ai)
    (how : ai.owner = owner) (hf : bic.fwd = true)
    (hu : bic.updateMmrs = true) (hvlt : ai.value < 2 ^ 128) :
    (value = -(2 ^ 63) →
      HandleKernelAssetEmit R assetID owner value s bic =
        some (false, s, bic)) ∧
    (0 ≤ value → 2 ^ 128 ≤ ai.value + value.toNat % 2 ^ 64 →
      HandleKernelAssetEmit R assetID owner value s bic =
        some (false, s, bic)) ∧
    (value < 0 → 0 ≤ negI64 value →
      ai.value < (negI64 value).toNat % 2 ^ 64 →
      HandleKernelAssetEmit R assetID owner value s bic =
        some (false, s, bic)) ∧
    (∀ ok s' bic',
      HandleKernelAssetEmit R assetID owner value s bic =
        some (ok, s', bic') → ok = true →
      ∃ v1, AssetGetSafe s'.assets assetID =
          some { ai with
            value := v1
            lockHeight :=
              if (decide (v1 = 0) != decide (ai.value = 0)) = true
                then bic.height else ai.lockHeight } ∧
        bic' = (if (decide (v1 = 0) != decide (ai.value = 0)) = true
          then rbPush bic (.lockH ai.lockHeight) else bic)) := by
  rcases AssetGetSafe_iff.mp hget with ⟨hid0, hgetD⟩
  have hlt1 : assetID - 1 < s.assets.length := lgetD_some_lt hgetD
  have how2 : (ai.owner != owner) = false := by simp [how]
  refine ⟨?_, ?_, ?_, ?_⟩
  · -- INT64_MIN is rejected
    intro hval
    subst hval
    have hb : decide ((0 : Int) ≤ -(2 ^ 63)) = false := by decide
    have hneg : negI64 (-(2 ^ 63)) < 0 := by decide
    simp only [HandleKernelAssetEmit, hf, hu, Bool.not_true, Bool.false_and,
      Bool.false_eq_true, if_false, hget, how2, hb, hneg, eq_self_iff_true,
      if_true]
  · -- minting overflow
    intro h0 hov
    have hb : decide (0 ≤ value) = true := by simp [h0]
    have hnn : ¬ value < 0 := not_lt.mpr h0
    have hovm : (ai.value + value.toNat % 2 ^ 64) % 2 ^ 128 <
        value.toNat % 2 ^ 64 := by omega
    simp only [HandleKernelAssetEmit, hf, hu, Bool.not_true, Bool.false_and,
      Bool.false_eq_true, if_false, hget, how2, hb, hnn, eq_self_iff_true,
      if_true, hovm]
  · -- burning more than the current value
    intro hvn hnn hund
    have hb : decide (0 ≤ value) = false := by simp [not_le.mpr hvn]
    have hneg : ¬ negI64 value < 0 := not_lt.mpr hnn
    simp only [HandleKernelAssetEmit, hf, hu, Bool.not_true, Bool.false_and,
      Bool.false_eq_true, if_false, hget, how2, hb, hneg, hund,
      eq_self_iff_true, if_true]
  · -- success: the new value, the lock rewrite and the journal entry
    intro ok s' bic' hres hok
    subst hok
    have hSV : ∀ v l, AssetSetValue s.assets assetID v l =
        s.assets.set (assetID - 1)
          (some { ai with value := v, lockHeight := l }) := by
      intro v l
      simp only [AssetSetValue, hgetD]
    have hget2 : ∀ r : AssetRec,
        AssetGetSafe (s.assets.set (assetID - 1) (some r)) assetID = some r := by
      intro r
      simp only [AssetGetSafe, if_neg hid0]
      exact lset_getD _ _ _ _ (by simpa using hlt1)
    simp only [HandleKernelAssetEmit, hf, hu, Bool.not_true, Bool.false_and,
      Bool.false_eq_true, if_false, hget, how2] at hres
    rcases hb : decide (0 ≤ value) with _ | _
    · simp only [hb, Bool.false_eq_true, if_false] at hres
      by_cases hneg : negI64 value < 0
      · simp [hneg] at hres
      by_cases hund : ai.value < (negI64 value).toNat % 2 ^ 64
      · simp only [hneg, if_false, eq_self_iff_true, if_true, hund,
          Bool.not_false] at hres
        simp at hres
      simp only [hneg, if_false, hund, eq_self_iff_true, if_true,
        Bool.not_false, Bool.false_eq_true] at hres
      rcases hflip : (decide ((ai.value +
          (2 ^ 128 - (negI64 value).toNat % 2 ^ 64) % 2 ^ 128) % 2 ^ 128 = 0)
          != decide (ai.value = 0)) with _ | _
      · simp only [hflip, Bool.false_eq_true, if_false, Option.some.injEq,
          Prod.mk.injEq] at hres
        rcases hres with ⟨_, rfl, rfl⟩
        refine ⟨(ai.value +
            (2 ^ 128 - (negI64 value).toNat % 2 ^ 64) % 2 ^ 128) % 2 ^ 128,
          ?_, by simp only [hflip, Bool.false_eq_true, if_false]⟩
        rw [hflip]
        simp only [hSV, Bool.false_eq_true, if_false]
        exact hget2 _
      · simp only [hflip, eq_self_iff_true, if_true, Option.some.injEq,
          Prod.mk.injEq] at hres
        rcases hres with ⟨_, rfl, rfl⟩
        refine ⟨(ai.value +
            (2 ^ 128 - (negI64 value).toNat % 2 ^ 64) % 2 ^ 128) % 2 ^ 128,
          ?_, by rw [hflip, if_pos rfl]⟩
        rw [hflip]
        simp only [hSV, if_true]
        exact hget2 _
    · simp only [hb, if_true] at hres
      have hnn : ¬ value < 0 := not_lt.mpr (of_decide_eq_true hb)
      by_cases hov : (ai.value + value.toNat % 2 ^ 64) % 2 ^ 128 <
          value.toNat % 2 ^ 64
      · simp only [hnn, if_false, hov, eq_self_iff_true, if_true] at hres
        simp at hres
      simp only [hnn, if_false, hov, eq_self_iff_true, if_true] at hres
      rcases hflip : (decide ((ai.value + value.toNat % 2 ^ 64) % 2 ^ 128 = 0)
          != decide (ai.value = 0)) with _ | _
      · simp only [hflip, Bool.false_eq_true, if_false, Option.some.injEq,
          Prod.mk.injEq] at hres
        rcases hres with ⟨_, rfl, rfl⟩
        refine ⟨(ai.value + value.toNat % 2 ^ 64) % 2 ^ 128, ?_,
          by simp only [hflip, Bool.false_eq_true, if_false]⟩
        rw [hflip]
        simp only [hSV, Bool.false_eq_true, if_false]
        exact hget2 _
      · simp only [hflip, eq_self_iff_true, if_true, Option.some.injEq,
          Prod.mk.injEq] at hres
        rcases hres with ⟨_, rfl, rfl⟩
        refine ⟨(ai.value + value.toNat % 2 ^ 64) % 2 ^ 128, ?_,
          by rw [hflip, if_pos rfl]⟩
        rw [hflip]
        simp only [hSV, if_true]
        exact hget2 _

def sampleS7 : ChainState :=
  { sampleS with
    assets := [some ⟨7, 1, 0, 2⟩]
    mmrAssets := [assetHashOf 1 ⟨7, 1, 0, 2⟩] }

theorem C7_asset_emit_semantics_witness :
    HandleKernelAssetEmit sampleR 1 7 (-(2 ^ 63)) sampleS7 sampleBic =
      some (false, sampleS7, sampleBic) :=
  (@C7_asset_emit_semantics sampleR 1 7 (-(2 ^ 63)) sampleS7 sampleBic
    ⟨7, 1, 0, 2⟩ (by rfl) rfl rfl rfl (by norm_num)).1 rfl

/-! ## `HandleBlock`: first-time header checks and post-apply checks -/

/-- Modelled from the spec: the two Merkle commitments `HandleBlock`
compares — the root of the fly-MMR built over the block's kernels
(`KrnFlyMmr`) and the chain-state `Definition` recomputed by the
`Evaluator` after the apply.  Opaque hashes are modelled by injective
constructors over the hashed data. -/
inductive RootH where
  | krnRoot (kids : List Nat) : RootH
  | defn (utxos : UtxoTree) (shielded : List HashV) (assets : List HashV) : RootH
deriving DecidableEq, Repr

/-- Modelled from the spec: `KrnFlyMmr` hashes the block's kernels. -/
def krnRootOf (blk : Blk) : RootH := .krnRoot (blk.kernels.map Krn.kid)

/-- Modelled from the spec: `Evaluator::get_Definition` commits to the
post-apply chain state (UTXO set, shielded MMR, assets MMR). -/
def computeDefinition (s : ChainState) : RootH :=
  .defn s.utxos s.mmrShielded s.mmrAssets

/-- The header fields `HandleBlock` inspects. -/
structure Hdr where
  chainWork : Nat
  difficulty : Nat
  timestamp : Nat
  kernels : RootH
  definition : RootH
deriving DecidableEq, Repr

/-- One `THW` entry of the moving-median window: a state's timestamp,
height and accumulated chain work
(`std::pair<Timestamp, std::pair<Height, Difficulty::Raw>>`). -/
structure THW where
  t : Nat
  h : Nat
  w : Nat
deriving DecidableEq, Repr

/-- The lexicographic order `std::sort` applies to the nested `THW`
pairs: by timestamp, then height, then chain work. -/
def thwLe (a b : THW) : Bool :=
  decide (a.t < b.t) || (decide (a.t = b.t) &&
    (decide (a.h < b.h) || (decide (a.h = b.h) && decide (a.w ≤ b.w))))

def insTHW (x : THW) : List THW → List THW
  | [] => [x]
  | y :: ys => if thwLe x y then x :: y :: ys else y :: insTHW x ys

/-- Insertion sort realizing the `std::sort` call of
`get_MovingMedianEx`. -/
def sortTHW : List THW → List THW
  | [] => []
  | x :: xs => insTHW x (sortTHW xs)

/-- The cursor (current tip) data `HandleBlock` reads: accumulated chain
work, the predicted next difficulty, and the per-state
(timestamp, height, chain work) entries of the active chain walked
backwards from the tip down to genesis (most recent first), exactly the
states `get_MovingMedianEx` reads through `m_RecentStates` and the DB.
An empty list stands for a cursor without a tip row. -/
structure Cursor where
  chainWork : Nat
  difficultyNext : Nat
  recent : List THW
deriving DecidableEq, Repr

/-- Environment of a `HandleBlock` call: the cursor, `SyncData.TxoLo` and
`MultiblockContext::m_id0` (the TxoID count at the sync horizon `h0`). -/
structure HBEnv where
  cursor : Cursor
  txoLo : Nat
  id0 : Nat
deriving DecidableEq, Repr

/-- The window-collection loop of `get_MovingMedianEx`: pull real entries
while the walk back from the tip stays at or above genesis; past genesis,
append "prehistoric" entries of perfect timing derived from the entry
added just before (`v[v.size() - 2]`): timestamp lowered by
`DA.Target_s`, height by one and chain work by `Difficulty0`, each
subtraction wrapping as the unsigned arithmetic does (timestamps and
heights are 64-bit, chain work 256-bit). -/
def mmWindow (R : RulesM) : Nat → List THW → List THW → List THW
  | 0, _, acc => acc
  | n + 1, e :: rest, acc => mmWindow R n rest (acc ++ [e])
  | n + 1, [], acc =>
    match acc.getLast? with
    | some src =>
      mmWindow R n []
        (acc ++ [⟨(src.t + (2 ^ 64 - R.daTargetS % 2 ^ 64)) % 2 ^ 64,
                  (src.h + (2 ^ 64 - 1)) % 2 ^ 64,
                  (src.w + (2 ^ 256 - R.difficulty0 % 2 ^ 256)) % 2 ^ 256⟩])
    | none => acc

/-- `NodeProcessor::get_MovingMedianEx`: collect `nWindow` entries walking
back from the tip (padding prehistorically once past genesis), sort them
lexicographically and take the entry at index `nWindow >> 1`. -/
def get_MovingMedianEx (R : RulesM) (recent : List THW) (nWindow : Nat) :
    THW :=
  let v := sortTHW (mmWindow R nWindow recent [])
  v.getD (nWindow / 2) ⟨0, 0, 0⟩

/-- `NodeProcessor::get_MovingMedian`: `0` when the cursor has no tip row,
otherwise the timestamp of the `WindowMedian0`-window median. -/
def get_MovingMedian (R : RulesM) (c : Cursor) : Nat :=
  match c.recent with
  | [] => 0
  | _ => (get_MovingMedianEx R c.recent R.windowMedian0).t

/-- The `BlockInterpretCtx` `HandleBlock` builds: forward, store shielded
outputs, `AlreadyValidated` when the block was applied before,
`SetAssetHi` (asset budget left lazy at the sentinel). -/
def hbBic (R : RulesM) (h : Nat) (firstTime : Bool) (s : ChainState) : Bic :=
  { height := h, fwd := true, alreadyValidated := !firstTime,
    storeShieldedOutput := true, assetsUsed := R.assetMaxCount + 1,
    assetHi := s.assets.length }

/-- `NodeProcessor::HandleBlock` (after deserialization): on a first-time
apply check the four header constraints (chain work, difficulty,
timestamp vs moving median, kernel commitment), run the interpreter, then
the post-apply checks (`Definition` when `height ≥ TxoLo`, sparse inputs
when `height ≤ TxoLo`), reverting the whole block when one fails. -/
def HandleBlock (R : RulesM) (env : HBEnv) (firstTime : Bool) (hdr : Hdr)
    (height : Nat) (blk : Blk) (s : ChainState) : Cor (Bool × ChainState) :=
  let headerOk : Bool :=
    !firstTime ||
      (decide (hdr.chainWork = env.cursor.chainWork + hdr.difficulty) &&
        decide (hdr.difficulty = env.cursor.difficultyNext) &&
        decide (hdr.timestamp > get_MovingMedian R env.cursor) &&
        decide (hdr.kernels = krnRootOf blk))
  if !headerOk then some (false, s)
  else
    match HandleValidatedBlock R blk s (hbBic R height firstTime s) with
    | none => none
    | some (ok, blk', s1, bic1) =>
      if !ok then some (false, s1)
      else if firstTime then
        let defOk : Bool :=
          !decide (height ≥ env.txoLo) ||
            decide (hdr.definition = computeDefinition s1)
        let inpOk : Bool :=
          !decide (height ≤ env.txoLo) ||
            blk'.inputs.all (fun i => decide (i.internalID < env.id0))
        if defOk && inpOk then some (true, s1)
        else
          match HandleValidatedBlock R blk' s1 { bic1 with fwd := false } with
          | some (true, _, s2, _) => some (false, s2)
          | _ => none
      else some (true, s1)

/-- **C3**: a block handled for the first time is rejected — `HandleBlock`
returns `false` with the chain state unchanged — unless all four header
checks hold: the header's chain work equals the parent's chain work plus
the header's difficulty, the difficulty equals the cursor's predicted
`DifficultyNext`, the timestamp is strictly greater than the moving median
of the last `WindowMedian0` timestamps, and the kernel commitment recomputed
over the block's kernels equals the header's `Kernels`; conversely a block
accepted first-time satisfies all four. -/
theorem C3_header_checks {R : RulesM} {env : HBEnv} {hdr : Hdr} {height : Nat}
    {blk : Blk} {s : ChainState} {ok : Bool} {s' : ChainState}
    (hres : HandleBlock R env true hdr height blk s = some (ok, s')) :
    (ok = true →
      hdr.chainWork = env.cursor.chainWork + hdr.difficulty ∧
      hdr.difficulty = env.cursor.difficultyNext ∧
      hdr.timestamp > get_MovingMedian R env.cursor ∧
      hdr.kernels = krnRootOf blk) ∧
    (¬(hdr.chainWork = env.cursor.chainWork + hdr.difficulty ∧
        hdr.difficulty = env.cursor.difficultyNext ∧
        hdr.timestamp > get_MovingMedian R env.cursor ∧
        hdr.kernels = krnRootOf blk) →
      ok = false ∧ s' = s) := by
  rcases hH : (decide (hdr.chainWork = env.cursor.chainWork + hdr.difficulty) &&
      decide (hdr.difficulty = env.cursor.difficultyNext) &&
      decide (hdr.timestamp > get_MovingMedian R env.cursor) &&
      decide (hdr.kernels = krnRootOf blk)) with _ | _
  · simp only [HandleBlock, hH, Bool.not_true, Bool.false_or, Bool.not_false,
      if_true, Option.some.injEq, Prod.mk.injEq] at hres
    rcases hres with ⟨rfl, rfl⟩
    refine ⟨by simp, fun _ => ⟨rfl, rfl⟩⟩
  · simp only [Bool.and_eq_true, decide_eq_true_eq] at hH
    exact ⟨fun _ => ⟨hH.1.1.1, hH.1.1.2, hH.1.2, hH.2⟩, fun hc => absurd
      ⟨hH.1.1.1, hH.1.1.2, hH.1.2, hH.2⟩ hc⟩

def sampleEnv : HBEnv := ⟨⟨0, 7, [⟨1000, 1, 50⟩]⟩, 3, 0⟩

def sampleHdr : Hdr := ⟨7, 7, 821, krnRootOf sampleBlk, computeDefinition sampleS⟩

theorem C3_header_checks_witness :
    sampleHdr.chainWork = sampleEnv.cursor.chainWork + sampleHdr.difficulty ∧
    sampleHdr.difficulty = sampleEnv.cursor.difficultyNext ∧
    sampleHdr.timestamp >
      get_MovingMedian sampleR sampleEnv.cursor ∧
    sampleHdr.kernels = krnRootOf sampleBlk :=
  (@C3_header_checks sampleR sampleEnv sampleHdr 5 sampleBlk sampleS true
    {sampleS with txos := 1} (by rfl)).1 rfl

/-- **C5**: a block applied for the first time and accepted by `HandleBlock`
passed the post-apply checks: when its height is at or above
`SyncData.TxoLo` the header's `Definition` equals the definition recomputed
from the post-apply state, and when its height is at or below `TxoLo` every
input references a TxoID strictly below the count existing at `SyncData.h0`
(no output created inside the sync window is spent). -/
theorem C5_postapply_checks {R : RulesM} {env : HBEnv} {hdr : Hdr}
    {height : Nat} {blk : Blk} {s : ChainState} {s' : ChainState}
    (hres : HandleBlock R env true hdr height blk s = some (true, s')) :
    ∃ blk' bic',
      HandleValidatedBlock R blk s (hbBic R height true s) =
        some (true, blk', s', bic') ∧
      (height ≥ env.txoLo → hdr.definition = computeDefinition s') ∧
      (height ≤ env.txoLo → ∀ i ∈ blk'.inputs, i.internalID < env.id0) := by
  rcases hH : (decide (hdr.chainWork = env.cursor.chainWork + hdr.difficulty) &&
      decide (hdr.difficulty = env.cursor.difficultyNext) &&
      decide (hdr.timestamp > get_MovingMedian R env.cursor) &&
      decide (hdr.kernels = krnRootOf blk)) with _ | _
  · simp [HandleBlock, hH] at hres
  simp only [HandleBlock, hH, Bool.not_true, Bool.false_or, Bool.not_false,
    Bool.false_eq_true, if_false] at hres
  rcases hB : HandleValidatedBlock R blk s (hbBic R height true s) with
    _ | ⟨okB, blkB, s1, bic1⟩
  · simp [hB] at hres
  simp only [hB] at hres
  rcases hokB : okB with _ | _
  · simp [hokB] at hres
  subst hokB
  simp only [Bool.not_true, Bool.false_eq_true, if_false, if_true] at hres
  rcases hC : ((!decide (height ≥ env.txoLo) ||
      decide (hdr.definition = computeDefinition s1)) &&
      (!decide (height ≤ env.txoLo) ||
        blkB.inputs.all (fun i => decide (i.internalID < env.id0)))) with _ | _
  · simp only [hC, Bool.false_eq_true, if_false] at hres
    rcases hB2 : HandleValidatedBlock R blkB s1 { bic1 with fwd := false } with
      _ | ⟨ok2, blk2, s2, bic2⟩
    · simp [hB2] at hres
    · rcases ok2 with _ | _ <;> simp [hB2] at hres
  · simp only [hC, if_true, Option.some.injEq, Prod.mk.injEq] at hres
    rcases hres with ⟨_, rfl⟩
    simp only [Bool.and_eq_true, Bool.or_eq_true, Bool.not_eq_true',
      decide_eq_true_eq, decide_eq_false_iff_not, List.all_eq_true] at hC
    refine ⟨blkB, bic1, ?_, fun hge => ?_, fun hle => ?_⟩
    · rfl
    · rcases hC.1 with hno | hdef
      · exact absurd hge hno
      · exact hdef
    · rcases hC.2 with hno | hinp
      · exact absurd hle hno
      · exact hinp

theorem C5_postapply_checks_witness :
    ∃ blk' bic',
      HandleValidatedBlock sampleR sampleBlk sampleS
          (hbBic sampleR 5 true sampleS) =
        some (true, blk', { sampleS with txos := 1 }, bic') ∧
      (5 ≥ sampleEnv.txoLo →
        sampleHdr.definition = computeDefinition { sampleS with txos := 1 }) ∧
      (5 ≤ sampleEnv.txoLo → ∀ i ∈ blk'.inputs, i.internalID < sampleEnv.id0) :=
  C5_postapply_checks (R := sampleR) (by rfl)

/-- **C1** (amended): forward failures of the block interpreter revert the
applied prefix in reverse order (kernels, then outputs, then inputs) and
return the starting state — provided every output passes
`ValidateAssetRange` (a rejected output leaves behind the UtxoTree leaf
created by the key lookup before that check, see the counterexample) —
and `HandleBlock` performs the same full reversal when a post-apply check
fails after a successful apply. -/
theorem C1_failure_restores {R : RulesM} {blk : Blk} {s : ChainState} (h : Nat)
    (hw : wfB s = true)
    (hki : ∀ e ∈ s.kernelIdx, e.2 = h → e.1 ∉ blk.kernels.map Krn.kid)
    (hnd : (blk.kernels.map Krn.kid).Nodup) :
    (∀ bic ok blk' s' bic', bic.height = h → bic.fwd = true →
      bic.validateOnly = false → bic.updateMmrs = true →
      bic.storeShieldedOutput = true → bic.alreadyValidated = false →
      (∀ o ∈ blk.outputs, ValidateAssetRange bic o.assetProof = true) →
      HandleValidatedTx R blk s bic = some (ok, blk', s', bic') →
      ok = false → s' = s) ∧
    (∀ env hdr ok s',
      (∀ o ∈ blk.outputs,
        ValidateAssetRange (hbBic R h true s) o.assetProof = true) →
      HandleBlock R env true hdr h blk s = some (ok, s') →
      ok = false → s' = s) := by
  constructor
  · intro bic ok blk' s' bic' hh hf hv hu hst hav hva hres hok
    subst hh
    subst hok
    exact (HVT_rt (R := R) hw hf hv hu hst hav hki hnd hres).1 rfl hva
  · intro env hdr ok s' hva hres hok
    subst hok
    rcases hH : (decide (hdr.chainWork = env.cursor.chainWork + hdr.difficulty)
        && decide (hdr.difficulty = env.cursor.difficultyNext) &&
        decide (hdr.timestamp > get_MovingMedian R env.cursor) &&
        decide (hdr.kernels = krnRootOf blk)) with _ | _
    · simp only [HandleBlock, hH, Bool.not_true, Bool.false_or, Bool.not_false,
        if_true, Option.some.injEq, Prod.mk.injEq] at hres
      exact hres.2.symm
    simp only [HandleBlock, hH, Bool.not_true, Bool.false_or, Bool.not_false,
      Bool.false_eq_true, if_false] at hres
    rcases hB : HandleValidatedBlock R blk s (hbBic R h true s) with
      _ | ⟨okB, blkB, s1, bic1⟩
    · simp [hB] at hres
    simp only [hB] at hres
    rcases HVB_rt (R := R) hw rfl rfl rfl rfl rfl hki hnd hB with ⟨hfailB, hSB⟩
    rcases hokB : okB with _ | _
    · subst hokB
      simp only [Bool.not_false, if_true, Option.some.injEq,
        Prod.mk.injEq] at hres
      rw [← hres.2]
      exact hfailB rfl hva
    · subst hokB
      obtain ⟨hw1, htx1, hbwdB⟩ := hSB rfl
      simp only [Bool.not_true, Bool.false_eq_true, if_false, if_true] at hres
      rcases hC : ((!decide (h ≥ env.txoLo) ||
          decide (hdr.definition = computeDefinition s1)) &&
          (!decide (h ≤ env.txoLo) ||
            blkB.inputs.all (fun i => decide (i.internalID < env.id0))))
        with _ | _
      · simp only [hC, Bool.false_eq_true, if_false] at hres
        obtain ⟨aU2, hBb⟩ := hbwdB bic1.assetsUsed bic1.limitExceeded
        rw [hBb] at hres
        simp only [Option.some.injEq, Prod.mk.injEq] at hres
        exact hres.2.symm
      · simp [hC] at hres

/-- An output whose asset proof fails `ValidateAssetRange` is rejected
only after the UtxoTree lookup has created its leaf, so the `false` return
of `HandleValidatedTx` leaves a state that differs from the starting one. -/
theorem C1_partial_revert_counterexample :
    ∃ p, HandleValidatedTx sampleR ⟨[], [⟨9, false, 0, some 1⟩], []⟩ sampleS
        sampleBic = some p ∧ p.1 = false ∧ p.2.2.1 ≠ sampleS := by
  refine ⟨_, rfl, rfl, ?_⟩
  decide

theorem C1_failure_restores_witness :
    sampleBic.height = 5 ∧
    HandleValidatedTx sampleR ⟨[⟨5, 0, 0⟩], [], []⟩ sampleS sampleBic =
      some (false, ⟨[⟨5, 0, 0⟩], [], []⟩, sampleS, sampleBic) ∧
    sampleS = sampleS :=
  ⟨rfl, by rfl,
    (@C1_failure_restores sampleR ⟨[⟨5, 0, 0⟩], [], []⟩ sampleS
        5 (by rfl) (by simp [sampleS]) (by simp)).1
      sampleBic false ⟨[⟨5, 0, 0⟩], [], []⟩ sampleS sampleBic rfl rfl rfl rfl
      rfl rfl (by simp) (by rfl) rfl⟩

/-- **C9**: every forward application of a block through
`HandleValidatedBlock` increments the TxoID counter by the block's output
count plus one (one extra id per block, even with no outputs), backward
application decrements it by exactly the same amount, and the TxoID ranges
consumed by two successive blocks are strictly disjoint (the counter never
re-issues an id, even after full cut-through). -/
theorem C9_txoid_discipline {R : RulesM} {blkA blkB blkA' blkB' : Blk}
    {sA s1 s2 : ChainState} {bicA bicB bicA' bicB' : Bic}
    (hwA : wfB sA = true) (hfA : bicA.fwd = true)
    (hvA : bicA.validateOnly = false) (huA : bicA.updateMmrs = true)
    (hstA : bicA.storeShieldedOutput = true)
    (havA : bicA.alreadyValidated = false)
    (hkiA : ∀ e ∈ sA.kernelIdx, e.2 = bicA.height →
      e.1 ∉ blkA.kernels.map Krn.kid)
    (hndA : (blkA.kernels.map Krn.kid).Nodup)
    (hresA : HandleValidatedBlock R blkA sA bicA =
      some (true, blkA', s1, bicA'))
    (hfB : bicB.fwd = true) (hvB : bicB.validateOnly = false)
    (huB : bicB.updateMmrs = true) (hstB : bicB.storeShieldedOutput = true)
    (havB : bicB.alreadyValidated = false)
    (hkiB : ∀ e ∈ s1.kernelIdx, e.2 = bicB.height →
      e.1 ∉ blkB.kernels.map Krn.kid)
    (hndB : (blkB.kernels.map Krn.kid).Nodup)
    (hresB : HandleValidatedBlock R blkB s1 bicB =
      some (true, blkB', s2, bicB')) :
    s1.txos = sA.txos + blkA.outputs.length + 1 ∧
    s2.txos = s1.txos + blkB.outputs.length + 1 ∧
    sA.txos + blkA.outputs.length < s1.txos ∧
    ∃ aU2, HandleValidatedBlock R blkA' s1 { bicA' with fwd := false } =
      some (true, blkA', sA,
        { bicA with
          fwd := false
          assetsUsed := aU2
          limitExceeded := bicA'.limitExceeded }) ∧
      sA.txos = s1.txos - (blkA.outputs.length + 1) := by
  rcases HVB_rt (R := R) hwA hfA hvA huA hstA havA hkiA hndA hresA
    with ⟨_, hSA⟩
  obtain ⟨hw1, htxA, hbwdA⟩ := hSA rfl
  rcases HVB_rt (R := R) hw1 hfB hvB huB hstB havB hkiB hndB hresB
    with ⟨_, hSB⟩
  obtain ⟨_, htxB, _⟩ := hSB rfl
  obtain ⟨aU2, hAb⟩ := hbwdA bicA'.assetsUsed bicA'.limitExceeded
  exact ⟨htxA, htxB, by omega, aU2, hAb, by omega⟩

theorem C9_txoid_discipline_witness :
    ∃ s1 s2 : ChainState,
      HandleValidatedBlock sampleR sampleBlk sampleS sampleBic =
        some (true, sampleBlk, s1, sampleBic) ∧
      HandleValidatedBlock sampleR sampleBlk s1 { sampleBic with height := 6 } =
        some (true, sampleBlk, s2, { sampleBic with height := 6 }) ∧
      s1.txos = sampleS.txos + sampleBlk.outputs.length + 1 ∧
      s2.txos = s1.txos + sampleBlk.outputs.length + 1 ∧
      sampleS.txos + sampleBlk.outputs.length < s1.txos := by
  have h := @C9_txoid_discipline sampleR sampleBlk sampleBlk sampleBlk
    sampleBlk sampleS { sampleS with txos := 1 } { sampleS with txos := 2 }
    sampleBic { sampleBic with height := 6 } sampleBic
    { sampleBic with height := 6 } (by rfl) rfl rfl rfl rfl rfl
    (by simp [sampleS]) (by simp [sampleBlk]) (by rfl) rfl rfl rfl rfl rfl
    (by simp [sampleS]) (by simp [sampleBlk]) (by rfl)
  exact ⟨{ sampleS with txos := 1 }, { sampleS with txos := 2 }, by rfl,
    by rfl, h.1, h.2.1, h.2.2.1⟩

/-- **C10**: during backward (rollback) application a failing element
handler is never surfaced as a recoverable error: the generic kernel
handler run backward either halts (`OnCorrupted`, modelled `none`) or
returns `true`, and a successful backward vector pass decomposes into a
successful backward step for every element — there is no return path that
leaves a partially-reverted state and continues. -/
theorem C10_rollback_no_partial :
    (∀ (R : RulesM) (v : Krn) (s : ChainState) (bic : Bic) (ok : Bool)
      (s' : ChainState) (bic' : Bic), bic.fwd = false →
      HandleKernelRec R v s bic = some (ok, s', bic') → ok = true) ∧
    (∀ (R : RulesM) (x : Krn) (xs : List Krn) (s : ChainState) (bic : Bic)
      (out : ChainState × Bic), HandleKernelVecBwd R (x :: xs) s bic = some out →
      ∃ s1 bic1 s2 bic2, HandleKernelVecBwd R xs s bic = some (s1, bic1) ∧
        HandleKernelRec R x s1 bic1 = some (true, s2, bic2) ∧
        out = (s2, bic2)) ∧
    (∀ (R : RulesM) (x : Krn) (xs : List Krn) (s : ChainState) (bic : Bic)
      (out : ChainState × Bic), HandleKrnsBwd R (x :: xs) s bic = some out →
      ∃ s1 bic1 s2 bic2, HandleKrnsBwd R xs s bic = some (s1, bic1) ∧
        HandleBlockElementKrn R x s1 bic1 = some (true, s2, bic2) ∧
        out = (s2, bic2)) := by
  refine ⟨?_, ?_, ?_⟩
  · intro R v s bic ok s' bic' hf hres
    rcases v with ⟨kid, data, nested⟩
    simp only [HandleKernelRec, hf, Bool.false_eq_true, if_false] at hres
    rcases hD : HandleKernelData R data s bic with _ | ⟨ok2, s2, bic2⟩
    · simp [hD] at hres
    simp only [hD] at hres
    rcases hok2 : ok2 with _ | _
    · simp [hok2] at hres
    subst hok2
    simp only [Bool.not_true, Bool.false_eq_true, if_false] at hres
    by_cases hv : bic2.validateOnly = true
    · simp only [hv, if_true, Option.some.injEq, Prod.mk.injEq] at hres
      exact hres.1.symm
    · rw [if_neg hv] at hres
      rcases hV : HandleKernelVecBwd R nested s2 bic2 with _ | ⟨s3, bic3⟩
      · simp [hV] at hres
      · simp only [hV, Option.some.injEq, Prod.mk.injEq] at hres
        exact hres.1.symm
  · intro R x xs s bic out hres
    simp only [HandleKernelVecBwd] at hres
    rcases hV : HandleKernelVecBwd R xs s bic with _ | ⟨s1, bic1⟩
    · simp [hV] at hres
    simp only [hV] at hres
    rcases hX : HandleKernelRec R x s1 bic1 with _ | ⟨okx, s2, bic2⟩
    · simp [hX] at hres
    simp only [hX] at hres
    rcases hokx : okx with _ | _
    · simp [hokx] at hres
    subst hokx
    simp only [if_true, Option.some.injEq] at hres
    exact ⟨s1, bic1, s2, bic2, rfl, hX, hres.symm⟩
  · intro R x xs s bic out hres
    simp only [HandleKrnsBwd] at hres
    rcases hV : HandleKrnsBwd R xs s bic with _ | ⟨s1, bic1⟩
    · simp [hV] at hres
    simp only [hV] at hres
    rcases hX : HandleBlockElementKrn R x s1 bic1 with _ | ⟨okx, s2, bic2⟩
    · simp [hX] at hres
    simp only [hX] at hres
    rcases hokx : okx with _ | _
    · simp [hokx] at hres
    subst hokx
    simp only [if_true, Option.some.injEq] at hres
    exact ⟨s1, bic1, s2, bic2, rfl, hX, hres.symm⟩

theorem C10_rollback_no_partial_witness :
    ({ sampleBic with fwd := false } : Bic).fwd = false ∧
    HandleKernelRec sampleR (Krn.mk 1 (.std none) []) sampleS
        { sampleBic with fwd := false } =
      some (true, sampleS, { sampleBic with fwd := false }) ∧
    (true : Bool) = true :=
  ⟨rfl, by rfl,
    C10_rollback_no_partial.1 sampleR (Krn.mk 1 (.std none) []) sampleS
      { sampleBic with fwd := false } true sampleS
      { sampleBic with fwd := false } rfl (by rfl)⟩

/-! ## `Horizon::Normalize` -/

/-- The horizon configuration (`NodeProcessor::Horizon`). -/
structure Horizon where
  branching : Nat
  syncLo : Nat
  syncHi : Nat
  localLo : Nat
  localHi : Nat
deriving DecidableEq, Repr

/-- `NodeProcessor::Horizon::Normalize`. -/
def HorizonNormalize (R : RulesM) (hz : Horizon) : Horizon :=
  let branching := max hz.branching 1
  let syncHi := max hz.syncHi (max R.maxRollback branching)
  let syncLo0 := max hz.syncLo syncHi
  let syncLo := if syncLo0 = syncHi ∧ syncHi < maxHeight then syncLo0 + 1
                else syncLo0
  let localHi := max hz.localHi syncHi
  let localLo := max hz.localLo (max localHi syncLo)
  ⟨branching, syncLo, syncHi, localLo, localHi⟩

/-- **C6** (amended): after `Horizon::Normalize`, for every initial
configuration: `branching ≥ 1`, `sync.Hi ≥ MaxRollback`,
`sync.Lo ≥ sync.Hi` — strictly greater whenever `sync.Hi < MaxHeight`
(the workaround increment is skipped at `sync.Hi = MaxHeight`) —
`local.Hi ≥ sync.Hi` and `local.Lo ≥ max(local.Hi, sync.Lo)`. -/
theorem C6_horizon_normalize (R : RulesM) (hz : Horizon) :
    1 ≤ (HorizonNormalize R hz).branching ∧
    R.maxRollback ≤ (HorizonNormalize R hz).syncHi ∧
    (HorizonNormalize R hz).syncHi ≤ (HorizonNormalize R hz).syncLo ∧
    ((HorizonNormalize R hz).syncHi < maxHeight →
      (HorizonNormalize R hz).syncHi < (HorizonNormalize R hz).syncLo) ∧
    (HorizonNormalize R hz).syncHi ≤ (HorizonNormalize R hz).localHi ∧
    max (HorizonNormalize R hz).localHi (HorizonNormalize R hz).syncLo ≤
      (HorizonNormalize R hz).localLo := by
  simp only [HorizonNormalize, maxHeight]
  split <;> refine ⟨by omega, by omega, by omega, by omega, by omega, by omega⟩

/-- With the default horizon (every field `MaxHeight`), `Normalize` leaves
`sync.Lo = sync.Hi`: the claimed strict inequality `sync.Lo > sync.Hi`
fails because the workaround bump is skipped at `sync.Hi = MaxHeight`. -/
theorem C6_horizon_counterexample :
    ¬ ((HorizonNormalize sampleR
          ⟨maxHeight, maxHeight, maxHeight, maxHeight, maxHeight⟩).syncHi <
        (HorizonNormalize sampleR
          ⟨maxHeight, maxHeight, maxHeight, maxHeight, maxHeight⟩).syncLo) := by
  decide

/-! ## `OnState` / `OnBlock` data-status dispatch -/

/-- `NodeProcessor::DataStatus::Enum`. -/
inductive DataStatus where
  | accepted
  | rejected
  | invalid
  | unreachable
deriving DecidableEq, Repr

/-- Modelled from the spec: a header as seen by `OnStateInternal`.  `hash`
stands for the header's identity hash and `valid` for the outcome of the
cryptographic `SystemState::Full::IsValid` check, which is external code. -/
structure HdrF where
  hash : Nat
  height : Nat
  timestamp : Nat
  valid : Bool
deriving DecidableEq, Repr, Inhabited

/-- `Block::SystemState::ID`: hash plus height. -/
structure StateID where
  hash : Nat
  height : Nat
deriving DecidableEq, Repr, Inhabited

/-- `SystemState::Full::get_ID`. -/
def HdrF.get_ID (s : HdrF) : StateID := ⟨s.hash, s.height⟩

/-- One row of the state table, carrying the stored header, the peer it
came from, the `Functional` flag and the block body stored by
`SetStateBlock`. -/
structure StateRow where
  hdr : HdrF
  peer : Nat
  functional : Bool
  blob : Option (Nat × Nat × Nat)
deriving DecidableEq, Repr, Inhabited

/-- Processor context consulted by `get_LowestReturnHeight` and the
timestamp check: `m_Extra.m_TxoHi`, the fast-sync flag, `m_SyncData.m_h0`,
the cursor height and the current wall clock. -/
structure NPCtx where
  txoHi : Nat
  fastSync : Bool
  syncH0 : Nat
  cursorHeight : Nat
  nowTimestamp : Nat
deriving DecidableEq, Repr

/-- `NodeProcessor::get_LowestReturnHeight`. -/
def get_LowestReturnHeight (R : RulesM) (c : NPCtx) : Nat :=
  let hRet := c.txoHi
  let h0 := if c.fastSync then c.syncH0 else c.cursorHeight
  if R.maxRollback < h0 then max hRet (h0 - R.maxRollback) else hRet

/-- `NodeDB::StateFindSafe`: the row index holding the given id, if any. -/
def StateFindSafe (db : List StateRow) (id : StateID) : Option Nat :=
  db.findIdx? fun e => e.hdr.get_ID = id

/-- `NodeProcessor::OnStateInternal`. -/
def OnStateInternal (R : RulesM) (c : NPCtx) (db : List StateRow)
    (s : HdrF) (bAlreadyChecked : Bool) : DataStatus :=
  if !(bAlreadyChecked || s.valid) then DataStatus.invalid
  else if c.nowTimestamp < s.timestamp ∧
      R.maxAheadS < s.timestamp - c.nowTimestamp then DataStatus.invalid
  else if s.height < get_LowestReturnHeight R c then DataStatus.unreachable
  else if (StateFindSafe db s.get_ID).isSome then DataStatus.rejected
  else DataStatus.accepted

/-- `NodeProcessor::OnStateSilent`: dispatch, then `InsertState` on accept. -/
def OnStateSilent (R : RulesM) (c : NPCtx) (db : List StateRow)
    (s : HdrF) (peer : Nat) (bAlreadyChecked : Bool) :
    DataStatus × List StateRow :=
  let ret := OnStateInternal R c db s bAlreadyChecked
  if ret = DataStatus.accepted then (ret, db ++ [⟨s, peer, false, none⟩])
  else (ret, db)

/-- `NodeProcessor::OnState`. -/
def OnState (R : RulesM) (c : NPCtx) (db : List StateRow)
    (s : HdrF) (peer : Nat) : DataStatus × List StateRow :=
  OnStateSilent R c db s peer false

/-- `NodeProcessor::OnBlock` on a resolved row (the `NodeDB::StateID`
overload): size check, `Functional`-flag check, height check, then
`SetStateBlock` and `SetStateFunctional`. -/
def OnBlockRow (R : RulesM) (c : NPCtx) (db : List StateRow)
    (row : Nat) (hgt bbP bbE peer : Nat) : DataStatus × List StateRow :=
  if R.maxBodySize < bbP + bbE then (DataStatus.invalid, db)
  else if (db.getD row default).functional = true then
    (DataStatus.rejected, db)
  else if hgt < get_LowestReturnHeight R c then (DataStatus.unreachable, db)
  else (DataStatus.accepted,
    db.set row { db.getD row default with
                 peer := peer
                 functional := true
                 blob := some (bbP, bbE, peer) })

/-- `NodeProcessor::OnBlock` (id overload): resolve the row, answering
`Rejected` for an unknown id. -/
def OnBlock (R : RulesM) (c : NPCtx) (db : List StateRow)
    (id : StateID) (bbP bbE peer : Nat) : DataStatus × List StateRow :=
  match StateFindSafe db id with
  | none => (DataStatus.rejected, db)
  | some row => OnBlockRow R c db row id.height bbP bbE peer

/-- **C8** (amended): `OnBlock` answers `Rejected` when the target row's
`Functional` flag is already set, `OnState` answers `Rejected` when the
same header is already stored, and data whose height lies below
`get_LowestReturnHeight` is answered with `Unreachable` — not the
`Rejected` the claim states; in each of these cases the state table is
left unchanged. -/
theorem C8_data_status (R : RulesM) (c : NPCtx) (db : List StateRow)
    (s s2 : HdrF) (id : StateID) (row : Nat) (bbP bbE peer : Nat) :
    (s.valid = true →
      ¬(c.nowTimestamp < s.timestamp ∧
        R.maxAheadS < s.timestamp - c.nowTimestamp) →
      get_LowestReturnHeight R c ≤ s.height →
      (StateFindSafe db s.get_ID).isSome = true →
      OnState R c db s peer = (DataStatus.rejected, db)) ∧
    (bbP + bbE ≤ R.maxBodySize →
      StateFindSafe db id = some row →
      (db.getD row default).functional = true →
      OnBlock R c db id bbP bbE peer = (DataStatus.rejected, db)) ∧
    (s2.valid = true →
      ¬(c.nowTimestamp < s2.timestamp ∧
        R.maxAheadS < s2.timestamp - c.nowTimestamp) →
      s2.height < get_LowestReturnHeight R c →
      OnState R c db s2 peer = (DataStatus.unreachable, db)) ∧
    (bbP + bbE ≤ R.maxBodySize →
      StateFindSafe db id = some row →
      (db.getD row default).functional = false →
      id.height < get_LowestReturnHeight R c →
      OnBlock R c db id bbP bbE peer = (DataStatus.unreachable, db)) := by
  refine ⟨?_, ?_, ?_, ?_⟩
  · intro hv hts hh hfind
    simp only [OnState, OnStateSilent, OnStateInternal, Bool.false_or, hv,
      Bool.not_true, Bool.false_eq_true, if_false]
    rw [if_neg hts,
      if_neg (show ¬ s.height < get_LowestReturnHeight R c from by omega),
      if_pos hfind,
      if_neg (show ¬ DataStatus.rejected = DataStatus.accepted from by decide)]
  · intro hsz hfind hfun
    simp only [OnBlock, hfind, OnBlockRow]
    rw [if_neg (show ¬ R.maxBodySize < bbP + bbE from by omega), if_pos hfun]
  · intro hv hts hh
    simp only [OnState, OnStateSilent, OnStateInternal, Bool.false_or, hv,
      Bool.not_true, Bool.false_eq_true, if_false]
    rw [if_neg hts, if_pos hh,
      if_neg (show ¬ DataStatus.unreachable = DataStatus.accepted from by
        decide)]
  · intro hsz hfind hfun hh
    simp only [OnBlock, hfind, OnBlockRow]
    rw [if_neg (show ¬ R.maxBodySize < bbP + bbE from by omega),
      if_neg (show ¬(db.getD row default).functional = true from by
        rw [hfun]; exact Bool.false_ne_true),
      if_pos hh]

/-- A block and a header whose height lies below `get_LowestReturnHeight`
are answered with `Unreachable`, not with the `Rejected` status the claim
asserts. -/
theorem C8_unreachable_counterexample :
    (OnBlock sampleR ⟨6, false, 0, 0, 1000⟩
        [⟨⟨1, 2, 0, true⟩, 0, false, none⟩] ⟨1, 2⟩ 1 1 0).1
      = DataStatus.unreachable ∧
    (OnState sampleR ⟨6, false, 0, 0, 1000⟩
        [⟨⟨1, 2, 0, true⟩, 0, false, none⟩] ⟨3, 2, 0, true⟩ 0).1
      = DataStatus.unreachable ∧
    DataStatus.unreachable ≠ DataStatus.rejected := by
  refine ⟨by decide, by decide, by decide⟩

theorem C8_data_status_witness :
    OnState sampleR ⟨6, false, 0, 0, 1000⟩ [⟨⟨1, 7, 0, true⟩, 0, true, none⟩]
        ⟨1, 7, 0, true⟩ 0
      = (DataStatus.rejected, [⟨⟨1, 7, 0, true⟩, 0, true, none⟩]) ∧
    OnBlock sampleR ⟨6, false, 0, 0, 1000⟩ [⟨⟨1, 7, 0, true⟩, 0, true, none⟩]
        ⟨1, 7⟩ 1 1 0
      = (DataStatus.rejected, [⟨⟨1, 7, 0, true⟩, 0, true, none⟩]) ∧
    OnState sampleR ⟨6, false, 0, 0, 1000⟩ [⟨⟨1, 2, 0, true⟩, 0, false, none⟩]
        ⟨3, 2, 0, true⟩ 0
      = (DataStatus.unreachable, [⟨⟨1, 2, 0, true⟩, 0, false, none⟩]) ∧
    OnBlock sampleR ⟨6, false, 0, 0, 1000⟩ [⟨⟨1, 2, 0, true⟩, 0, false, none⟩]
        ⟨1, 2⟩ 1 1 0
      = (DataStatus.unreachable, [⟨⟨1, 2, 0, true⟩, 0, false, none⟩]) := by
  have hA := C8_data_status sampleR ⟨6, false, 0, 0, 1000⟩
    [⟨⟨1, 7, 0, true⟩, 0, true, none⟩] ⟨1, 7, 0, true⟩ ⟨3, 2, 0, true⟩
    ⟨1, 7⟩ 0 1 1 0
  have hB := C8_data_status sampleR ⟨6, false, 0, 0, 1000⟩
    [⟨⟨1, 2, 0, true⟩, 0, false, none⟩] ⟨1, 7, 0, true⟩ ⟨3, 2, 0, true⟩
    ⟨1, 2⟩ 0 1 1 0
  exact ⟨hA.1 rfl (by decide) (by decide) (by decide),
    hA.2.1 (by decide) (by decide) rfl,
    hB.2.2.1 rfl (by decide) (by decide),
    hB.2.2.2 (by decide) (by decide) rfl (by decide)⟩

/-! ## `MultiblockContext` flush -/

/-- `NodeProcessor::SyncData`: the fast-sync anchor `m_h0`, the sparse
horizon `m_TxoLo`, the target height and the saved accumulated sigma. -/
structure SyncDataM where
  h0 : Nat
  txoLo : Nat
  target : Nat
  sigma : Int
deriving DecidableEq, Repr

/-- Modelled from the spec: elliptic-curve points and scalars of the batch
verifier are represented by integers, point addition by integer addition,
the identity point by `0` and `G * s` by `s` itself.  This keeps exactly
the algebra the flush logic manipulates: folding sums and comparing with
the identity. -/
def ptG (s : Int) : Int := s

/-- Modelled from the spec: `TxBase::Context::IsValidBlock` on the
accumulated multi-block context demands that the accumulated sigma be the
identity point. -/
def IsValidBlockSigma (sigma : Int) : Bool := sigma = 0

/-- The processor-side state read and written by the multiblock flush:
the fast-sync flag, the sync data and the cursor height (`RollbackTo` is
represented here by resetting the cursor height to the rollback target). -/
structure NPSync where
  fastSync : Bool
  syncData : SyncDataM
  cursorHeight : Nat
deriving DecidableEq, Repr

/-- `NodeProcessor::MultiblockContext` state.  `batchSum` is the drained
batched inner-product sum (`pBc->m_Sum` collected by the `Task1` pass) and
`mscSum` / `macSum` are the contributions added by `m_Msc.Calculate` and
`m_Mac.Calculate`, all modelled from the spec as integers. -/
structure MbcState where
  offset : Int
  sigma : Int
  batchSum : Int
  mscSum : Int
  macSum : Int
  sizePending : Nat
  bFail : Bool
  bBatchDirty : Bool
  inProgressMin : Nat
  inProgressMax : Nat
  pidLast : Option Nat
deriving DecidableEq, Repr

/-- `NodeProcessor::MultiblockContext::OnFastSyncFailed` (with
`bDeleteBlocks`; the block-blob deletion itself is outside the modelled
state): rollback to `h0`, reset the in-progress range, zero the saved
sigma, lower `TxoLo` to `h0` when it is above, and clear `pidLast`. -/
def OnFastSyncFailed (p : NPSync) (m : MbcState) : NPSync × MbcState :=
  let p1 := { p with cursorHeight := p.syncData.h0 }
  let m1 := { m with inProgressMax := p1.cursorHeight
                     inProgressMin := p1.cursorHeight + 1 }
  let p2 := { p1 with syncData := { p1.syncData with sigma := 0 } }
  let p3 := if p2.syncData.h0 < p2.syncData.txoLo then
      { p2 with syncData := { p2.syncData with txoLo := p2.syncData.h0 } }
    else p2
  (p3, { m1 with pidLast := none })

/-- `NodeProcessor::MultiblockContext::OnFastSyncFailedOnLo`. -/
def OnFastSyncFailedOnLo (p : NPSync) (m : MbcState) : NPSync × MbcState :=
  OnFastSyncFailed p { m with pidLast := none }

/-- `NodeProcessor::MultiblockContext::FlushInternal`. -/
def FlushInternal (p : NPSync) (m : MbcState) : NPSync × MbcState :=
  if m.bFail = true ∨ m.inProgressMax < m.inProgressMin then (p, m)
  else
    let ptBatchSigma := m.batchSum + m.mscSum + m.macSum
    let m1 := if m.bBatchDirty = true then
        { m with bBatchDirty := false
                 batchSum := 0
                 mscSum := 0
                 macSum := 0 }
      else m
    if m.bBatchDirty = true ∧ ptBatchSigma ≠ 0 then
      (p, { m1 with bFail := true })
    else if p.fastSync = true then
      let m2 := if m1.offset = 0 then m1
        else { m1 with sigma := m1.sigma + ptG m1.offset
                       offset := 0 }
      if m2.inProgressMax = p.syncData.txoLo then
        if IsValidBlockSigma m2.sigma = true then
          let m3 := { m2 with sigma := 0 }
          ({ p with syncData := { p.syncData with sigma := m3.sigma } },
           { m3 with inProgressMin := m3.inProgressMax + 1 })
        else OnFastSyncFailedOnLo p { m2 with bFail := true }
      else
        ({ p with syncData := { p.syncData with sigma := m2.sigma } },
         { m2 with inProgressMin := m2.inProgressMax + 1 })
    else (p, { m1 with inProgressMin := m1.inProgressMax + 1 })

/-- **C4**: flushing the multiblock verifier with a non-empty in-progress
range and a dirty batch fails (sets `bFail` and stops) whenever the
batched inner-product sum plus the shielded- and asset-aggregator
contributions is not the identity; at the `TxoLo` boundary the folded
sigma (`m_Sigma + G * m_Offset`) must additionally be the identity,
otherwise `OnFastSyncFailedOnLo` runs: rollback to `h0`, `TxoLo` lowered
to `h0`, the saved sigma zeroed and `pidLast` cleared; when the sigma is
the identity the flush completes and advances the range. -/
theorem C4_flush_semantics (p : NPSync) (m : MbcState)
    (hf : m.bFail = false) (hne : m.inProgressMin ≤ m.inProgressMax)
    (hd : m.bBatchDirty = true) :
    (m.batchSum + m.mscSum + m.macSum ≠ 0 →
      FlushInternal p m =
        (p, { m with bBatchDirty := false
                     batchSum := 0
                     mscSum := 0
                     macSum := 0
                     bFail := true })) ∧
    (m.batchSum + m.mscSum + m.macSum = 0 →
      p.fastSync = true →
      m.inProgressMax = p.syncData.txoLo →
      p.syncData.h0 ≤ p.syncData.txoLo →
      ¬ IsValidBlockSigma (m.sigma + m.offset) = true →
      FlushInternal p m =
        ({ p with cursorHeight := p.syncData.h0
                  syncData := { p.syncData with txoLo := p.syncData.h0
                                                sigma := 0 } },
         { m with bBatchDirty := false
                  batchSum := 0
                  mscSum := 0
                  macSum := 0
                  sigma := m.sigma + m.offset
                  offset := 0
                  bFail := true
                  inProgressMax := p.syncData.h0
                  inProgressMin := p.syncData.h0 + 1
                  pidLast := none })) ∧
    (m.batchSum + m.mscSum + m.macSum = 0 →
      p.fastSync = true →
      m.inProgressMax = p.syncData.txoLo →
      IsValidBlockSigma (m.sigma + m.offset) = true →
      FlushInternal p m =
        ({ p with syncData := { p.syncData with sigma := 0 } },
         { m with bBatchDirty := false
                  batchSum := 0
                  mscSum := 0
                  macSum := 0
                  sigma := 0
                  offset := 0
                  inProgressMin := m.inProgressMax + 1 })) := by
  obtain ⟨off, sg, bs, ms, mc, sp, bf, bd, mn, mx, pl⟩ := m
  obtain ⟨fs, ⟨h0, tl, tg, sds⟩, ch⟩ := p
  dsimp only at hf hne hd ⊢
  subst hf; subst hd
  refine ⟨?_, ?_, ?_⟩
  · intro hs
    simp only [FlushInternal, eq_self_iff_true, if_true]
    rw [if_neg (show ¬(false = true ∨ mx < mn) from by
        simp only [Bool.false_eq_true, false_or]; omega),
      if_pos (show True ∧ bs + ms + mc ≠ 0 from ⟨trivial, hs⟩)]
  · intro hs hfs hmax hh0 hsig
    subst hfs; subst hmax
    simp only [FlushInternal, OnFastSyncFailedOnLo, OnFastSyncFailed,
      eq_self_iff_true, if_true]
    rw [if_neg (show ¬(false = true ∨ mx < mn) from by
        simp only [Bool.false_eq_true, false_or]; omega),
      if_neg (show ¬(True ∧ bs + ms + mc ≠ 0) from by simp [hs])]
    by_cases ho : off = 0
    · subst ho
      rw [add_zero] at hsig
      simp only [eq_self_iff_true, if_true]
      rw [if_neg hsig]
      by_cases hlt : h0 < mx
      · rw [if_pos hlt]; simp
      · rw [if_neg hlt]
        have htl : mx = h0 := by omega
        subst htl; simp
    · rw [if_neg ho]
      simp only [ptG, eq_self_iff_true, if_true]
      rw [if_neg (show ¬ IsValidBlockSigma (sg + off) = true from hsig)]
      by_cases hlt : h0 < mx
      · rw [if_pos hlt]
      · rw [if_neg hlt]
        have htl : mx = h0 := by omega
        subst htl; simp
  · intro hs hfs hmax hsig
    subst hfs; subst hmax
    simp only [FlushInternal, eq_self_iff_true, if_true]
    rw [if_neg (show ¬(false = true ∨ mx < mn) from by
        simp only [Bool.false_eq_true, false_or]; omega),
      if_neg (show ¬(True ∧ bs + ms + mc ≠ 0) from by simp [hs])]
    by_cases ho : off = 0
    · subst ho
      rw [add_zero] at hsig
      simp only [eq_self_iff_true, if_true]
      rw [if_pos hsig]
    · rw [if_neg ho]
      simp only [ptG, eq_self_iff_true, if_true]
      rw [if_pos (show IsValidBlockSigma (sg + off) = true from hsig)]

theorem C4_flush_semantics_witness :
    FlushInternal ⟨true, ⟨2, 5, 9, 0⟩, 5⟩
        ⟨1, -1, 0, 0, 0, 0, false, true, 3, 5, some 4⟩
      = (⟨true, ⟨2, 5, 9, 0⟩, 5⟩,
         ⟨0, 0, 0, 0, 0, 0, false, false, 6, 5, some 4⟩) := by
  have h := C4_flush_semantics ⟨true, ⟨2, 5, 9, 0⟩, 5⟩
    ⟨1, -1, 0, 0, 0, 0, false, true, 3, 5, some 4⟩ rfl (by decide) rfl
  exact h.2.2 (by decide) rfl (by decide) (by decide)
